import Mathlib

/-!
Function binder (`src/function/function_binder.cpp`)

A shallow embedding of the overload resolver and of the cast insertion engine of the
function binder, followed by the properties established about them.

* `idx_t` is a natural number below `2 ^ 64`; additions on it wrap.
* `optional_idx` is `Option Nat`, the invalid index being `none`; the conversion of an `idx_t`
  to `optional_idx` throws for the sentinel `2 ^ 64 - 1`.
* `vector<T>` is `List T`; an overload set is the list of its overloads in set order.
* `ErrorData &error` is threaded through: functions take the incoming value and return the
  outgoing one.
* C++ exceptions are the `Except.error` results.
-/

namespace duckdb

/-! ## Data model -/

/-- Tags of a logical type (`LogicalTypeId`), restricted to the tags the binder inspects plus a
few ordinary scalar tags. -/
inductive LogicalTypeId
  | INVALID | SQLNULL | UNKNOWN | ANY | BOOLEAN | INTEGER | BIGINT | VARCHAR
  | STRING_LITERAL | INTEGER_LITERAL | LIST | ARRAY | LAMBDA
  deriving DecidableEq, Repr

/-- Modelled from the spec: the declaration of `LogicalType` is not part of the sources at hand.
A type is an immutable tagged value; the wildcard `ANY` carries an optional target type and the
containers `LIST` and `ARRAY` carry one child type each. A text type may carry a collation
attribute (`VARCHAR_COLLATION`), and it may be qualified by an alias (`VARCHAR_ALIAS`, the alias
being non-empty). -/
inductive LogicalType
  | INVALID | SQLNULL | UNKNOWN | BOOLEAN | INTEGER | BIGINT | VARCHAR
  | STRING_LITERAL | INTEGER_LITERAL | LAMBDA
  | ANY
  | ANY_PARAMS (target : LogicalType)
  | LIST (child : LogicalType)
  | ARRAY (child : LogicalType)
  | VARCHAR_COLLATION (collation : String)
  | VARCHAR_ALIAS (type_alias : String)
  deriving DecidableEq, Repr

namespace LogicalType

/-- The tag of a type: `LogicalType::id()`. -/
def id : LogicalType → LogicalTypeId
  | INVALID => .INVALID
  | SQLNULL => .SQLNULL
  | UNKNOWN => .UNKNOWN
  | BOOLEAN => .BOOLEAN
  | INTEGER => .INTEGER
  | BIGINT => .BIGINT
  | VARCHAR => .VARCHAR
  | STRING_LITERAL => .STRING_LITERAL
  | INTEGER_LITERAL => .INTEGER_LITERAL
  | LAMBDA => .LAMBDA
  | ANY => .ANY
  | ANY_PARAMS _ => .ANY
  | LIST _ => .LIST
  | ARRAY _ => .ARRAY
  | VARCHAR_COLLATION _ => .VARCHAR
  | VARCHAR_ALIAS _ => .VARCHAR

/-- The test `LogicalType::IsUnknown()`. -/
def IsUnknown (t : LogicalType) : Bool := t.id = LogicalTypeId.UNKNOWN

/-- Modelled from the spec: the part of a type that takes part in comparison. Two types are
structurally equal iff their tags and all recursively contained types are equal; the collation
attribute is not part of equality, so it is erased here, at every depth. The comparison
`a == b` of the sources is `a.stripCollation = b.stripCollation`. -/
def stripCollation : LogicalType → LogicalType
  | VARCHAR_COLLATION _ => VARCHAR
  | ANY_PARAMS target => ANY_PARAMS target.stripCollation
  | LIST child => LIST child.stripCollation
  | ARRAY child => ARRAY child.stripCollation
  | t => t

/-- The test `LogicalType::HasAlias()`. -/
def HasAlias : LogicalType → Bool
  | VARCHAR_ALIAS _ => true
  | _ => false

end LogicalType

/-- Modelled from the spec: `AnyType::GetTargetType` is declared outside the sources at hand.
It yields the target carried by a wildcard, and the wildcard itself if it carries none. -/
def AnyType.GetTargetType : LogicalType → LogicalType
  | .ANY_PARAMS target => target
  | t => t

/-- The signature part of a callable (`SimpleFunction`): the declared parameter types and the
variadic type, which is `INVALID` when the function is not variadic. -/
structure SimpleFunction where
  name : String
  arguments : List LogicalType
  varargs : LogicalType
  catalog_name : String
  schema_name : String
  deriving DecidableEq, Repr

/-- Modelled from the spec: `SimpleFunction::HasVarArgs` is declared outside the sources at hand;
a function is variadic iff it carries a variadic type. -/
def SimpleFunction.HasVarArgs (func : SimpleFunction) : Bool :=
  func.varargs.id ≠ LogicalTypeId.INVALID

/-- The effective parameter type at position `i`:
`i < func.arguments.size() ? func.arguments[i] : func.varargs`. -/
def SimpleFunction.paramAt (func : SimpleFunction) (i : Nat) : LogicalType :=
  if i < func.arguments.length then func.arguments.getD i LogicalType.INVALID else func.varargs

/-- Modelled from the spec: the external collaborators reached through the client context, namely
the implicit cast cost oracle (`CastFunctionSet::Get(context).ImplicitCastCost`, an `int64_t`,
negative meaning that no implicit cast exists) and the two renderers used in diagnostics
(`ToString` of an overload and `Function::CallToString`). -/
structure ClientContext where
  ImplicitCastCost : LogicalType → LogicalType → Int
  ToString : SimpleFunction → String
  CallToString : String → String → String → List LogicalType → String

/-- The value of `ErrorData`: default constructed (no error), the result of
`BinderException::NoMatchingFunction`, or a binder error with a message. -/
inductive ErrorData
  | NONE
  | NoMatchingFunction (catalog_name schema_name name : String) (arguments : List LogicalType)
      (candidates : List String)
  | BINDER (message : String)
  deriving DecidableEq, Repr

/-- The exceptions thrown by the binder. -/
inductive BinderThrow
  | ParameterNotResolvedException
  | InternalException (message : String)
  | BinderException (message : String)
  deriving DecidableEq, Repr

/-- The largest `idx_t`: `NumericLimits<idx_t>::Maximum()`. -/
def IDX_MAX : Nat := 2 ^ 64 - 1

/-! ## Overload resolver -/

/-- Modelled from the spec: `optional_idx` is declared outside the sources at hand. Its invalid
value is the sentinel `idx_t(-1)`, here `none`, and the implicit conversion of an `idx_t` to
`optional_idx`, as in `return cost;`, throws an `InternalException` when it is given the
sentinel. -/
def optional_idx.ofIndex (index : Nat) : Except BinderThrow (Option Nat) :=
  if index = IDX_MAX then
    .error (BinderThrow.InternalException
      "optional_idx cannot be initialized with an invalid index")
  else
    .ok (some index)

/-- The loop of `BindVarArgsFunctionCost`, from position `i` on with running cost `cost`. -/
def BindVarArgsFunctionCostLoop (context : ClientContext) (func : SimpleFunction) :
    List LogicalType → Nat → Nat → Option Nat
  | [], _, cost => some cost
  | argument :: rest, i, cost =>
    let arg_type := func.paramAt i
    if argument.stripCollation = arg_type.stripCollation then
      BindVarArgsFunctionCostLoop context func rest (i + 1) cost
    else
      let cast_cost := context.ImplicitCastCost argument arg_type
      if cast_cost ≥ 0 then
        BindVarArgsFunctionCostLoop context func rest (i + 1) ((cost + cast_cost.toNat) % 2 ^ 64)
      else
        none

/-- The function `FunctionBinder::BindVarArgsFunctionCost`: the invalid index when the overload
is infeasible, and otherwise the conversion of the summed cost to `optional_idx`. -/
def BindVarArgsFunctionCost (context : ClientContext) (func : SimpleFunction)
    (arguments : List LogicalType) : Except BinderThrow (Option Nat) :=
  if arguments.length < func.arguments.length then
    .ok none
  else
    match BindVarArgsFunctionCostLoop context func arguments 0 0 with
    | none => .ok none
    | some cost => optional_idx.ofIndex cost

/-- The loop of `BindFunctionCost`, from position `i` on with running cost `cost` and the flag
`has_parameter`; the result is the pair of the final cost and flag. -/
def BindFunctionCostLoop (context : ClientContext) (func : SimpleFunction) :
    List LogicalType → Nat → Nat → Bool → Option (Nat × Bool)
  | [], _, cost, has_parameter => some (cost, has_parameter)
  | argument :: rest, i, cost, has_parameter =>
    if argument.id = LogicalTypeId.UNKNOWN then
      BindFunctionCostLoop context func rest (i + 1) cost true
    else
      let cast_cost :=
        context.ImplicitCastCost argument (func.arguments.getD i LogicalType.INVALID)
      if cast_cost ≥ 0 then
        BindFunctionCostLoop context func rest (i + 1) ((cost + cast_cost.toNat) % 2 ^ 64)
          has_parameter
      else
        none

/-- The function `FunctionBinder::BindFunctionCost`: the invalid index when the overload is
infeasible, `0` when some argument is the unknown placeholder, and otherwise the conversion of
the summed cost to `optional_idx`. -/
def BindFunctionCost (context : ClientContext) (func : SimpleFunction)
    (arguments : List LogicalType) : Except BinderThrow (Option Nat) :=
  if func.HasVarArgs then
    BindVarArgsFunctionCost context func arguments
  else if func.arguments.length ≠ arguments.length then
    .ok none
  else
    match BindFunctionCostLoop context func arguments 0 0 false with
    | none => .ok none
    | some (cost, has_parameter) =>
      if has_parameter then .ok (some 0) else optional_idx.ofIndex cost

/-- The local variables of the loop of `BindFunctionsFromArguments`. -/
structure BindLoopState where
  best_function : Option Nat
  lowest_cost : Nat
  candidate_functions : List Nat
  deriving DecidableEq, Repr

/-- The loop of `BindFunctionsFromArguments` over the overloads from index `f_idx` on. An
exception thrown by `BindFunctionCost` leaves the loop. An index into a vector is below
`2 ^ 64 - 1`, so the conversion in `best_function = f_idx` does not throw. -/
def BindFunctionsLoop (context : ClientContext) (arguments : List LogicalType) :
    List SimpleFunction → Nat → BindLoopState → Except BinderThrow BindLoopState
  | [], _, s => .ok s
  | func :: rest, f_idx, s =>
    match BindFunctionCost context func arguments with
    | .error e => .error e
    | .ok none => BindFunctionsLoop context arguments rest (f_idx + 1) s
    | .ok (some cost) =>
      if cost = s.lowest_cost then
        BindFunctionsLoop context arguments rest (f_idx + 1)
          { s with candidate_functions := s.candidate_functions ++ [f_idx] }
      else if cost > s.lowest_cost then
        BindFunctionsLoop context arguments rest (f_idx + 1) s
      else
        BindFunctionsLoop context arguments rest (f_idx + 1)
          { best_function := some f_idx, lowest_cost := cost, candidate_functions := [] }

/-- The scan for the first non-empty catalog or schema name in the no-match branch. -/
def firstNonEmptyName (names : List String) : String :=
  names.foldl (fun acc n => if acc = "" ∧ n ≠ "" then n else acc) ""

/-- The function `FunctionBinder::BindFunctionsFromArguments`: the candidate list and the
outgoing error, or the exception thrown while an overload was costed. -/
def BindFunctionsFromArguments (context : ClientContext) (name : String)
    (functions : List SimpleFunction) (arguments : List LogicalType) (error : ErrorData) :
    Except BinderThrow (List Nat × ErrorData) :=
  match BindFunctionsLoop context arguments functions 0
    { best_function := none, lowest_cost := IDX_MAX, candidate_functions := [] } with
  | .error e => .error e
  | .ok s =>
    match s.best_function with
    | none =>
      let candidates := functions.map context.ToString
      let catalog_name := firstNonEmptyName (functions.map (fun f => f.catalog_name))
      let schema_name := firstNonEmptyName (functions.map (fun f => f.schema_name))
      .ok (s.candidate_functions,
        ErrorData.NoMatchingFunction catalog_name schema_name name arguments candidates)
    | some best => .ok (s.candidate_functions ++ [best], error)

/-- The function `FunctionSet::GetFunctionByOffset`, whose bound check is an assertion. -/
def GetFunctionByOffset (functions : List SimpleFunction) (offset : Nat) : SimpleFunction :=
  functions.getD offset
    { name := "", arguments := [], varargs := LogicalType.INVALID, catalog_name := "",
      schema_name := "" }

/-- The function `FunctionBinder::MultipleCandidateException`: it returns the invalid index and
records the error listing the candidates. -/
def MultipleCandidateException (context : ClientContext) (catalog_name schema_name name : String)
    (functions : List SimpleFunction) (candidate_functions : List Nat)
    (arguments : List LogicalType) : Option Nat × ErrorData :=
  let call_str := context.CallToString catalog_name schema_name name arguments
  let candidate_str := candidate_functions.foldl
    (fun acc conf => acc ++ ("\t" ++ context.ToString (GetFunctionByOffset functions conf) ++ "\n"))
    ""
  (none, ErrorData.BINDER
    ("Could not choose a best candidate function for the function call \"" ++ call_str ++
      "\". In order to select one, please add explicit type casts.\n\tCandidate functions:\n" ++
      candidate_str))

/-- The catalog name passed on to `MultipleCandidateException`:
`functions.functions.size() > 0 ? functions.functions[0].catalog_name : ""`. -/
def firstCatalogName : List SimpleFunction → String
  | [] => ""
  | f :: _ => f.catalog_name

/-- The schema name passed on to `MultipleCandidateException`:
`functions.functions.size() > 0 ? functions.functions[0].schema_name : ""`. -/
def firstSchemaName : List SimpleFunction → String
  | [] => ""
  | f :: _ => f.schema_name

/-- The function `FunctionBinder::BindFunctionFromArguments`. -/
def BindFunctionFromArguments (context : ClientContext) (name : String)
    (functions : List SimpleFunction) (arguments : List LogicalType) (error : ErrorData) :
    Except BinderThrow (Option Nat × ErrorData) :=
  match BindFunctionsFromArguments context name functions arguments error with
  | .error e => .error e
  | .ok r =>
    match r.1 with
    | [] => .ok (none, r.2)
    | [candidate] => .ok (some candidate, r.2)
    | _ :: _ :: _ =>
      if arguments.any LogicalType.IsUnknown then
        .error BinderThrow.ParameterNotResolvedException
      else
        .ok (MultipleCandidateException context (firstCatalogName functions)
          (firstSchemaName functions) name functions r.1 arguments)

/-! ## Cast insertion engine -/

/-- The result of comparing an argument type with a target type. -/
inductive LogicalTypeComparisonResult
  | IDENTICAL_TYPE | TARGET_IS_ANY | DIFFERENT_TYPES
  deriving DecidableEq, Repr

/-- The function `RequiresCast`. -/
def RequiresCast : LogicalType → LogicalType → LogicalTypeComparisonResult
  | source_type, target_type =>
    if target_type.id = LogicalTypeId.ANY then
      LogicalTypeComparisonResult.TARGET_IS_ANY
    else if source_type.stripCollation = target_type.stripCollation then
      LogicalTypeComparisonResult.IDENTICAL_TYPE
    else
      match source_type, target_type with
      | .LIST source_child, .LIST target_child => RequiresCast source_child target_child
      | .ARRAY source_child, .ARRAY target_child => RequiresCast source_child target_child
      | _, _ => LogicalTypeComparisonResult.DIFFERENT_TYPES

/-- The function `TypeRequiresPrepare`. -/
def TypeRequiresPrepare : LogicalType → Bool
  | .ANY => true
  | .ANY_PARAMS _ => true
  | .LIST child => TypeRequiresPrepare child
  | _ => false

/-- The function `PrepareTypeForCastRecursive`. -/
def PrepareTypeForCastRecursive : LogicalType → LogicalType
  | .ANY => AnyType.GetTargetType .ANY
  | .ANY_PARAMS target => AnyType.GetTargetType (.ANY_PARAMS target)
  | .LIST child => .LIST (PrepareTypeForCastRecursive child)
  | t => t

/-- The function `PrepareTypeForCast`, returning the new value of its in-out argument. -/
def PrepareTypeForCast (type : LogicalType) : LogicalType :=
  if !TypeRequiresPrepare type then type else PrepareTypeForCastRecursive type

/-- A bound expression, as far as the cast insertion engine looks at it: either a cast node
around a child, or any other bound expression with its return type. -/
inductive Expression
  | bound (name : String) (return_type : LogicalType)
  | BoundCastExpression (child : Expression) (target_type : LogicalType)
  deriving DecidableEq, Repr

/-- The field `return_type` of an expression; a cast node returns its target type. -/
def Expression.return_type : Expression → LogicalType
  | .bound _ t => t
  | .BoundCastExpression _ t => t

/-- Modelled from the spec: `BoundCastExpression::AddCastToType` is defined outside the sources
at hand. It wraps the argument in a cast-to-target-type expression that takes ownership of the
original argument. -/
def AddCastToType (expr : Expression) (target_type : LogicalType) : Expression :=
  Expression.BoundCastExpression expr target_type

/-- The second loop of `CastToFunctionArguments`, from position `i` on, over the already prepared
function. -/
def CastToFunctionArgumentsLoop (function : SimpleFunction) :
    List Expression → Nat → Except BinderThrow (List Expression)
  | [], _ => .ok []
  | child :: rest, i =>
    let target_type := function.paramAt i
    if target_type.id = LogicalTypeId.STRING_LITERAL ∨
        target_type.id = LogicalTypeId.INTEGER_LITERAL then
      .error (BinderThrow.InternalException
        ("Function " ++ function.name ++
          " returned a STRING_LITERAL or INTEGER_LITERAL type - return an explicit type instead"))
    else if child.return_type.id = LogicalTypeId.LAMBDA then
      (CastToFunctionArgumentsLoop function rest (i + 1)).map (fun cs => child :: cs)
    else
      let cast_result := RequiresCast child.return_type target_type
      let child' :=
        if cast_result = LogicalTypeComparisonResult.DIFFERENT_TYPES then
          AddCastToType child target_type
        else child
      (CastToFunctionArgumentsLoop function rest (i + 1)).map (fun cs => child' :: cs)

/-- The first part of `CastToFunctionArguments`: every declared parameter type and the variadic
type are prepared in place. -/
def PrepareFunctionForCast (function : SimpleFunction) : SimpleFunction :=
  { function with
    arguments := function.arguments.map PrepareTypeForCast
    varargs := PrepareTypeForCast function.varargs }

/-- The function `FunctionBinder::CastToFunctionArguments`: the new values of the function and of
the children, or the exception thrown. -/
def CastToFunctionArguments (function : SimpleFunction) (children : List Expression) :
    Except BinderThrow (SimpleFunction × List Expression) :=
  let function' := PrepareFunctionForCast function
  (CastToFunctionArgumentsLoop function' children 0).map (fun cs => (function', cs))

/-! ## Vocabulary of the properties

The conversion of a summed cost to `optional_idx` is the only place at which the resolver throws
an `InternalException`. The definitions `varArgsCostSum`, `costSum`, `scanLoop`, `scanCandidates`
and `resolveBySum` describe the resolver on the summed costs themselves, before that conversion;
they are the tool by which the properties of the resolver are proved, and they agree with the
resolver as soon as the costing of no overload throws. -/

/-- Auxiliary definition for the proofs: the summed cost of a variadic overload, before
`BindVarArgsFunctionCost` converts it to `optional_idx`; `none` when the overload is
infeasible. -/
def varArgsCostSum (context : ClientContext) (func : SimpleFunction)
    (arguments : List LogicalType) : Option Nat :=
  if arguments.length < func.arguments.length then
    none
  else
    BindVarArgsFunctionCostLoop context func arguments 0 0

/-- Auxiliary definition for the proofs: the summed cost of an overload, before
`BindFunctionCost` converts it to `optional_idx`; `none` when the overload is infeasible. -/
def costSum (context : ClientContext) (func : SimpleFunction)
    (arguments : List LogicalType) : Option Nat :=
  if func.HasVarArgs then
    varArgsCostSum context func arguments
  else if func.arguments.length ≠ arguments.length then
    none
  else
    match BindFunctionCostLoop context func arguments 0 0 false with
    | none => none
    | some (cost, has_parameter) => if has_parameter then some 0 else some cost

/-- Auxiliary definition for the proofs: the loop of `BindFunctionsFromArguments` run on the
summed costs, none of which is converted. -/
def scanLoop (context : ClientContext) (arguments : List LogicalType) :
    List SimpleFunction → Nat → BindLoopState → BindLoopState
  | [], _, s => s
  | func :: rest, f_idx, s =>
    match costSum context func arguments with
    | none => scanLoop context arguments rest (f_idx + 1) s
    | some cost =>
      if cost = s.lowest_cost then
        scanLoop context arguments rest (f_idx + 1)
          { s with candidate_functions := s.candidate_functions ++ [f_idx] }
      else if cost > s.lowest_cost then
        scanLoop context arguments rest (f_idx + 1) s
      else
        scanLoop context arguments rest (f_idx + 1)
          { best_function := some f_idx, lowest_cost := cost, candidate_functions := [] }

/-- Auxiliary definition for the proofs: the candidate list and the outgoing error of
`BindFunctionsFromArguments` run on the summed costs. -/
def scanCandidates (context : ClientContext) (name : String)
    (functions : List SimpleFunction) (arguments : List LogicalType) (error : ErrorData) :
    List Nat × ErrorData :=
  let s := scanLoop context arguments functions 0
    { best_function := none, lowest_cost := IDX_MAX, candidate_functions := [] }
  match s.best_function with
  | none =>
    let candidates := functions.map context.ToString
    let catalog_name := firstNonEmptyName (functions.map (fun f => f.catalog_name))
    let schema_name := firstNonEmptyName (functions.map (fun f => f.schema_name))
    (s.candidate_functions,
      ErrorData.NoMatchingFunction catalog_name schema_name name arguments candidates)
  | some best => (s.candidate_functions ++ [best], error)

/-- Auxiliary definition for the proofs: the result of `BindFunctionFromArguments` run on the
summed costs. -/
def resolveBySum (context : ClientContext) (name : String)
    (functions : List SimpleFunction) (arguments : List LogicalType) (error : ErrorData) :
    Except BinderThrow (Option Nat × ErrorData) :=
  let r := scanCandidates context name functions arguments error
  match r.1 with
  | [] => .ok (none, r.2)
  | [candidate] => .ok (some candidate, r.2)
  | _ :: _ :: _ =>
    if arguments.any LogicalType.IsUnknown then
      .error BinderThrow.ParameterNotResolvedException
    else
      .ok (MultipleCandidateException context (firstCatalogName functions)
        (firstSchemaName functions) name functions r.1 arguments)

/-- The summed cost of the overload at index `j` of the set, if there is such an overload and it
is feasible for the arguments. -/
def costSumAt (context : ClientContext) (functions : List SimpleFunction)
    (arguments : List LogicalType) (j : Nat) : Option Nat :=
  match functions[j]? with
  | none => none
  | some func => costSum context func arguments

/-- The invariant of the loop `scanLoop` once the overloads below index `k`
have been visited. -/
structure LoopInv (context : ClientContext) (functions : List SimpleFunction)
    (arguments : List LogicalType) (k : Nat) (s : BindLoopState) : Prop where
  le_max : s.lowest_cost ≤ IDX_MAX
  lower : ∀ j c, j < k → costSumAt context functions arguments j = some c → s.lowest_cost ≤ c
  mem_iff : ∀ j, (j ∈ s.candidate_functions ∨ s.best_function = some j) ↔
    (j < k ∧ costSumAt context functions arguments j = some s.lowest_cost)
  sorted : s.candidate_functions.Pairwise (fun a b => a < b)
  best_lt : ∀ b, s.best_function = some b → ∀ c ∈ s.candidate_functions, b < c
  none_max : s.best_function = none → s.lowest_cost = IDX_MAX

/-- The state in which the loop `scanLoop` ends. -/
def finalState (context : ClientContext) (functions : List SimpleFunction)
    (arguments : List LogicalType) : BindLoopState :=
  scanLoop context arguments functions 0
    { best_function := none, lowest_cost := IDX_MAX, candidate_functions := [] }

/-! ## Collation propagation engine -/

/-- The function `RequiresCollationPropagation`: the type is a text type without alias. -/
def RequiresCollationPropagation (type : LogicalType) : Bool :=
  decide (type.id = LogicalTypeId.VARCHAR) && !type.HasAlias

/-- Modelled from the spec: `StringType::GetCollation` is defined outside the sources at hand. It
yields the collation attribute carried by a text type, the empty string if it carries none. -/
def StringType.GetCollation : LogicalType → String
  | .VARCHAR_COLLATION collation => collation
  | _ => ""

/-- The assignment `arg->return_type = type` on an expression. -/
def Expression.setReturnType : Expression → LogicalType → Expression
  | .bound name _, type => .bound name type
  | .BoundCastExpression child _, type => .BoundCastExpression child type

/-- The loop of `ExtractCollation`, with the collation found so far. -/
def ExtractCollationLoop : List Expression → String → Except BinderThrow String
  | [], collation => .ok collation
  | arg :: rest, collation =>
    if !RequiresCollationPropagation arg.return_type then
      ExtractCollationLoop rest collation
    else
      let child_collation := StringType.GetCollation arg.return_type
      if collation = "" then
        ExtractCollationLoop rest child_collation
      else if child_collation ≠ "" ∧ collation ≠ child_collation then
        .error (BinderThrow.BinderException "Cannot combine types with different collation!")
      else
        ExtractCollationLoop rest collation

/-- The function `ExtractCollation`. -/
def ExtractCollation (children : List Expression) : Except BinderThrow String :=
  ExtractCollationLoop children ""

/-- The null handling policy of a scalar function. -/
inductive FunctionNullHandling
  | DEFAULT_NULL_HANDLING | SPECIAL_HANDLING
  deriving DecidableEq, Repr

/-- The collation handling policy of a scalar function. The enumeration is closed, so the
`default` branch of the `switch` in `HandleCollations` is not reachable. -/
inductive FunctionCollationHandling
  | PROPAGATE_COLLATIONS | PUSH_COMBINABLE_COLLATIONS | IGNORE_COLLATIONS
  deriving DecidableEq, Repr

/-- The kind of collation wrappers requested from `ExpressionBinder::PushCollation`. -/
inductive CollationType
  | ALL_COLLATIONS | COMBINABLE_COLLATIONS
  deriving DecidableEq, Repr

/-- A value, as far as the binder looks at it: its type and whether it is null. -/
structure Value where
  type : LogicalType
  IsNull : Bool
  deriving DecidableEq, Repr

/-- Modelled from the spec: the external expression layer the call binder consumes, none of
which is defined in the sources at hand: the type under which an argument takes part in
resolution (`ExpressionBinder::GetExpressionReturnType`), constant folding (`IsFoldable`,
`ExpressionExecutor::TryEvaluateScalar`), the test whether a declared return type is fully
concrete (`LogicalType::IsComplete`), and the insertion of collation-enforcing wrappers around an
argument (`ExpressionBinder::PushCollation`), which may throw. -/
structure ExpressionLayer where
  GetExpressionReturnType : Expression → LogicalType
  IsFoldable : Expression → Bool
  TryEvaluateScalar : Expression → Option Value
  IsComplete : LogicalType → Bool
  PushCollation : Expression → LogicalType → CollationType → Except BinderThrow Expression

/-- The data of a scalar function: its signature, declared return type and policies. -/
structure ScalarFunctionData extends SimpleFunction where
  return_type : LogicalType
  null_handling : FunctionNullHandling
  collation_handling : FunctionCollationHandling
  deriving DecidableEq, Repr

/-- The function `PropagateCollations`: the new value of the function. -/
def PropagateCollations (bound_function : ScalarFunctionData) (children : List Expression) :
    Except BinderThrow ScalarFunctionData :=
  if !RequiresCollationPropagation bound_function.return_type then
    .ok bound_function
  else
    match ExtractCollation children with
    | .error e => .error e
    | .ok collation =>
      if collation = "" then
        .ok bound_function
      else
        .ok { bound_function with return_type := LogicalType.VARCHAR_COLLATION collation }

/-- The loop of `PushCollations` over the children. -/
def PushCollationsLoop (layer : ExpressionLayer) (collation_type : LogicalType)
    (type : CollationType) : List Expression → Except BinderThrow (List Expression)
  | [] => .ok []
  | arg :: rest =>
    let arg' :=
      if RequiresCollationPropagation arg.return_type then arg.setReturnType collation_type
      else arg
    match layer.PushCollation arg' arg'.return_type type with
    | .error e => .error e
    | .ok pushed => (PushCollationsLoop layer collation_type type rest).map (fun cs => pushed :: cs)

/-- The function `PushCollations`: the new values of the function and of the children. -/
def PushCollations (layer : ExpressionLayer) (bound_function : ScalarFunctionData)
    (children : List Expression) (type : CollationType) :
    Except BinderThrow (ScalarFunctionData × List Expression) :=
  match ExtractCollation children with
  | .error e => .error e
  | .ok collation =>
    if collation = "" then
      .ok (bound_function, children)
    else
      let collation_type := LogicalType.VARCHAR_COLLATION collation
      let bound_function' :=
        if RequiresCollationPropagation bound_function.return_type then
          { bound_function with return_type := collation_type }
        else bound_function
      (PushCollationsLoop layer collation_type type children).map
        (fun cs => (bound_function', cs))

/-- The function `HandleCollations`: the new values of the function and of the children. -/
def HandleCollations (layer : ExpressionLayer) (bound_function : ScalarFunctionData)
    (children : List Expression) : Except BinderThrow (ScalarFunctionData × List Expression) :=
  match bound_function.collation_handling with
  | .IGNORE_COLLATIONS => .ok (bound_function, children)
  | .PROPAGATE_COLLATIONS =>
    (PropagateCollations bound_function children).map (fun f => (f, children))
  | .PUSH_COMBINABLE_COLLATIONS =>
    PushCollations layer bound_function children CollationType.COMBINABLE_COLLATIONS

/-! ## Call binder -/

/-- Opaque function-specific bind data; a label and a list of types stand for its content. -/
structure FunctionData where
  label : String
  types : List LogicalType
  deriving DecidableEq, Repr

/-- The statement properties of the enclosing binder, as far as the binder of calls touches
them: the databases reported as modified. -/
structure StatementProperties where
  modified_databases : List String
  deriving DecidableEq, Repr

/-- The enclosing statement binder: its client context and its statement properties. -/
structure Binder where
  context : ClientContext
  properties : StatementProperties

/-- The object `FunctionBinder`: the member `binder` and the member `context`. -/
structure FunctionBinder where
  binder : Option Binder
  context : ClientContext

/-- The constructor `FunctionBinder::FunctionBinder(ClientContext &)`. -/
def FunctionBinder.ofContext (context_p : ClientContext) : FunctionBinder :=
  { binder := none, context := context_p }

/-- The constructor `FunctionBinder::FunctionBinder(Binder &)`. -/
def FunctionBinder.ofBinder (binder_p : Binder) : FunctionBinder :=
  { binder := some binder_p, context := binder_p.context }

/-- What a bind callback leaves behind: the bind data it returns and the values of the function
and of the arguments, both of which it receives by reference. -/
structure BindOutput where
  bind_info : Option FunctionData
  bound_function : ScalarFunctionData
  arguments : List Expression
  deriving DecidableEq, Repr

/-- A scalar function: its data and its optional callbacks. A callback receives the data of the
function and the arguments and may throw; the callbacks themselves are not changed by a
callback. -/
structure ScalarFunction extends ScalarFunctionData where
  bind :
    Option (ClientContext → ScalarFunctionData → List Expression →
      Except BinderThrow BindOutput)
  bind_extended :
    Option (Binder → ScalarFunctionData → List Expression → Except BinderThrow BindOutput)
  get_modified_databases :
    Option (ClientContext → Option FunctionData → StatementProperties →
      Except BinderThrow StatementProperties)
  bind_expression :
    Option (ClientContext → Option FunctionData → List Expression →
      Except BinderThrow (Option Expression × List Expression))

/-- The expression returned by the scalar call binder: a constant, a bound function expression,
or the expression a `bind_expression` callback put in its place. -/
inductive BoundExpression
  | BoundConstantExpression (value : Value)
  | BoundFunctionExpression (return_type : LogicalType) (function : ScalarFunctionData)
      (children : List Expression) (bind_info : Option FunctionData) (is_operator : Bool)
  | rewritten (expr : Expression)
  deriving DecidableEq, Repr

/-- The first step of `BindScalarFunction(ScalarFunction, ...)`: the bind callback if present,
else the extended bind callback if present, which needs the parameter `binder`. -/
def InvokeBind (context : ClientContext) (bound_function : ScalarFunction)
    (children : List Expression) (binder : Option Binder) : Except BinderThrow BindOutput :=
  match bound_function.bind with
  | some bind => bind context bound_function.toScalarFunctionData children
  | none =>
    match bound_function.bind_extended with
    | some bind_extended =>
      match binder with
      | none =>
        .error (BinderThrow.InternalException
          ("Function '" ++ bound_function.name ++
            "' has a 'bind_extended' but the FunctionBinder was created without " ++
            "a reference to a Binder"))
      | some b => bind_extended b bound_function.toScalarFunctionData children
    | none =>
      .ok { bind_info := none, bound_function := bound_function.toScalarFunctionData,
            arguments := children }

/-- The second step of `BindScalarFunction(ScalarFunction, ...)`: the modified databases
callback, invoked only if it is present and the parameter `binder` is. -/
def InvokeModifiedDatabases (context : ClientContext) (bound_function : ScalarFunction)
    (bind_info : Option FunctionData) (binder : Option Binder) :
    Except BinderThrow (Option Binder) :=
  match bound_function.get_modified_databases, binder with
  | some get_modified_databases, some b =>
    (get_modified_databases context bind_info b.properties).map
      (fun properties => some { b with properties := properties })
  | _, _ => .ok binder

/-- The last steps of `BindScalarFunction(ScalarFunction, ...)`: the bound function expression is
built, and replaced by the result of the `bind_expression` callback if that yields one. -/
def FinishScalarFunction (context : ClientContext) (bound_function : ScalarFunction)
    (data : ScalarFunctionData) (children : List Expression) (bind_info : Option FunctionData)
    (is_operator : Bool) : Except BinderThrow BoundExpression :=
  let return_type := data.return_type
  match bound_function.bind_expression with
  | some bind_expression =>
    match bind_expression context bind_info children with
    | .error e => .error e
    | .ok (some result, _) => .ok (BoundExpression.rewritten result)
    | .ok (none, children') =>
      .ok (BoundExpression.BoundFunctionExpression return_type data children' bind_info
        is_operator)
  | none =>
    .ok (BoundExpression.BoundFunctionExpression return_type data children bind_info is_operator)

/-- The function `FunctionBinder::BindScalarFunction(ScalarFunction, ...)`: the bound expression
and the enclosing binder after the call, or the exception thrown. The parameter `binder` hides
the member `binder` of the `FunctionBinder`. -/
def BindScalarFunction (self : FunctionBinder) (layer : ExpressionLayer)
    (bound_function : ScalarFunction) (children : List Expression) (is_operator : Bool)
    (binder : Option Binder) : Except BinderThrow (BoundExpression × Option Binder) :=
  match InvokeBind self.context bound_function children binder with
  | .error e => .error e
  | .ok bound =>
    match InvokeModifiedDatabases self.context bound_function bound.bind_info binder with
    | .error e => .error e
    | .ok binder' =>
      match HandleCollations layer bound.bound_function bound.arguments with
      | .error e => .error e
      | .ok (collated, children') =>
        match CastToFunctionArguments collated.toSimpleFunction children' with
        | .error e => .error e
        | .ok (function', children'') =>
          (FinishScalarFunction self.context bound_function
            { collated with toSimpleFunction := function' } children'' bound.bind_info
            is_operator).map (fun result => (result, binder'))

/-- The kind of an aggregate (`AggregateType`). -/
inductive AggregateType
  | NON_DISTINCT | DISTINCT
  deriving DecidableEq, Repr

/-- What the bind callback of an aggregate leaves behind. -/
structure AggregateBindOutput where
  bind_info : Option FunctionData
  bound_function : SimpleFunction
  arguments : List Expression
  deriving DecidableEq, Repr

/-- An aggregate function: its signature and its optional bind callback. -/
structure AggregateFunction extends SimpleFunction where
  bind :
    Option (ClientContext → SimpleFunction → List Expression →
      Except BinderThrow AggregateBindOutput)

/-- The bound aggregate expression built by `BindAggregateFunction`. -/
structure BoundAggregateExpression where
  function : SimpleFunction
  children : List Expression
  filter : Option Expression
  bind_info : Option FunctionData
  aggr_type : AggregateType
  deriving DecidableEq, Repr

/-- The function `FunctionBinder::BindAggregateFunction`. -/
def BindAggregateFunction (self : FunctionBinder) (bound_function : AggregateFunction)
    (children : List Expression) (filter : Option Expression) (aggr_type : AggregateType) :
    Except BinderThrow BoundAggregateExpression :=
  let bound : Except BinderThrow AggregateBindOutput :=
    match bound_function.bind with
    | some bind =>
      match bind self.context bound_function.toSimpleFunction children with
      | .error e => .error e
      | .ok r =>
        .ok { r with
          arguments :=
            r.arguments.take (min r.bound_function.arguments.length r.arguments.length) }
    | none =>
      .ok { bind_info := none, bound_function := bound_function.toSimpleFunction,
            arguments := children }
  match bound with
  | .error e => .error e
  | .ok r =>
    match CastToFunctionArguments r.bound_function r.arguments with
    | .error e => .error e
    | .ok (function', children') =>
      .ok { function := function', children := children', filter := filter,
            bind_info := r.bind_info, aggr_type := aggr_type }

/-- The four outcomes of resolution named by the specification. -/
inductive OutcomeKind
  | Chosen | Deferred | Ambiguous | NoMatch
  deriving DecidableEq, Repr

/-- The outcome read off a result of `BindFunctionFromArguments`: a thrown
`ParameterNotResolvedException` is `Deferred`, a valid index is `Chosen`, an invalid index comes
with the error of `MultipleCandidateException` (`Ambiguous`) or without a candidate
(`NoMatch`). Any other exception is none of the four outcomes. -/
def outcomeKind : Except BinderThrow (Option Nat × ErrorData) → Option OutcomeKind
  | .error BinderThrow.ParameterNotResolvedException => some OutcomeKind.Deferred
  | .error _ => none
  | .ok (some _, _) => some OutcomeKind.Chosen
  | .ok (none, ErrorData.BINDER _) => some OutcomeKind.Ambiguous
  | .ok (none, _) => some OutcomeKind.NoMatch

/-- A client context whose cast cost oracle is given by a finite table; a pair of types that is
not in the table has no implicit cast (cost `-1`). Overloads are rendered by their name. -/
def tableContext (table : List ((LogicalType × LogicalType) × Int)) : ClientContext where
  ImplicitCastCost := fun source target => (table.lookup (source, target)).getD (-1)
  ToString := fun func => func.name
  CallToString := fun _ _ name _ => name

/-- A non-variadic overload with the given name and parameter types. -/
def fixedFunction (name : String) (arguments : List LogicalType) : SimpleFunction :=
  { name := name, arguments := arguments, varargs := LogicalType.INVALID, catalog_name := "",
    schema_name := "" }

/-- A variadic overload with the given name, fixed parameter types and variadic type. -/
def varargsFunction (name : String) (arguments : List LogicalType) (varargs : LogicalType) :
    SimpleFunction :=
  { name := name, arguments := arguments, varargs := varargs, catalog_name := "",
    schema_name := "" }

/-- Two distinct overloads of the set tie at the minimal cost: `BindFunctionCost` yields the same
cost for both, and it yields no smaller cost for any overload of the set. -/
def TiedAtMinimum (context : ClientContext) (functions : List SimpleFunction)
    (arguments : List LogicalType) : Prop :=
  ∃ (i j : Nat) (fi fj : SimpleFunction) (c : Nat), i ≠ j ∧
    functions[i]? = some fi ∧ functions[j]? = some fj ∧
    BindFunctionCost context fi arguments = .ok (some c) ∧
    BindFunctionCost context fj arguments = .ok (some c) ∧
    ∀ func ∈ functions, ∀ c', BindFunctionCost context func arguments = .ok (some c') → c ≤ c'

/-- Two distinct overloads of the set tie at the minimal summed cost. -/
def TiedAtMinimumSum (context : ClientContext) (functions : List SimpleFunction)
    (arguments : List LogicalType) : Prop :=
  ∃ (i j : Nat) (fi fj : SimpleFunction) (c : Nat), i ≠ j ∧
    functions[i]? = some fi ∧ functions[j]? = some fj ∧
    costSum context fi arguments = some c ∧
    costSum context fj arguments = some c ∧
    ∀ func ∈ functions, ∀ c', costSum context func arguments = some c' → c ≤ c'

/-- The message of the exception thrown by the conversion of the sentinel to `optional_idx`. -/
def invalidIndexMessage : String := "optional_idx cannot be initialized with an invalid index"

/-- The costing of every overload of the set completes: `BindFunctionCost` throws for none. -/
def AllCosted (context : ClientContext) (functions : List SimpleFunction)
    (arguments : List LogicalType) : Prop :=
  ∀ func ∈ functions, ∃ r, BindFunctionCost context func arguments = .ok r

/-- The cost that `BindFunctionCost` yields for the overload at index `j` of the set, if there is
such an overload and it is feasible for the arguments. -/
def costAt (context : ClientContext) (functions : List SimpleFunction)
    (arguments : List LogicalType) (j : Nat) : Option Nat :=
  match functions[j]? with
  | none => none
  | some func =>
    match BindFunctionCost context func arguments with
    | .ok r => r
    | .error _ => none

/-- A cast cost table with costs near the largest `int64_t`: `INTEGER` casts to `BIGINT` at cost
`2 ^ 63 - 1` and `BOOLEAN` to `BIGINT` at cost 1, every listed type casts to itself at cost 0. -/
def largeCosts : List ((LogicalType × LogicalType) × Int) :=
  [((LogicalType.INTEGER, LogicalType.INTEGER), 0),
   ((LogicalType.BOOLEAN, LogicalType.BOOLEAN), 0),
   ((LogicalType.BIGINT, LogicalType.BIGINT), 0),
   ((LogicalType.INTEGER, LogicalType.BIGINT), 2 ^ 63 - 1),
   ((LogicalType.BOOLEAN, LogicalType.BIGINT), 1)]

/-- The overload `f(INTEGER, INTEGER, BOOLEAN)`. -/
def exactOverload : SimpleFunction :=
  { name := "f(INTEGER, INTEGER, BOOLEAN)",
    arguments := [LogicalType.INTEGER, LogicalType.INTEGER, LogicalType.BOOLEAN],
    varargs := LogicalType.INVALID, catalog_name := "", schema_name := "" }

/-- The overload `f(BIGINT, BIGINT, BIGINT)`. -/
def wideOverload : SimpleFunction :=
  { name := "f(BIGINT, BIGINT, BIGINT)",
    arguments := [LogicalType.BIGINT, LogicalType.BIGINT, LogicalType.BIGINT],
    varargs := LogicalType.INVALID, catalog_name := "", schema_name := "" }

/-- The variadic overload `f(BIGINT...)`. -/
def wideVarargs : SimpleFunction :=
  { name := "f(BIGINT...)", arguments := [], varargs := LogicalType.BIGINT, catalog_name := "",
    schema_name := "" }

/-- The cast cost table `largeCosts` extended by the cast of the unknown placeholder to `BIGINT`
at cost `2 ^ 63 - 1`. -/
def largeUnknownCosts : List ((LogicalType × LogicalType) × Int) :=
  ((LogicalType.UNKNOWN, LogicalType.BIGINT), 2 ^ 63 - 1) :: largeCosts

/-- The overload set `f(VARCHAR, INTEGER, BOOLEAN)`, `f(BIGINT, INTEGER, BOOLEAN)`,
`f(BIGINT...)`. -/
def twoFixedAndVarargs : List SimpleFunction :=
  [fixedFunction "f(VARCHAR, INTEGER, BOOLEAN)"
     [LogicalType.VARCHAR, LogicalType.INTEGER, LogicalType.BOOLEAN],
   fixedFunction "f(BIGINT, INTEGER, BOOLEAN)"
     [LogicalType.BIGINT, LogicalType.INTEGER, LogicalType.BOOLEAN],
   wideVarargs]

/-- The overload `f(INTEGER, INTEGER, BOOLEAN)` registered twice, followed by
`f(BIGINT, BIGINT, BIGINT)`. -/
def twiceExactAndWide : List SimpleFunction :=
  [exactOverload, exactOverload, wideOverload]

/-- The argument types `INTEGER, INTEGER, BOOLEAN`, whose casts to `BIGINT` under `largeCosts`
sum to `2 ^ 64 - 1`. -/
def largeArguments : List LogicalType :=
  [LogicalType.INTEGER, LogicalType.INTEGER, LogicalType.BOOLEAN]

/-- A small cast cost table: every listed type casts to itself at cost 0 and `INTEGER` casts to
`BIGINT` at cost 5; there is no other implicit cast. -/
def sampleCosts : List ((LogicalType × LogicalType) × Int) :=
  [((LogicalType.INTEGER, LogicalType.INTEGER), 0),
   ((LogicalType.BIGINT, LogicalType.BIGINT), 0),
   ((LogicalType.VARCHAR, LogicalType.VARCHAR), 0),
   ((LogicalType.INTEGER, LogicalType.BIGINT), 5)]

/-- The overload set with the two overloads `f(INTEGER)` and `f(BIGINT)`. -/
def intOrBigint : List SimpleFunction :=
  [fixedFunction "f(INTEGER)" [LogicalType.INTEGER],
   fixedFunction "f(BIGINT)" [LogicalType.BIGINT]]

/-- An overload set in which the signature `f(INTEGER)` is registered twice. -/
def twiceInt : List SimpleFunction :=
  [fixedFunction "f(INTEGER)" [LogicalType.INTEGER],
   fixedFunction "f(INTEGER)" [LogicalType.INTEGER]]

/-- The cast cost of the known positions of an argument list against an overload, from
position `i` on: the sum of the oracle's costs over the arguments that are not the unknown
placeholder, each against its effective parameter type. -/
def knownPositionsCostFrom (context : ClientContext) (func : SimpleFunction) :
    List LogicalType → Nat → Int
  | [], _ => 0
  | a :: rest, i =>
    (if a.id = LogicalTypeId.UNKNOWN then 0 else context.ImplicitCastCost a (func.paramAt i)) +
      knownPositionsCostFrom context func rest (i + 1)

/-- The cast cost of the known positions of an argument list against an overload. -/
def knownPositionsCost (context : ClientContext) (func : SimpleFunction)
    (arguments : List LogicalType) : Int :=
  knownPositionsCostFrom context func arguments 0

/-- A variadic overload `v(VARCHAR, BIGINT...)` followed by the non-variadic overload
`n(VARCHAR, BIGINT)`. -/
def variadicAndFixed : List SimpleFunction :=
  [varargsFunction "v(VARCHAR, BIGINT...)" [LogicalType.VARCHAR] LogicalType.BIGINT,
   fixedFunction "n(VARCHAR, BIGINT)" [LogicalType.VARCHAR, LogicalType.BIGINT]]

/-- A cast cost table in which the unknown placeholder casts to `VARCHAR` and to `BIGINT` at
cost 0 and `INTEGER` casts to `BIGINT` at cost 5. -/
def unknownFreeCosts : List ((LogicalType × LogicalType) × Int) :=
  [((LogicalType.UNKNOWN, LogicalType.VARCHAR), 0),
   ((LogicalType.UNKNOWN, LogicalType.BIGINT), 0),
   ((LogicalType.INTEGER, LogicalType.BIGINT), 5)]

/-- Every argument type, from position `i` on, structurally equals the effective parameter type
of the overload at its position. -/
def exactMatchFrom (func : SimpleFunction) : List LogicalType → Nat → Bool
  | [], _ => true
  | a :: rest, i =>
    decide (a.stripCollation = (func.paramAt i).stripCollation) &&
      exactMatchFrom func rest (i + 1)

/-- Every argument type structurally equals the corresponding effective parameter type of the
overload. -/
def exactMatch (func : SimpleFunction) (arguments : List LogicalType) : Bool :=
  exactMatchFrom func arguments 0

/-- The argument count is admissible for the overload: at least the number of fixed parameters
for a variadic overload, equal to the number of parameters otherwise. -/
def admissibleCount (func : SimpleFunction) (arguments : List LogicalType) : Bool :=
  if func.HasVarArgs then decide (func.arguments.length ≤ arguments.length)
  else decide (arguments.length = func.arguments.length)

/-- The outcome as a function of the number of candidates and of the presence of an unknown
argument. -/
def kindOfCount (count : Nat) (has_unknown : Bool) : OutcomeKind :=
  match count with
  | 0 => OutcomeKind.NoMatch
  | 1 => OutcomeKind.Chosen
  | _ + 2 => if has_unknown then OutcomeKind.Deferred else OutcomeKind.Ambiguous

/-- The type is, or contains at any depth of list or array children, a polymorphic wildcard. -/
def containsAny : LogicalType → Bool
  | .ANY => true
  | .ANY_PARAMS _ => true
  | .LIST child => containsAny child
  | .ARRAY child => containsAny child
  | _ => false

/-- The value that `CastToFunctionArguments` stores at position `i` for the child it finds
there, when it does not throw: a lambda child and a child whose comparison with the target type
is not `DIFFERENT_TYPES` are kept, any other child is wrapped in a cast to the target type. -/
def castChild (function : SimpleFunction) (i : Nat) (child : Expression) : Expression :=
  if child.return_type.id = LogicalTypeId.LAMBDA then child
  else if RequiresCast child.return_type (function.paramAt i) =
      LogicalTypeComparisonResult.DIFFERENT_TYPES then
    AddCastToType child (function.paramAt i)
  else child

/-- The overload `f(BIGINT, ANY)`. -/
def bigintAndAny : SimpleFunction :=
  fixedFunction "f" [LogicalType.BIGINT, LogicalType.ANY]

/-- An overload whose single parameter is a wildcard whose target is again a wildcard with the
target `INTEGER`. -/
def nestedWildcard : SimpleFunction :=
  fixedFunction "f" [LogicalType.ANY_PARAMS (LogicalType.ANY_PARAMS LogicalType.INTEGER)]

/-- The type is a bare literal placeholder: its tag is `STRING_LITERAL` or `INTEGER_LITERAL`. -/
def IsLiteralPlaceholder (type : LogicalType) : Prop :=
  type.id = LogicalTypeId.STRING_LITERAL ∨ type.id = LogicalTypeId.INTEGER_LITERAL

/-- The message of the internal exception thrown by `CastToFunctionArguments`. -/
def literalTargetMessage (function : SimpleFunction) : String :=
  "Function " ++ function.name ++
    " returned a STRING_LITERAL or INTEGER_LITERAL type - return an explicit type instead"

/-- The overload `f(ANY)` whose wildcard carries the target `VARCHAR`. -/
def wildcardWithTarget : SimpleFunction :=
  fixedFunction "f" [LogicalType.ANY_PARAMS LogicalType.VARCHAR]

/-- The non-empty collations carried by the text-typed arguments, in argument order. -/
def textCollations (children : List Expression) : List String :=
  ((children.filter (fun arg => RequiresCollationPropagation arg.return_type)).map
    (fun arg => StringType.GetCollation arg.return_type)).filter (fun c => decide (c ≠ ""))

/-- The exception thrown by `ExtractCollation`. -/
def differentCollation : BinderThrow :=
  BinderThrow.BinderException "Cannot combine types with different collation!"

/-- The result of `ExtractCollation` as a function of the non-empty collations of the text-typed
arguments: the empty string if there is none, the first one if all others equal it, the
exception otherwise. -/
def combineCollations : List String → Except BinderThrow String
  | [] => .ok ""
  | c :: rest => if ∀ d ∈ rest, d = c then .ok c else .error differentCollation

/-- The expression that `PushCollations` hands to `ExpressionBinder::PushCollation` for an
argument: a text-typed argument with its return type replaced by the collation type, any other
argument as it is. -/
def withCollation (collation_type : LogicalType) (arg : Expression) : Expression :=
  if RequiresCollationPropagation arg.return_type then arg.setReturnType collation_type else arg

/-- An expression layer that inserts no collation wrapper, folds no expression, resolves an
argument under its return type, and takes a type for complete unless its tag is `INVALID`,
`UNKNOWN` or `ANY`. -/
def plainLayer : ExpressionLayer where
  GetExpressionReturnType := fun expr => expr.return_type
  IsFoldable := fun _ => false
  TryEvaluateScalar := fun _ => none
  IsComplete := fun type =>
    !(decide (type.id = LogicalTypeId.INVALID) || decide (type.id = LogicalTypeId.UNKNOWN) ||
      decide (type.id = LogicalTypeId.ANY))
  PushCollation := fun expr _ _ => .ok expr

/-- The data of a scalar function with default null handling. -/
def scalarData (name : String) (arguments : List LogicalType) (return_type : LogicalType)
    (collation_handling : FunctionCollationHandling) : ScalarFunctionData :=
  { name := name, arguments := arguments, varargs := LogicalType.INVALID, catalog_name := "",
    schema_name := "", return_type := return_type,
    null_handling := FunctionNullHandling.DEFAULT_NULL_HANDLING,
    collation_handling := collation_handling }

/-- Two text-typed children, the first carrying the collation `A`, the second carrying none. -/
def collatedAndPlain : List Expression :=
  [Expression.bound "x" (LogicalType.VARCHAR_COLLATION "A"),
   Expression.bound "y" LogicalType.VARCHAR]

/-- Two text-typed children that both carry the collation `A`. -/
def bothCollated : List Expression :=
  [Expression.bound "x" (LogicalType.VARCHAR_COLLATION "A"),
   Expression.bound "y" (LogicalType.VARCHAR_COLLATION "A")]

/-- A bind callback of an aggregate that absorbs the last argument expression. -/
def absorbLastArgument : ClientContext → SimpleFunction → List Expression →
    Except BinderThrow AggregateBindOutput :=
  fun _ function arguments =>
    .ok { bind_info := none, bound_function := function, arguments := arguments.dropLast }

/-- Three children of type `INTEGER`. -/
def threeIntegers : List Expression :=
  [Expression.bound "x" LogicalType.INTEGER, Expression.bound "y" LogicalType.INTEGER,
   Expression.bound "z" LogicalType.INTEGER]

/-- The message of the internal exception thrown when an extended bind callback is present and
the parameter `binder` is not. -/
def missingBinderMessage (name : String) : String :=
  "Function '" ++ name ++
    "' has a 'bind_extended' but the FunctionBinder was created without " ++
    "a reference to a Binder"

/-- An enclosing binder over the sample client context, without modified databases. -/
def sampleBinder : Binder :=
  { context := tableContext sampleCosts, properties := { modified_databases := [] } }

/-- A scalar function without callbacks. -/
def plainScalarFunction (data : ScalarFunctionData) : ScalarFunction :=
  { toScalarFunctionData := data, bind := none, bind_extended := none,
    get_modified_databases := none, bind_expression := none }

/-- The scalar function `g()` returning `BOOLEAN` whose only callback is an extended bind
callback; the callback returns bind data labelled `extended`. -/
def extendedOnly : ScalarFunction :=
  { plainScalarFunction
      (scalarData "g" [] LogicalType.BOOLEAN FunctionCollationHandling.IGNORE_COLLATIONS) with
    bind_extended := some (fun _ function arguments =>
      .ok { bind_info := some { label := "extended", types := [] },
            bound_function := function, arguments := arguments }) }

/-- The indices of the overloads of the set for which `BindFunctionCost` yields the cost `c`, in
ascending set order. -/
def tiedIndices (context : ClientContext) (functions : List SimpleFunction)
    (arguments : List LogicalType) (c : Nat) : List Nat :=
  (List.range functions.length).filter
    (fun j => decide (costAt context functions arguments j = some c))

/-- The indices of the overloads of the set whose summed cost is `c`, in ascending set order. -/
def tiedSumIndices (context : ClientContext) (functions : List SimpleFunction)
    (arguments : List LogicalType) (c : Nat) : List Nat :=
  (List.range functions.length).filter
    (fun j => decide (costSumAt context functions arguments j = some c))

/-- The list with its first entry moved behind the others. -/
def firstToEnd : List Nat → List Nat
  | [] => []
  | first :: rest => rest ++ [first]

/-- The lines of the ambiguity diagnostic that enumerate the overloads named by a list of
indices, in the order of the list: a tab, the rendering of the overload, a line break. -/
def candidateLines (context : ClientContext) (functions : List SimpleFunction)
    (indices : List Nat) : String :=
  String.join
    (indices.map (fun j => "\t" ++ context.ToString (GetFunctionByOffset functions j) ++ "\n"))

/-- The text of the ambiguity diagnostic that precedes the enumeration of the candidates. -/
def ambiguityHeader (call_str : String) : String :=
  "Could not choose a best candidate function for the function call \"" ++ call_str ++
    "\". In order to select one, please add explicit type casts.\n\tCandidate functions:\n"

/-- The overload set `f(INTEGER, BIGINT)`, `f(BIGINT, INTEGER)`. -/
def mixedPair : List SimpleFunction :=
  [fixedFunction "f(INTEGER, BIGINT)" [LogicalType.INTEGER, LogicalType.BIGINT],
   fixedFunction "f(BIGINT, INTEGER)" [LogicalType.BIGINT, LogicalType.INTEGER]]

/-- The overload set `f(BIGINT, BIGINT)`, `f(INTEGER, BIGINT)`, `f(BIGINT, INTEGER)`,
`f(INTEGER, BIGINT...)`. -/
def fourOverloads : List SimpleFunction :=
  [fixedFunction "f(BIGINT, BIGINT)" [LogicalType.BIGINT, LogicalType.BIGINT],
   fixedFunction "f(INTEGER, BIGINT)" [LogicalType.INTEGER, LogicalType.BIGINT],
   fixedFunction "f(BIGINT, INTEGER)" [LogicalType.BIGINT, LogicalType.INTEGER],
   varargsFunction "f(INTEGER, BIGINT...)" [LogicalType.INTEGER] LogicalType.BIGINT]

/-! ## Cost computation: auxiliary facts -/

theorem BindVarArgsFunctionCostLoop_isSome (context : ClientContext) (func : SimpleFunction)
    (arguments : List LogicalType) (i cost : Nat) :
    (BindVarArgsFunctionCostLoop context func arguments i cost).isSome = true ↔
      ∀ j a, arguments[j]? = some a → a.stripCollation ≠ (func.paramAt (i + j)).stripCollation →
        0 ≤ context.ImplicitCastCost a (func.paramAt (i + j)) := by
  induction arguments generalizing i cost with
  | nil => simp [BindVarArgsFunctionCostLoop]
  | cons x rest ih =>
    have key : ∀ c : Nat,
        ((BindVarArgsFunctionCostLoop context func rest (i + 1) c).isSome = true ↔
          ∀ j a, rest[j]? = some a → a.stripCollation ≠ (func.paramAt (i + (j + 1))).stripCollation →
            0 ≤ context.ImplicitCastCost a (func.paramAt (i + (j + 1)))) := by
      intro c
      rw [ih (i + 1) c]
      constructor
      · intro H j a hj hne
        have := H j a hj
        rw [show i + 1 + j = i + (j + 1) by omega] at this
        exact this hne
      · intro H j a hj hne
        have := H j a hj
        rw [show i + 1 + j = i + (j + 1) by omega]
        rw [show i + 1 + j = i + (j + 1) by omega] at hne
        exact this hne
    unfold BindVarArgsFunctionCostLoop
    by_cases hx : x.stripCollation = (func.paramAt i).stripCollation
    · simp only [hx, if_true]
      rw [key]
      constructor
      · intro H j a hj hne
        cases j with
        | zero =>
          simp at hj
          subst hj
          rw [Nat.add_zero] at hne
          exact absurd hx hne
        | succ j =>
          simp at hj
          exact H j a hj hne
      · intro H j a hj hne
        exact H (j + 1) a (by simpa using hj) hne
    · simp only [hx, if_false]
      by_cases hc : context.ImplicitCastCost x (func.paramAt i) ≥ 0
      · simp only [hc, if_true]
        rw [key]
        constructor
        · intro H j a hj hne
          cases j with
          | zero =>
            simp at hj
            subst hj
            simpa using hc
          | succ j =>
            simp at hj
            exact H j a hj hne
        · intro H j a hj hne
          exact H (j + 1) a (by simpa using hj) hne
      · simp only [hc, if_false]
        constructor
        · intro H
          simp at H
        · intro H
          exact absurd (H 0 x (by simp) (by simpa using hx)) (by simpa using hc)

theorem BindFunctionCostLoop_isSome (context : ClientContext) (func : SimpleFunction)
    (arguments : List LogicalType) (i cost : Nat) (has_parameter : Bool) :
    (BindFunctionCostLoop context func arguments i cost has_parameter).isSome = true ↔
      ∀ j a, arguments[j]? = some a → a.id ≠ LogicalTypeId.UNKNOWN →
        0 ≤ context.ImplicitCastCost a (func.arguments.getD (i + j) LogicalType.INVALID) := by
  induction arguments generalizing i cost has_parameter with
  | nil => simp [BindFunctionCostLoop]
  | cons x rest ih =>
    have key : ∀ (c : Nat) (b : Bool),
        ((BindFunctionCostLoop context func rest (i + 1) c b).isSome = true ↔
          ∀ j a, rest[j]? = some a → a.id ≠ LogicalTypeId.UNKNOWN →
            0 ≤ context.ImplicitCastCost a
              (func.arguments.getD (i + (j + 1)) LogicalType.INVALID)) := by
      intro c b
      rw [ih (i + 1) c b]
      constructor
      · intro H j a hj hne
        have := H j a hj hne
        rwa [show i + 1 + j = i + (j + 1) by omega] at this
      · intro H j a hj hne
        have := H j a hj hne
        rwa [show i + 1 + j = i + (j + 1) by omega]
    unfold BindFunctionCostLoop
    by_cases hx : x.id = LogicalTypeId.UNKNOWN
    · simp only [hx, if_true]
      rw [key]
      constructor
      · intro H j a hj hne
        cases j with
        | zero =>
          simp at hj
          subst hj
          exact absurd hx hne
        | succ j =>
          simp at hj
          exact H j a hj hne
      · intro H j a hj hne
        exact H (j + 1) a (by simpa using hj) hne
    · simp only [hx, if_false]
      by_cases hc : context.ImplicitCastCost x (func.arguments.getD i LogicalType.INVALID) ≥ 0
      · simp only [hc, if_true]
        rw [key]
        constructor
        · intro H j a hj hne
          cases j with
          | zero =>
            simp at hj
            subst hj
            simpa using hc
          | succ j =>
            simp at hj
            exact H j a hj hne
        · intro H j a hj hne
          exact H (j + 1) a (by simpa using hj) hne
      · simp only [hc, if_false]
        constructor
        · intro H
          simp at H
        · intro H
          exact absurd (H 0 x (by simp) hx) (by simpa using hc)

theorem BindVarArgsFunctionCostLoop_lt (context : ClientContext) (func : SimpleFunction)
    (arguments : List LogicalType) (i cost c : Nat) (hcost : cost < 2 ^ 64)
    (h : BindVarArgsFunctionCostLoop context func arguments i cost = some c) : c < 2 ^ 64 := by
  induction arguments generalizing i cost with
  | nil =>
    simp [BindVarArgsFunctionCostLoop] at h
    omega
  | cons x rest ih =>
    unfold BindVarArgsFunctionCostLoop at h
    simp only at h
    split at h
    · exact ih _ _ hcost h
    · split at h
      · exact ih _ _ (Nat.mod_lt _ (by norm_num)) h
      · simp at h

theorem BindFunctionCostLoop_lt (context : ClientContext) (func : SimpleFunction)
    (arguments : List LogicalType) (i cost : Nat) (b : Bool) (r : Nat × Bool)
    (hcost : cost < 2 ^ 64)
    (h : BindFunctionCostLoop context func arguments i cost b = some r) : r.1 < 2 ^ 64 := by
  induction arguments generalizing i cost b with
  | nil =>
    simp [BindFunctionCostLoop] at h
    subst h
    exact hcost
  | cons x rest ih =>
    unfold BindFunctionCostLoop at h
    simp only at h
    split at h
    · exact ih _ _ _ hcost h
    · split at h
      · exact ih _ _ _ (Nat.mod_lt _ (by norm_num)) h
      · simp at h

theorem BindFunctionCostLoop_flag (context : ClientContext) (func : SimpleFunction)
    (arguments : List LogicalType) (i cost : Nat) (b : Bool) (r : Nat × Bool)
    (h : BindFunctionCostLoop context func arguments i cost b = some r) :
    r.2 = (b || arguments.any LogicalType.IsUnknown) := by
  induction arguments generalizing i cost b with
  | nil =>
    simp [BindFunctionCostLoop] at h
    subst h
    simp
  | cons x rest ih =>
    unfold BindFunctionCostLoop at h
    simp only at h
    split at h
    · rename_i hx
      rw [ih _ _ _ h]
      simp [LogicalType.IsUnknown, hx]
    · rename_i hx
      split at h
      · rw [ih _ _ _ h]
        simp [LogicalType.IsUnknown, hx]
      · simp at h

/-- Every cost returned by `costSum` is an `idx_t`, hence at most `IDX_MAX`. -/
theorem costSum_le_max (context : ClientContext) (func : SimpleFunction)
    (arguments : List LogicalType) (c : Nat)
    (h : costSum context func arguments = some c) : c ≤ IDX_MAX := by
  have hmax : IDX_MAX = 2 ^ 64 - 1 := rfl
  unfold costSum at h
  split at h
  · unfold varArgsCostSum at h
    split at h
    · simp at h
    · have := BindVarArgsFunctionCostLoop_lt context func arguments 0 0 c (by norm_num) h
      omega
  · split at h
    · simp at h
    · split at h
      · simp at h
      · rename_i cost hp heq
        have := BindFunctionCostLoop_lt context func arguments 0 0 false _ (by norm_num) heq
        simp only at this
        split at h
        · simp at h
          omega
        · simp at h
          omega


/-! ## The selection loop: invariant -/

theorem costSumAt_lt_length (context : ClientContext) (functions : List SimpleFunction)
    (arguments : List LogicalType) (j c : Nat)
    (h : costSumAt context functions arguments j = some c) : j < functions.length := by
  unfold costSumAt at h
  split at h
  · simp at h
  · rename_i func hf
    exact (List.getElem?_eq_some_iff.1 hf).1

theorem costSumAt_le_max (context : ClientContext) (functions : List SimpleFunction)
    (arguments : List LogicalType) (j c : Nat)
    (h : costSumAt context functions arguments j = some c) : c ≤ IDX_MAX := by
  unfold costSumAt at h
  split at h
  · simp at h
  · exact costSum_le_max _ _ _ _ h

theorem LoopInv_init (context : ClientContext) (functions : List SimpleFunction)
    (arguments : List LogicalType) :
    LoopInv context functions arguments 0
      { best_function := none, lowest_cost := IDX_MAX, candidate_functions := [] } where
  le_max := le_refl _
  lower := fun j c hj _ => absurd hj (Nat.not_lt_zero j)
  mem_iff := fun j => by simp
  sorted := List.Pairwise.nil
  best_lt := fun b hb => by simp at hb
  none_max := fun _ => rfl

theorem LoopInv_loop (context : ClientContext) (functions : List SimpleFunction)
    (arguments : List LogicalType) (rest : List SimpleFunction) (k : Nat) (s : BindLoopState)
    (hrest : ∀ j, rest[j]? = functions[k + j]?)
    (hinv : LoopInv context functions arguments k s) :
    LoopInv context functions arguments (k + rest.length)
      (scanLoop context arguments rest k s) := by
  induction rest generalizing k s with
  | nil => simpa [scanLoop] using hinv
  | cons func rest ih =>
    have hk : functions[k]? = some func := by
      have := hrest 0
      simpa using this.symm
    have hcost : costSumAt context functions arguments k = costSum context func arguments := by
      simp [costSumAt, hk]
    have hrest' : ∀ j, rest[j]? = functions[k + 1 + j]? := by
      intro j
      have := hrest (j + 1)
      rw [show k + 1 + j = k + (j + 1) by omega]
      simpa using this
    have hlen : k + (func :: rest).length = k + 1 + rest.length := by
      simp
      omega
    rw [hlen]
    unfold scanLoop
    split
    · rename_i hnone
      apply ih (k + 1) s hrest'
      rw [hnone] at hcost
      refine ⟨hinv.le_max, ?_, ?_, hinv.sorted, hinv.best_lt, hinv.none_max⟩
      · intro j c hj hc
        rcases Nat.lt_succ_iff_lt_or_eq.1 hj with h | h
        · exact hinv.lower j c h hc
        · subst h
          rw [hcost] at hc
          simp at hc
      · intro j
        rw [hinv.mem_iff j]
        constructor
        · rintro ⟨h1, h2⟩
          exact ⟨Nat.lt_succ_of_lt h1, h2⟩
        · rintro ⟨h1, h2⟩
          rcases Nat.lt_succ_iff_lt_or_eq.1 h1 with h | h
          · exact ⟨h, h2⟩
          · subst h
            rw [hcost] at h2
            simp at h2
    · rename_i cost hsome
      rw [hsome] at hcost
      by_cases h1 : cost = s.lowest_cost
      · simp only [h1, if_true]
        apply ih (k + 1) _ hrest'
        refine ⟨hinv.le_max, ?_, ?_, ?_, ?_, hinv.none_max⟩
        · intro j c hj hc
          show s.lowest_cost ≤ c
          rcases Nat.lt_succ_iff_lt_or_eq.1 hj with h | h
          · exact hinv.lower j c h hc
          · subst h
            rw [hcost] at hc
            simp at hc
            omega
        · intro j
          simp only [List.mem_append, List.mem_singleton]
          constructor
          · rintro ((h | h) | h)
            · have := (hinv.mem_iff j).1 (Or.inl h)
              exact ⟨Nat.lt_succ_of_lt this.1, this.2⟩
            · subst h
              exact ⟨Nat.lt_succ_self _, by rw [hcost, h1]⟩
            · have := (hinv.mem_iff j).1 (Or.inr h)
              exact ⟨Nat.lt_succ_of_lt this.1, this.2⟩
          · rintro ⟨h2, h3⟩
            rcases Nat.lt_succ_iff_lt_or_eq.1 h2 with h | h
            · rcases (hinv.mem_iff j).2 ⟨h, h3⟩ with h4 | h4
              · exact Or.inl (Or.inl h4)
              · exact Or.inr h4
            · exact Or.inl (Or.inr h)
        · show (s.candidate_functions ++ [k]).Pairwise (fun a b => a < b)
          rw [List.pairwise_append]
          refine ⟨hinv.sorted, List.pairwise_singleton _ _, ?_⟩
          intro a ha b hb
          simp at hb
          subst hb
          exact ((hinv.mem_iff a).1 (Or.inl ha)).1
        · intro b hb c hc
          simp only [List.mem_append, List.mem_singleton] at hc
          rcases hc with hc | hc
          · exact hinv.best_lt b hb c hc
          · subst hc
            exact ((hinv.mem_iff b).1 (Or.inr hb)).1
      · simp only [h1, if_false]
        by_cases h2 : cost > s.lowest_cost
        · simp only [h2, if_true]
          apply ih (k + 1) s hrest'
          refine ⟨hinv.le_max, ?_, ?_, hinv.sorted, hinv.best_lt, hinv.none_max⟩
          · intro j c hj hc
            rcases Nat.lt_succ_iff_lt_or_eq.1 hj with h | h
            · exact hinv.lower j c h hc
            · subst h
              rw [hcost] at hc
              simp at hc
              omega
          · intro j
            rw [hinv.mem_iff j]
            constructor
            · rintro ⟨h3, h4⟩
              exact ⟨Nat.lt_succ_of_lt h3, h4⟩
            · rintro ⟨h3, h4⟩
              rcases Nat.lt_succ_iff_lt_or_eq.1 h3 with h | h
              · exact ⟨h, h4⟩
              · subst h
                rw [hcost] at h4
                simp at h4
                omega
        · simp only [h2, if_false]
          have hlt : cost < s.lowest_cost := by omega
          apply ih (k + 1) _ hrest'
          refine ⟨?_, ?_, ?_, List.Pairwise.nil, ?_, ?_⟩
          · have := hinv.le_max
            show cost ≤ IDX_MAX
            omega
          · intro j c hj hc
            show cost ≤ c
            rcases Nat.lt_succ_iff_lt_or_eq.1 hj with h | h
            · have := hinv.lower j c h hc
              omega
            · subst h
              rw [hcost] at hc
              simp at hc
              omega
          · intro j
            show (j ∈ ([] : List Nat) ∨ some k = some j) ↔
              (j < k + 1 ∧ costSumAt context functions arguments j = some cost)
            constructor
            · rintro (h | h)
              · simp at h
              · simp at h
                subst h
                exact ⟨Nat.lt_succ_self _, hcost⟩
            · rintro ⟨h3, h4⟩
              rcases Nat.lt_succ_iff_lt_or_eq.1 h3 with h | h
              · have := hinv.lower j cost h h4
                omega
              · subst h
                exact Or.inr rfl
          · intro b _ c hc
            simp at hc
          · intro h
            simp at h

theorem LoopInv_final (context : ClientContext) (functions : List SimpleFunction)
    (arguments : List LogicalType) :
    LoopInv context functions arguments functions.length
      (finalState context functions arguments) := by
  have := LoopInv_loop context functions arguments functions 0 _ (by simp)
    (LoopInv_init context functions arguments)
  simpa [finalState] using this


/-! ## The candidate list -/

theorem scanCandidates_fst (context : ClientContext) (name : String)
    (functions : List SimpleFunction) (arguments : List LogicalType) (error : ErrorData) :
    (scanCandidates context name functions arguments error).1 =
      (finalState context functions arguments).candidate_functions ++
        (finalState context functions arguments).best_function.toList := by
  unfold scanCandidates finalState
  simp only
  split <;> rename_i h <;> simp [h]

/-- An index is in the candidate list iff it names a feasible overload whose cost is the lowest
cost the loop has found. -/
theorem mem_candidates_iff (context : ClientContext) (name : String)
    (functions : List SimpleFunction) (arguments : List LogicalType) (error : ErrorData)
    (j : Nat) :
    j ∈ (scanCandidates context name functions arguments error).1 ↔
      costSumAt context functions arguments j =
        some (finalState context functions arguments).lowest_cost := by
  have hinv := LoopInv_final context functions arguments
  rw [scanCandidates_fst, List.mem_append]
  have hb : j ∈ (finalState context functions arguments).best_function.toList ↔
      (finalState context functions arguments).best_function = some j := by
    cases (finalState context functions arguments).best_function <;> simp [eq_comm]
  rw [hb, hinv.mem_iff j]
  constructor
  · exact fun h => h.2
  · exact fun h => ⟨costSumAt_lt_length _ _ _ _ _ h, h⟩

/-- The lowest cost found by the loop is a lower bound of the cost of every feasible overload. -/
theorem lowest_cost_le (context : ClientContext) (functions : List SimpleFunction)
    (arguments : List LogicalType) (j c : Nat)
    (h : costSumAt context functions arguments j = some c) :
    (finalState context functions arguments).lowest_cost ≤ c :=
  (LoopInv_final context functions arguments).lower j c (costSumAt_lt_length _ _ _ _ _ h) h

/-- The candidate list has no duplicates. -/
theorem candidates_nodup (context : ClientContext) (name : String)
    (functions : List SimpleFunction) (arguments : List LogicalType) (error : ErrorData) :
    (scanCandidates context name functions arguments error).1.Nodup := by
  have hinv := LoopInv_final context functions arguments
  rw [scanCandidates_fst]
  have hs : (finalState context functions arguments).candidate_functions.Nodup :=
    hinv.sorted.imp (fun h => Nat.ne_of_lt h)
  cases hb : (finalState context functions arguments).best_function with
  | none => simpa using hs
  | some b =>
    simp only [Option.toList]
    rw [List.nodup_append]
    refine ⟨hs, List.nodup_singleton _, ?_⟩
    intro a ha hab
    simp at hab
    subst hab
    exact absurd (hinv.best_lt a hb a ha) (Nat.lt_irrefl _)

/-- As soon as some overload is feasible, some overload attains the lowest cost found. -/
theorem exists_candidate (context : ClientContext) (name : String)
    (functions : List SimpleFunction) (arguments : List LogicalType) (error : ErrorData)
    (j c : Nat) (h : costSumAt context functions arguments j = some c) :
    ∃ m, m ∈ (scanCandidates context name functions arguments error).1 := by
  have hinv := LoopInv_final context functions arguments
  cases hb : (finalState context functions arguments).best_function with
  | none =>
    refine ⟨j, (mem_candidates_iff _ _ _ _ _ _).2 ?_⟩
    have h1 := hinv.none_max hb
    have h2 := costSumAt_le_max _ _ _ _ _ h
    have h3 := lowest_cost_le _ _ _ _ _ h
    rw [h]
    congr 1
    omega
  | some b =>
    exact ⟨b, (mem_candidates_iff _ _ _ _ _ _).2 ((hinv.mem_iff b).1 (Or.inr hb)).2⟩

/-- The candidate list is empty iff no overload of the set is feasible. -/
theorem candidates_eq_nil_iff (context : ClientContext) (name : String)
    (functions : List SimpleFunction) (arguments : List LogicalType) (error : ErrorData) :
    (scanCandidates context name functions arguments error).1 = [] ↔
      ∀ j, costSumAt context functions arguments j = none := by
  constructor
  · intro h j
    cases hc : costSumAt context functions arguments j with
    | none => rfl
    | some c =>
      obtain ⟨m, hm⟩ := exists_candidate context name functions arguments error j c hc
      rw [h] at hm
      simp at hm
  · intro h
    apply List.eq_nil_iff_forall_not_mem.2
    intro j hj
    have := (mem_candidates_iff _ _ _ _ _ _).1 hj
    rw [h j] at this
    simp at this

theorem nodup_eq_singleton_iff (l : List Nat) (i : Nat) (hl : l.Nodup) :
    l = [i] ↔ i ∈ l ∧ ∀ j ∈ l, j = i := by
  constructor
  · intro h
    subst h
    simp
  · rintro ⟨hi, hall⟩
    match l, hl, hi, hall with
    | [a], _, hi, _ =>
      simp at hi
      simp [hi]
    | a :: b :: t, hl, _, hall =>
      have ha := hall a (by simp)
      have hb := hall b (by simp)
      simp at hl
      omega

/-- The function `resolveBySum` returns the valid index `i` exactly when the
candidate list is the singleton `[i]`. -/
theorem resolveBySum_some_iff (context : ClientContext) (name : String)
    (functions : List SimpleFunction) (arguments : List LogicalType) (error : ErrorData)
    (i : Nat) :
    (∃ e, resolveBySum context name functions arguments error = .ok (some i, e)) ↔
      (scanCandidates context name functions arguments error).1 = [i] := by
  unfold resolveBySum
  simp only
  generalize scanCandidates context name functions arguments error = r
  obtain ⟨l, e⟩ := r
  match l with
  | [] => simp
  | [c] => simp
  | a :: b :: t =>
    simp only
    split <;> simp [MultipleCandidateException]

/-! ## Overload resolution: the outcomes -/

theorem costSumAt_eq_some_iff (context : ClientContext) (functions : List SimpleFunction)
    (arguments : List LogicalType) (j c : Nat) :
    costSumAt context functions arguments j = some c ↔
      ∃ func, functions[j]? = some func ∧ costSum context func arguments = some c := by
  unfold costSumAt
  cases functions[j]? <;> simp

theorem costSumAt_eq_none_all_iff (context : ClientContext) (functions : List SimpleFunction)
    (arguments : List LogicalType) :
    (∀ j, costSumAt context functions arguments j = none) ↔
      ∀ func ∈ functions, costSum context func arguments = none := by
  constructor
  · intro h func hf
    obtain ⟨j, hj, hget⟩ := List.getElem_of_mem hf
    have := h j
    unfold costSumAt at this
    rw [List.getElem?_eq_getElem hj, hget] at this
    exact this
  · intro h j
    unfold costSumAt
    cases hj : functions[j]? with
    | none => rfl
    | some func => exact h func (List.getElem?_mem hj)

/-- On the summed costs: `resolveBySum` returns the valid index `i` if and only if overload `i` of
the set is feasible (`costSum` yields a cost for it) and every other feasible overload
of the set has a strictly greater cost. In particular a returned index is in range and names a
feasible overload of minimal cost. -/
theorem resolveBySum_chosen_iff (context : ClientContext) (name : String)
    (functions : List SimpleFunction) (arguments : List LogicalType) (error : ErrorData)
    (i : Nat) :
    (∃ e, resolveBySum context name functions arguments error = .ok (some i, e)) ↔
      (i < functions.length ∧
        ∃ func c, functions[i]? = some func ∧ costSum context func arguments = some c ∧
          ∀ j other c', j ≠ i → functions[j]? = some other →
            costSum context other arguments = some c' → c < c') := by
  rw [resolveBySum_some_iff,
    nodup_eq_singleton_iff _ _ (candidates_nodup context name functions arguments error)]
  constructor
  · rintro ⟨hi, hall⟩
    have hci := (mem_candidates_iff _ _ _ _ _ _).1 hi
    obtain ⟨func, hf, hc⟩ := (costSumAt_eq_some_iff _ _ _ _ _).1 hci
    refine ⟨costSumAt_lt_length _ _ _ _ _ hci, func, _, hf, hc, ?_⟩
    intro j other c' hji hother hc'
    have hcj : costSumAt context functions arguments j = some c' :=
      (costSumAt_eq_some_iff _ _ _ _ _).2 ⟨other, hother, hc'⟩
    have hle := lowest_cost_le _ _ _ _ _ hcj
    rcases Nat.lt_or_eq_of_le hle with h | h
    · exact h
    · exfalso
      apply hji
      apply hall j
      apply (mem_candidates_iff _ _ _ _ _ _).2
      rw [hcj, h]
  · rintro ⟨_, func, c, hf, hc, hall⟩
    have hci : costSumAt context functions arguments i = some c :=
      (costSumAt_eq_some_iff _ _ _ _ _).2 ⟨func, hf, hc⟩
    obtain ⟨m, hm⟩ := exists_candidate context name functions arguments error i c hci
    have hcm := (mem_candidates_iff _ _ _ _ _ _).1 hm
    have hle := lowest_cost_le _ _ _ _ _ hci
    have hmi : m = i := by
      by_contra hne
      obtain ⟨other, ho, hco⟩ := (costSumAt_eq_some_iff _ _ _ _ _).1 hcm
      have := hall m other _ hne ho hco
      omega
    subst hmi
    refine ⟨hm, ?_⟩
    intro j hj
    by_contra hne
    have hcj := (mem_candidates_iff _ _ _ _ _ _).1 hj
    obtain ⟨other, ho, hco⟩ := (costSumAt_eq_some_iff _ _ _ _ _).1 hcj
    have h1 := hall j other _ hne ho hco
    rw [hci] at hcm
    simp at hcm
    omega

theorem costSum_isSome_iff (context : ClientContext) (func : SimpleFunction)
    (arguments : List LogicalType) :
    costSum context func arguments ≠ none ↔
      if func.HasVarArgs = true then
        func.arguments.length ≤ arguments.length ∧
          ∀ (j : Nat) (a : LogicalType), arguments[j]? = some a →
            a.stripCollation ≠ (func.paramAt j).stripCollation →
            0 ≤ context.ImplicitCastCost a (func.paramAt j)
      else
        arguments.length = func.arguments.length ∧
          ∀ (j : Nat) (a p : LogicalType), arguments[j]? = some a → func.arguments[j]? = some p →
            a.id ≠ LogicalTypeId.UNKNOWN → 0 ≤ context.ImplicitCastCost a p := by
  unfold costSum
  by_cases hv : func.HasVarArgs = true
  · simp only [hv, if_true]
    unfold varArgsCostSum
    by_cases hlen : arguments.length < func.arguments.length
    · simp only [hlen, if_true]
      constructor
      · intro h
        exact absurd rfl h
      · rintro ⟨h, _⟩
        omega
    · simp only [hlen, if_false]
      rw [← Option.isSome_iff_ne_none, BindVarArgsFunctionCostLoop_isSome]
      simp only [Nat.zero_add]
      constructor
      · intro h
        exact ⟨by omega, h⟩
      · exact fun h => h.2
  · rw [if_neg hv, if_neg hv]
    by_cases hlen : func.arguments.length ≠ arguments.length
    · rw [if_pos hlen]
      constructor
      · intro h
        exact absurd rfl h
      · rintro ⟨h, _⟩
        exact absurd h.symm hlen
    · rw [if_neg hlen]
      have hl : func.arguments.length = arguments.length := by
        by_contra h
        exact hlen h
      have hloop := BindFunctionCostLoop_isSome context func arguments 0 0 false
      simp only [Nat.zero_add] at hloop
      have hsome : (match BindFunctionCostLoop context func arguments 0 0 false with
          | none => (none : Option Nat)
          | some (cost, has_parameter) => if has_parameter = true then some 0 else some cost)
            ≠ none ↔ (BindFunctionCostLoop context func arguments 0 0 false).isSome = true := by
        cases BindFunctionCostLoop context func arguments 0 0 false with
        | none => simp
        | some r =>
          obtain ⟨cost, hp⟩ := r
          cases hp <;> simp
      rw [hsome, hloop]
      constructor
      · intro h
        refine ⟨hl.symm, ?_⟩
        intro j a p hj hp hne
        have := h j a hj hne
        have hget : func.arguments.getD j LogicalType.INVALID = p := by
          simp [List.getD, hp]
        rwa [hget] at this
      · rintro ⟨_, h⟩ j a hj hne
        have hjlt : j < func.arguments.length := by
          rw [hl]
          exact (List.getElem?_eq_some_iff.1 hj).1
        have hp : func.arguments[j]? = some (func.arguments.getD j LogicalType.INVALID) := by
          simp [List.getD, List.getElem?_eq_getElem hjlt]
        exact h j a _ hj hp hne

theorem empty_candidates_iff_none_feasible (context : ClientContext) (name : String)
    (functions : List SimpleFunction) (arguments : List LogicalType) (error : ErrorData) :
    ((scanCandidates context name functions arguments error =
          ([], ErrorData.NoMatchingFunction
            (firstNonEmptyName (functions.map (fun f => f.catalog_name)))
            (firstNonEmptyName (functions.map (fun f => f.schema_name)))
            name arguments (functions.map context.ToString))) ∧
        resolveBySum context name functions arguments error =
          .ok (none, ErrorData.NoMatchingFunction
            (firstNonEmptyName (functions.map (fun f => f.catalog_name)))
            (firstNonEmptyName (functions.map (fun f => f.schema_name)))
            name arguments (functions.map context.ToString))) ↔
      ∀ func ∈ functions, costSum context func arguments = none := by
  rw [← costSumAt_eq_none_all_iff, ← candidates_eq_nil_iff context name functions arguments error]
  constructor
  · rintro ⟨h, _⟩
    rw [h]
  · intro h
    have hfst := scanCandidates_fst context name functions arguments error
    rw [h] at hfst
    have hbest : (finalState context functions arguments).best_function = none := by
      cases hb : (finalState context functions arguments).best_function with
      | none => rfl
      | some b =>
        rw [hb] at hfst
        have := congrArg List.length hfst
        simp at this
    have hcand : (finalState context functions arguments).candidate_functions = [] := by
      rw [hbest] at hfst
      simpa using hfst.symm
    have hr : scanCandidates context name functions arguments error =
        ([], ErrorData.NoMatchingFunction
            (firstNonEmptyName (functions.map (fun f => f.catalog_name)))
            (firstNonEmptyName (functions.map (fun f => f.schema_name)))
            name arguments (functions.map context.ToString)) := by
      unfold finalState at hbest hcand
      unfold scanCandidates
      simp only [hbest, hcand]
    refine ⟨hr, ?_⟩
    unfold resolveBySum
    simp only [hr]

theorem scanCandidates_nil (context : ClientContext) (name : String)
    (functions : List SimpleFunction) (arguments : List LogicalType) (error : ErrorData)
    (h : (scanCandidates context name functions arguments error).1 = []) :
    scanCandidates context name functions arguments error =
      ([], ErrorData.NoMatchingFunction
        (firstNonEmptyName (functions.map (fun f => f.catalog_name)))
        (firstNonEmptyName (functions.map (fun f => f.schema_name)))
        name arguments (functions.map context.ToString)) := by
  have hno := (candidates_eq_nil_iff context name functions arguments error).1 h
  exact ((empty_candidates_iff_none_feasible context name functions arguments error).2
    ((costSumAt_eq_none_all_iff _ _ _).1 hno)).1

theorem resolveBySum_of_nil (context : ClientContext) (name : String)
    (functions : List SimpleFunction) (arguments : List LogicalType) (error : ErrorData)
    (h : (scanCandidates context name functions arguments error).1 = []) :
    resolveBySum context name functions arguments error =
      .ok (none, (scanCandidates context name functions arguments error).2) := by
  unfold resolveBySum
  simp only [h]

theorem resolveBySum_of_singleton (context : ClientContext) (name : String)
    (functions : List SimpleFunction) (arguments : List LogicalType) (error : ErrorData)
    (c : Nat)
    (h : (scanCandidates context name functions arguments error).1 = [c]) :
    resolveBySum context name functions arguments error =
      .ok (some c, (scanCandidates context name functions arguments error).2) := by
  unfold resolveBySum
  simp only [h]

theorem resolveBySum_of_many (context : ClientContext) (name : String)
    (functions : List SimpleFunction) (arguments : List LogicalType) (error : ErrorData)
    (a b : Nat) (t : List Nat)
    (h : (scanCandidates context name functions arguments error).1 = a :: b :: t) :
    resolveBySum context name functions arguments error =
      if arguments.any LogicalType.IsUnknown = true then
        .error BinderThrow.ParameterNotResolvedException
      else
        .ok (MultipleCandidateException context (firstCatalogName functions)
          (firstSchemaName functions) name functions
          (scanCandidates context name functions arguments error).1 arguments) := by
  unfold resolveBySum
  simp only [h]

theorem two_members (l : List Nat) (i j : Nat) (hi : i ∈ l) (hj : j ∈ l) (hne : i ≠ j) :
    ∃ a b t, l = a :: b :: t := by
  match l, hi, hj with
  | [a], hi, hj =>
    simp at hi hj
    omega
  | a :: b :: t, _, _ => exact ⟨a, b, t, rfl⟩

/-- Under a tie at the minimal cost the candidate list has at least two entries. -/
theorem TiedAtMinimumSum_candidates (context : ClientContext) (name : String)
    (functions : List SimpleFunction) (arguments : List LogicalType) (error : ErrorData)
    (h : TiedAtMinimumSum context functions arguments) :
    ∃ a b t, (scanCandidates context name functions arguments error).1 =
      a :: b :: t := by
  obtain ⟨i, j, fi, fj, c, hne, hfi, hfj, hci, hcj, hmin⟩ := h
  have hi : costSumAt context functions arguments i = some c :=
    (costSumAt_eq_some_iff _ _ _ _ _).2 ⟨fi, hfi, hci⟩
  have hj : costSumAt context functions arguments j = some c :=
    (costSumAt_eq_some_iff _ _ _ _ _).2 ⟨fj, hfj, hcj⟩
  have hlow : (finalState context functions arguments).lowest_cost = c := by
    apply Nat.le_antisymm (lowest_cost_le _ _ _ _ _ hi)
    obtain ⟨m, hm⟩ := exists_candidate context name functions arguments error i c hi
    have hcm := (mem_candidates_iff _ _ _ _ _ _).1 hm
    obtain ⟨fm, hfm, hcfm⟩ := (costSumAt_eq_some_iff _ _ _ _ _).1 hcm
    exact hmin fm (List.getElem?_mem hfm) _ hcfm
  apply two_members _ i j _ _ hne
  · apply (mem_candidates_iff _ _ _ _ _ _).2
    rw [hi, hlow]
  · apply (mem_candidates_iff _ _ _ _ _ _).2
    rw [hj, hlow]

theorem any_IsUnknown_eq_false (arguments : List LogicalType)
    (h : ∀ a ∈ arguments, a.IsUnknown = false) :
    ¬ (arguments.any LogicalType.IsUnknown = true) := by
  intro hany
  obtain ⟨a, ha, hu⟩ := List.any_eq_true.1 hany
  rw [h a ha] at hu
  simp at hu

/-- On the summed costs: when more than one overload ties at the minimal cost,
`resolveBySum` throws `ParameterNotResolvedException` (deferred) if and only if some
argument type is the unknown placeholder, and otherwise returns the invalid index together with
the error of `MultipleCandidateException` (ambiguous). Consequently, for every argument list
without an unknown placeholder the exception is never thrown: the outcome is chosen or ambiguous
when some overload is feasible, and no match when none is. -/
theorem resolveBySum_tie (context : ClientContext) (name : String)
    (functions : List SimpleFunction) (arguments : List LogicalType) (error : ErrorData) :
    (TiedAtMinimumSum context functions arguments →
      ((resolveBySum context name functions arguments error =
            .error BinderThrow.ParameterNotResolvedException ↔
          ∃ a ∈ arguments, a.IsUnknown = true) ∧
        ((∀ a ∈ arguments, a.IsUnknown = false) →
          resolveBySum context name functions arguments error =
            .ok (MultipleCandidateException context (firstCatalogName functions)
              (firstSchemaName functions) name functions
              (scanCandidates context name functions arguments error).1
              arguments)))) ∧
    ((∀ a ∈ arguments, a.IsUnknown = false) →
      (∀ t, resolveBySum context name functions arguments error ≠ .error t) ∧
      outcomeKind (resolveBySum context name functions arguments error) ≠
        OutcomeKind.Deferred ∧
      ((∃ func ∈ functions, costSum context func arguments ≠ none) →
        (outcomeKind (resolveBySum context name functions arguments error) =
            OutcomeKind.Chosen ∨
          outcomeKind (resolveBySum context name functions arguments error) =
            OutcomeKind.Ambiguous)) ∧
      ((∀ func ∈ functions, costSum context func arguments = none) →
        outcomeKind (resolveBySum context name functions arguments error) =
          OutcomeKind.NoMatch)) := by
  constructor
  · intro htie
    obtain ⟨a, b, t, hl⟩ := TiedAtMinimumSum_candidates context name functions arguments error htie
    rw [resolveBySum_of_many context name functions arguments error a b t hl]
    constructor
    · rw [← List.any_eq_true]
      by_cases hany : arguments.any LogicalType.IsUnknown = true
      · simp [hany]
      · simp [hany]
    · intro hno
      rw [if_neg (any_IsUnknown_eq_false arguments hno)]
  · intro hno
    have hany := any_IsUnknown_eq_false arguments hno
    have hfeas : (∃ func ∈ functions, costSum context func arguments ≠ none) ↔
        (scanCandidates context name functions arguments error).1 ≠ [] := by
      rw [Ne, candidates_eq_nil_iff, costSumAt_eq_none_all_iff]
      constructor
      · rintro ⟨func, hf, hc⟩ hall
        exact hc (hall func hf)
      · intro h
        by_contra hcon
        apply h
        intro func hf
        by_contra hc
        exact hcon ⟨func, hf, hc⟩
    have hnone : (∀ func ∈ functions, costSum context func arguments = none) ↔
        (scanCandidates context name functions arguments error).1 = [] := by
      rw [candidates_eq_nil_iff, costSumAt_eq_none_all_iff]
    rw [hfeas, hnone]
    match hl : (scanCandidates context name functions arguments error).1 with
    | [] =>
      have hr := scanCandidates_nil context name functions arguments error hl
      rw [resolveBySum_of_nil context name functions arguments error hl, hr]
      simp [outcomeKind]
    | [c] =>
      rw [resolveBySum_of_singleton context name functions arguments error c hl]
      simp [outcomeKind]
    | a :: b :: t =>
      rw [resolveBySum_of_many context name functions arguments error a b t hl,
        if_neg hany]
      simp [outcomeKind, MultipleCandidateException]

/-! ## Unknown-typed arguments -/

theorem BindFunctionCostLoop_congr (context context' : ClientContext) (func : SimpleFunction)
    (h : ∀ s t : LogicalType, s.id ≠ LogicalTypeId.UNKNOWN →
      context.ImplicitCastCost s t = context'.ImplicitCastCost s t)
    (arguments : List LogicalType) (i cost : Nat) (b : Bool) :
    BindFunctionCostLoop context func arguments i cost b =
      BindFunctionCostLoop context' func arguments i cost b := by
  induction arguments generalizing i cost b with
  | nil => simp [BindFunctionCostLoop]
  | cons x rest ih =>
    unfold BindFunctionCostLoop
    by_cases hx : x.id = LogicalTypeId.UNKNOWN
    · rw [if_pos hx, if_pos hx]
      exact ih _ _ _
    · rw [if_neg hx, if_neg hx]
      simp only [h x _ hx, ih]

theorem costSum_of_not_varargs (context : ClientContext) (func : SimpleFunction)
    (arguments : List LogicalType) (hv : func.HasVarArgs = false) :
    costSum context func arguments =
      if func.arguments.length ≠ arguments.length then none
      else
        match BindFunctionCostLoop context func arguments 0 0 false with
        | none => none
        | some (cost, has_parameter) => if has_parameter = true then some 0 else some cost := by
  unfold costSum
  simp [hv]

/-- A feasible non-variadic overload has cost zero as soon as one argument is unknown. -/
theorem costSum_unknown_zero (context : ClientContext) (func : SimpleFunction)
    (arguments : List LogicalType) (hv : func.HasVarArgs = false)
    (hu : ∃ a ∈ arguments, a.id = LogicalTypeId.UNKNOWN) (c : Nat)
    (hc : costSum context func arguments = some c) : c = 0 := by
  rw [costSum_of_not_varargs context func arguments hv] at hc
  split at hc
  · simp at hc
  · split at hc
    · simp at hc
    · rename_i cost hp heq
      have hflag := BindFunctionCostLoop_flag context func arguments 0 0 false _ heq
      simp only [Bool.false_or] at hflag
      have hany : arguments.any LogicalType.IsUnknown = true := by
        obtain ⟨a, ha, hua⟩ := hu
        exact List.any_eq_true.2 ⟨a, ha, by simp [LogicalType.IsUnknown, hua]⟩
      rw [hany] at hflag
      rw [hflag] at hc
      simp at hc
      exact hc.symm

/-- On the summed costs: for every non-variadic overload and every argument list, an argument
whose type is the unknown placeholder is skipped by the cost loop, leaving the running cost
unchanged, and the cast cost oracle is not consulted for it: two oracles that agree on every pair
whose source is not unknown give the same cost and the same feasibility. If at least one argument
is unknown, the argument count equals the parameter count and every other argument has a
non-negative cast cost to its parameter, `costSum` returns exactly zero. -/
theorem costSum_unknown_nonvariadic (func : SimpleFunction)
    (arguments : List LogicalType) (hv : func.HasVarArgs = false) :
    (∀ (context : ClientContext) (a : LogicalType) (rest : List LogicalType) (i cost : Nat)
        (has_parameter : Bool), a.id = LogicalTypeId.UNKNOWN →
      BindFunctionCostLoop context func (a :: rest) i cost has_parameter =
        BindFunctionCostLoop context func rest (i + 1) cost true) ∧
    (∀ context context' : ClientContext,
      (∀ s t : LogicalType, s.id ≠ LogicalTypeId.UNKNOWN →
        context.ImplicitCastCost s t = context'.ImplicitCastCost s t) →
      costSum context func arguments = costSum context' func arguments) ∧
    (∀ context : ClientContext, (∃ a ∈ arguments, a.id = LogicalTypeId.UNKNOWN) →
      arguments.length = func.arguments.length →
      (∀ (j : Nat) (a p : LogicalType), arguments[j]? = some a → func.arguments[j]? = some p →
        a.id ≠ LogicalTypeId.UNKNOWN → 0 ≤ context.ImplicitCastCost a p) →
      costSum context func arguments = some 0) := by
  refine ⟨?_, ?_, ?_⟩
  · intro context a rest i cost has_parameter ha
    rw [BindFunctionCostLoop, if_pos ha]
  · intro context context' h
    rw [costSum_of_not_varargs context func arguments hv,
      costSum_of_not_varargs context' func arguments hv,
      BindFunctionCostLoop_congr context context' func h]
  · intro context hu hlen hcast
    have hfeas : costSum context func arguments ≠ none := by
      rw [costSum_isSome_iff]
      have hv' : ¬ (func.HasVarArgs = true) := by simp [hv]
      rw [if_neg hv']
      exact ⟨hlen, hcast⟩
    cases hc : costSum context func arguments with
    | none => exact absurd hc hfeas
    | some c =>
      rw [costSum_unknown_zero context func arguments hv hu c hc]

theorem lowest_cost_eq_of_min (context : ClientContext) (name : String)
    (functions : List SimpleFunction) (arguments : List LogicalType) (error : ErrorData)
    (i : Nat) (fi : SimpleFunction) (c : Nat) (hfi : functions[i]? = some fi)
    (hci : costSum context fi arguments = some c)
    (hmin : ∀ func ∈ functions, ∀ c', costSum context func arguments = some c' →
      c ≤ c') :
    (finalState context functions arguments).lowest_cost = c ∧
      i ∈ (scanCandidates context name functions arguments error).1 := by
  have hi : costSumAt context functions arguments i = some c :=
    (costSumAt_eq_some_iff _ _ _ _ _).2 ⟨fi, hfi, hci⟩
  have hlow : (finalState context functions arguments).lowest_cost = c := by
    apply Nat.le_antisymm (lowest_cost_le _ _ _ _ _ hi)
    obtain ⟨m, hm⟩ := exists_candidate context name functions arguments error i c hi
    have hcm := (mem_candidates_iff _ _ _ _ _ _).1 hm
    obtain ⟨fm, hfm, hcfm⟩ := (costSumAt_eq_some_iff _ _ _ _ _).1 hcm
    exact hmin fm (List.getElem?_mem hfm) _ hcfm
  refine ⟨hlow, (mem_candidates_iff _ _ _ _ _ _).2 ?_⟩
  rw [hi, hlow]

/-- On the summed costs: for every overload set and every argument list that contains an
unknown-placeholder argument, if two distinct non-variadic overloads of the set are feasible, then
both have cost 0 whatever the cast costs of the known positions, both are in the candidate list
(cost eliminates neither), and `resolveBySum` throws
`ParameterNotResolvedException`: the outcome is deferred, not ambiguous and not a chosen
overload. -/
theorem resolveBySum_two_fixed (context : ClientContext) (name : String)
    (functions : List SimpleFunction) (arguments : List LogicalType) (error : ErrorData)
    (i j : Nat) (fi fj : SimpleFunction)
    (hu : ∃ a ∈ arguments, a.id = LogicalTypeId.UNKNOWN) (hne : i ≠ j)
    (hfi : functions[i]? = some fi) (hfj : functions[j]? = some fj)
    (hvi : fi.HasVarArgs = false) (hvj : fj.HasVarArgs = false)
    (hci : costSum context fi arguments ≠ none)
    (hcj : costSum context fj arguments ≠ none) :
    costSum context fi arguments = some 0 ∧
    costSum context fj arguments = some 0 ∧
    i ∈ (scanCandidates context name functions arguments error).1 ∧
    j ∈ (scanCandidates context name functions arguments error).1 ∧
    resolveBySum context name functions arguments error =
      .error BinderThrow.ParameterNotResolvedException ∧
    outcomeKind (resolveBySum context name functions arguments error) =
      OutcomeKind.Deferred := by
  have hzi : costSum context fi arguments = some 0 := by
    cases hc : costSum context fi arguments with
    | none => exact absurd hc hci
    | some c => rw [costSum_unknown_zero context fi arguments hvi hu c hc]
  have hzj : costSum context fj arguments = some 0 := by
    cases hc : costSum context fj arguments with
    | none => exact absurd hc hcj
    | some c => rw [costSum_unknown_zero context fj arguments hvj hu c hc]
  have hmi := (lowest_cost_eq_of_min context name functions arguments error i fi 0 hfi hzi
    (fun _ _ c' _ => Nat.zero_le c')).2
  have hmj := (lowest_cost_eq_of_min context name functions arguments error j fj 0 hfj hzj
    (fun _ _ c' _ => Nat.zero_le c')).2
  obtain ⟨a, b, t, hl⟩ := two_members _ i j hmi hmj hne
  have hany : arguments.any LogicalType.IsUnknown = true := by
    obtain ⟨x, hx, hux⟩ := hu
    exact List.any_eq_true.2 ⟨x, hx, by simp [LogicalType.IsUnknown, hux]⟩
  have hres := resolveBySum_of_many context name functions arguments error a b t hl
  rw [if_pos hany] at hres
  refine ⟨hzi, hzj, hmi, hmj, hres, ?_⟩
  rw [hres]
  rfl

/-! ## Exact matches -/

theorem paramAt_of_lt (func : SimpleFunction) (i : Nat) (h : i < func.arguments.length) :
    func.paramAt i = func.arguments.getD i LogicalType.INVALID := by
  unfold SimpleFunction.paramAt
  rw [if_pos h]

theorem BindVarArgsFunctionCostLoop_exact (context : ClientContext) (func : SimpleFunction)
    (arguments : List LogicalType) (i cost : Nat)
    (h : exactMatchFrom func arguments i = true) :
    BindVarArgsFunctionCostLoop context func arguments i cost = some cost := by
  induction arguments generalizing i with
  | nil => simp [BindVarArgsFunctionCostLoop]
  | cons x rest ih =>
    simp only [exactMatchFrom, Bool.and_eq_true, decide_eq_true_eq] at h
    unfold BindVarArgsFunctionCostLoop
    simp only
    rw [if_pos h.1]
    exact ih _ h.2

theorem BindFunctionCostLoop_exact (context : ClientContext) (func : SimpleFunction)
    (arguments : List LogicalType) (i cost : Nat) (b : Bool)
    (h : exactMatchFrom func arguments i = true)
    (hlen : i + arguments.length ≤ func.arguments.length)
    (hid : ∀ a ∈ arguments, ∀ p : LogicalType, a.stripCollation = p.stripCollation →
      a.id ≠ LogicalTypeId.UNKNOWN → context.ImplicitCastCost a p = 0)
    (hcost : cost < 2 ^ 64) :
    ∃ b', BindFunctionCostLoop context func arguments i cost b = some (cost, b') := by
  induction arguments generalizing i b with
  | nil => exact ⟨b, by simp [BindFunctionCostLoop]⟩
  | cons x rest ih =>
    simp only [exactMatchFrom, Bool.and_eq_true, decide_eq_true_eq] at h
    simp only [List.length_cons] at hlen
    have hrest : ∀ a ∈ rest, ∀ p : LogicalType, a.stripCollation = p.stripCollation →
        a.id ≠ LogicalTypeId.UNKNOWN → context.ImplicitCastCost a p = 0 :=
      fun a ha => hid a (List.mem_cons_of_mem _ ha)
    unfold BindFunctionCostLoop
    by_cases hx : x.id = LogicalTypeId.UNKNOWN
    · rw [if_pos hx]
      exact ih (i + 1) true h.2 (by omega) hrest
    · rw [if_neg hx]
      have hp : x.stripCollation =
          (func.arguments.getD i LogicalType.INVALID).stripCollation := by
        rw [← paramAt_of_lt func i (by omega)]
        exact h.1
      have hz : context.ImplicitCastCost x (func.arguments.getD i LogicalType.INVALID) = 0 :=
        hid x (List.mem_cons_self _ _) _ hp hx
      simp only [hz, ge_iff_le, le_refl, if_true, Int.toNat_zero, Nat.add_zero,
        Nat.mod_eq_of_lt hcost]
      exact ih (i + 1) b h.2 (by omega) hrest

/-- An overload whose parameter types are matched exactly by an admissible number of arguments
has cost 0; a non-variadic overload consults the oracle on the structurally equal pairs. -/
theorem costSum_exact (context : ClientContext) (func : SimpleFunction)
    (arguments : List LogicalType) (hexact : exactMatch func arguments = true)
    (hcount : admissibleCount func arguments = true)
    (hid : func.HasVarArgs = false → ∀ a ∈ arguments, ∀ p : LogicalType,
      a.stripCollation = p.stripCollation → a.id ≠ LogicalTypeId.UNKNOWN →
      context.ImplicitCastCost a p = 0) :
    costSum context func arguments = some 0 := by
  unfold exactMatch at hexact
  unfold admissibleCount at hcount
  cases hv : func.HasVarArgs with
  | true =>
    simp only [hv, if_true, decide_eq_true_eq] at hcount
    unfold costSum varArgsCostSum
    rw [if_pos hv, if_neg (by omega)]
    exact BindVarArgsFunctionCostLoop_exact context func arguments 0 0 hexact
  | false =>
    simp only [hv, Bool.false_eq_true, if_false, decide_eq_true_eq] at hcount
    rw [costSum_of_not_varargs context func arguments hv, if_neg (by omega)]
    obtain ⟨b', hb'⟩ := BindFunctionCostLoop_exact context func arguments 0 0 false hexact
      (by omega) (hid hv) (by norm_num)
    rw [hb']
    cases b' <;> rfl

theorem scanCandidates_snd_of_lt (context : ClientContext) (name : String)
    (functions : List SimpleFunction) (arguments : List LogicalType) (error : ErrorData)
    (h : (finalState context functions arguments).lowest_cost < IDX_MAX) :
    (scanCandidates context name functions arguments error).2 = error := by
  have hinv := LoopInv_final context functions arguments
  cases hb : (finalState context functions arguments).best_function with
  | none =>
    have := hinv.none_max hb
    omega
  | some b =>
    unfold finalState at hb
    unfold scanCandidates
    simp only [hb]

/-- On the summed costs: if every argument type structurally equals the corresponding effective
parameter type of overload `i` and the argument count is admissible for it, then `costSum` gives
overload `i` cost 0, provided that, when overload `i` is not variadic, the oracle reports cost 0
for casting each argument type other than the unknown placeholder to every type structurally equal
to it. If moreover no other overload of the set has cost 0, `resolveBySum` returns the valid index
`i` and leaves the error untouched: the outcome is chosen, not deferred, ambiguous or no match. -/
theorem resolveBySum_exact (context : ClientContext) (name : String)
    (functions : List SimpleFunction) (arguments : List LogicalType) (error : ErrorData)
    (i : Nat) (func : SimpleFunction) (hf : functions[i]? = some func)
    (hexact : exactMatch func arguments = true)
    (hcount : admissibleCount func arguments = true)
    (hid : func.HasVarArgs = false → ∀ a ∈ arguments, ∀ p : LogicalType,
      a.stripCollation = p.stripCollation → a.id ≠ LogicalTypeId.UNKNOWN →
      context.ImplicitCastCost a p = 0) :
    costSum context func arguments = some 0 ∧
    ((∀ (j : Nat) (other : SimpleFunction), j ≠ i → functions[j]? = some other →
        costSum context other arguments ≠ some 0) →
      resolveBySum context name functions arguments error =
        .ok (some i, error)) := by
  have hzero := costSum_exact context func arguments hexact hcount hid
  refine ⟨hzero, ?_⟩
  intro hothers
  obtain ⟨hlow, hmem⟩ := lowest_cost_eq_of_min context name functions arguments error i func 0
    hf hzero (fun _ _ c' _ => Nat.zero_le c')
  have hsingle : (scanCandidates context name functions arguments error).1 = [i] := by
    rw [nodup_eq_singleton_iff _ _ (candidates_nodup context name functions arguments error)]
    refine ⟨hmem, ?_⟩
    intro j hj
    by_contra hne
    have hcj := (mem_candidates_iff _ _ _ _ _ _).1 hj
    rw [hlow] at hcj
    obtain ⟨other, ho, hco⟩ := (costSumAt_eq_some_iff _ _ _ _ _).1 hcj
    exact hothers j other hne ho hco
  rw [resolveBySum_of_singleton context name functions arguments error i hsingle,
    scanCandidates_snd_of_lt context name functions arguments error
      (by rw [hlow]; decide)]

/-! ## Independence of the order of the overload set -/

theorem outcomeKind_eq_kindOfCount (context : ClientContext) (name : String)
    (functions : List SimpleFunction) (arguments : List LogicalType) (error : ErrorData) :
    outcomeKind (resolveBySum context name functions arguments error) =
      kindOfCount (scanCandidates context name functions arguments error).1.length
        (arguments.any LogicalType.IsUnknown) := by
  match hl : (scanCandidates context name functions arguments error).1 with
  | [] =>
    have hr := scanCandidates_nil context name functions arguments error hl
    rw [resolveBySum_of_nil context name functions arguments error hl, hr]
    rfl
  | [c] =>
    rw [resolveBySum_of_singleton context name functions arguments error c hl]
    rfl
  | a :: b :: t =>
    rw [resolveBySum_of_many context name functions arguments error a b t hl]
    cases hany : arguments.any LogicalType.IsUnknown <;>
      simp [outcomeKind, kindOfCount, MultipleCandidateException]

/-- The lowest cost found is either the initial maximum or the cost of some overload. -/
theorem lowest_cost_attained (context : ClientContext) (functions : List SimpleFunction)
    (arguments : List LogicalType) :
    (finalState context functions arguments).lowest_cost = IDX_MAX ∨
      ∃ func ∈ functions, costSum context func arguments =
        some (finalState context functions arguments).lowest_cost := by
  have hinv := LoopInv_final context functions arguments
  cases hb : (finalState context functions arguments).best_function with
  | none => exact Or.inl (hinv.none_max hb)
  | some b =>
    right
    have := ((hinv.mem_iff b).1 (Or.inr hb)).2
    obtain ⟨func, hf, hc⟩ := (costSumAt_eq_some_iff _ _ _ _ _).1 this
    exact ⟨func, List.getElem?_mem hf, hc⟩

theorem lowest_cost_le_of_mem (context : ClientContext) (functions : List SimpleFunction)
    (arguments : List LogicalType) (func : SimpleFunction) (hf : func ∈ functions) (c : Nat)
    (hc : costSum context func arguments = some c) :
    (finalState context functions arguments).lowest_cost ≤ c := by
  obtain ⟨j, hj⟩ := List.mem_iff_getElem?.1 hf
  exact lowest_cost_le context functions arguments j c
    ((costSumAt_eq_some_iff _ _ _ _ _).2 ⟨func, hj, hc⟩)

theorem lowest_cost_le_of_subset (context : ClientContext)
    (functions functions' : List SimpleFunction) (arguments : List LogicalType)
    (hsub : ∀ func, func ∈ functions → func ∈ functions') :
    (finalState context functions' arguments).lowest_cost ≤
      (finalState context functions arguments).lowest_cost := by
  rcases lowest_cost_attained context functions arguments with h | ⟨func, hf, hc⟩
  · rw [h]
    exact (LoopInv_final context functions' arguments).le_max
  · exact lowest_cost_le_of_mem context functions' arguments func (hsub func hf) _ hc

/-- The lowest cost found does not depend on the order of the overload set. -/
theorem lowest_cost_perm (context : ClientContext) (functions functions' : List SimpleFunction)
    (arguments : List LogicalType) (hperm : functions.Perm functions') :
    (finalState context functions arguments).lowest_cost =
      (finalState context functions' arguments).lowest_cost :=
  Nat.le_antisymm
    (lowest_cost_le_of_subset context functions' functions arguments
      (fun _ h => hperm.symm.subset h))
    (lowest_cost_le_of_subset context functions functions' arguments
      (fun _ h => hperm.subset h))

theorem map_GetFunctionByOffset_range (functions : List SimpleFunction) :
    (List.range functions.length).map (GetFunctionByOffset functions) = functions := by
  apply List.ext_getElem
  · simp
  · intro n h1 h2
    simp [GetFunctionByOffset, List.getD, List.getElem?_eq_getElem h2]

/-- The overloads named by the candidate list are, up to order, the overloads of the set whose
cost is the lowest cost found. -/
theorem named_candidates_perm (context : ClientContext) (name : String)
    (functions : List SimpleFunction) (arguments : List LogicalType) (error : ErrorData) :
    ((scanCandidates context name functions arguments error).1.map
        (GetFunctionByOffset functions)).Perm
      (functions.filter (fun func => decide (costSum context func arguments =
        some (finalState context functions arguments).lowest_cost))) := by
  have h1 : (scanCandidates context name functions arguments error).1.Perm
      ((List.range functions.length).filter (fun j =>
        decide (costSumAt context functions arguments j =
          some (finalState context functions arguments).lowest_cost))) := by
    rw [List.perm_ext_iff_of_nodup (candidates_nodup context name functions arguments error)
      ((List.nodup_range _).filter _)]
    intro j
    rw [mem_candidates_iff, List.mem_filter, List.mem_range, decide_eq_true_eq]
    constructor
    · exact fun h => ⟨costSumAt_lt_length _ _ _ _ _ h, h⟩
    · exact fun h => h.2
  refine (h1.map _).trans ?_
  have h2 : (List.range functions.length).filter (fun j =>
        decide (costSumAt context functions arguments j =
          some (finalState context functions arguments).lowest_cost)) =
      (List.range functions.length).filter ((fun func =>
        decide (costSum context func arguments =
          some (finalState context functions arguments).lowest_cost)) ∘
        GetFunctionByOffset functions) := by
    apply List.filter_congr
    intro j hj
    have hj' : j < functions.length := List.mem_range.1 hj
    simp [costSumAt, GetFunctionByOffset, List.getD, List.getElem?_eq_getElem hj']
  rw [h2, ← List.filter_map, map_GetFunctionByOffset_range]

/-- On the summed costs: resolution is independent of the order of the overload set. For every
permutation `functions'` of `functions` and every argument list, each overload keeps its cost, the
outcome (chosen, deferred, ambiguous, no match) is the same, an index of `functions` and an index
of `functions'` that name the same overload are both in their candidate list or both outside, and
the overloads named by the two candidate lists are the same up to order. -/
theorem resolveBySum_perm (context : ClientContext) (name : String)
    (functions functions' : List SimpleFunction) (arguments : List LogicalType)
    (error : ErrorData) (hperm : functions.Perm functions') :
    (functions.map (fun func => (func, costSum context func arguments))).Perm
      (functions'.map (fun func => (func, costSum context func arguments))) ∧
    outcomeKind (resolveBySum context name functions arguments error) =
      outcomeKind (resolveBySum context name functions' arguments error) ∧
    (∀ (i j : Nat) (func : SimpleFunction), functions[i]? = some func →
      functions'[j]? = some func →
      (i ∈ (scanCandidates context name functions arguments error).1 ↔
        j ∈ (scanCandidates context name functions' arguments error).1)) ∧
    ((scanCandidates context name functions arguments error).1.map
        (GetFunctionByOffset functions)).Perm
      ((scanCandidates context name functions' arguments error).1.map
        (GetFunctionByOffset functions')) := by
  have hlow := lowest_cost_perm context functions functions' arguments hperm
  have hnamed : ((scanCandidates context name functions arguments error).1.map
        (GetFunctionByOffset functions)).Perm
      ((scanCandidates context name functions' arguments error).1.map
        (GetFunctionByOffset functions')) := by
    refine (named_candidates_perm context name functions arguments error).trans ?_
    refine List.Perm.trans ?_ (named_candidates_perm context name functions' arguments error).symm
    rw [hlow]
    exact hperm.filter _
  refine ⟨hperm.map _, ?_, ?_, hnamed⟩
  · rw [outcomeKind_eq_kindOfCount, outcomeKind_eq_kindOfCount]
    have := hnamed.length_eq
    simp only [List.length_map] at this
    rw [this]
  · intro i j func hi hj
    rw [mem_candidates_iff, mem_candidates_iff, hlow]
    simp [costSumAt, hi, hj]

/-! ## Cast insertion -/

theorem RequiresCast_eq (source target : LogicalType) :
    RequiresCast source target =
      if target.id = LogicalTypeId.ANY then LogicalTypeComparisonResult.TARGET_IS_ANY
      else if source.stripCollation = target.stripCollation then
        LogicalTypeComparisonResult.IDENTICAL_TYPE
      else
        match source, target with
        | .LIST source_child, .LIST target_child => RequiresCast source_child target_child
        | .ARRAY source_child, .ARRAY target_child => RequiresCast source_child target_child
        | _, _ => LogicalTypeComparisonResult.DIFFERENT_TYPES := by
  cases source <;> cases target <;> simp [RequiresCast, LogicalType.stripCollation]

/-- A type compared with itself never requires a cast. -/
theorem RequiresCast_self (t : LogicalType) :
    RequiresCast t t ≠ LogicalTypeComparisonResult.DIFFERENT_TYPES := by
  rw [RequiresCast_eq]
  by_cases h : t.id = LogicalTypeId.ANY
  · rw [if_pos h]
    decide
  · rw [if_neg h, if_pos rfl]
    decide

/-- Against a target without wildcard, `RequiresCast` is the test of structural equality. -/
theorem RequiresCast_of_not_containsAny (source target : LogicalType)
    (h : containsAny target = false) :
    RequiresCast source target =
      if source.stripCollation = target.stripCollation then
        LogicalTypeComparisonResult.IDENTICAL_TYPE
      else LogicalTypeComparisonResult.DIFFERENT_TYPES := by
  induction target generalizing source with
  | LIST child ih =>
    rw [RequiresCast_eq]
    simp only [LogicalType.id, containsAny] at h ⊢
    rw [if_neg (by decide)]
    by_cases hs : source.stripCollation = (LogicalType.LIST child).stripCollation
    · rw [if_pos hs, if_pos hs]
    · rw [if_neg hs, if_neg hs]
      cases source with
      | LIST source_child =>
        simp only
        rw [ih source_child h, if_neg]
        intro hc
        exact hs (by simp only [LogicalType.stripCollation, hc])
      | _ => rfl
  | ARRAY child ih =>
    rw [RequiresCast_eq]
    simp only [LogicalType.id, containsAny] at h ⊢
    rw [if_neg (by decide)]
    by_cases hs : source.stripCollation = (LogicalType.ARRAY child).stripCollation
    · rw [if_pos hs, if_pos hs]
    · rw [if_neg hs, if_neg hs]
      cases source with
      | ARRAY source_child =>
        simp only
        rw [ih source_child h, if_neg]
        intro hc
        exact hs (by simp only [LogicalType.stripCollation, hc])
      | _ => rfl
  | ANY => simp [containsAny] at h
  | ANY_PARAMS target _ => simp [containsAny] at h
  | _ =>
    rw [RequiresCast_eq]
    simp only [LogicalType.id]
    rw [if_neg (by decide)]

theorem Except_map_eq_ok {ε α β : Type} (f : α → β) (x : Except ε α) (b : β)
    (h : Except.map f x = .ok b) : ∃ a, x = .ok a ∧ b = f a := by
  cases x with
  | error e => simp [Except.map] at h
  | ok a =>
    simp [Except.map] at h
    exact ⟨a, rfl, h.symm⟩

theorem CastToFunctionArgumentsLoop_cons (function : SimpleFunction) (child : Expression)
    (rest : List Expression) (i : Nat) (cs : List Expression)
    (h : CastToFunctionArgumentsLoop function (child :: rest) i = .ok cs) :
    (function.paramAt i).id ≠ LogicalTypeId.STRING_LITERAL ∧
    (function.paramAt i).id ≠ LogicalTypeId.INTEGER_LITERAL ∧
    ∃ rest', CastToFunctionArgumentsLoop function rest (i + 1) = .ok rest' ∧
      cs = castChild function i child :: rest' := by
  unfold CastToFunctionArgumentsLoop at h
  simp only at h
  by_cases hlit : (function.paramAt i).id = LogicalTypeId.STRING_LITERAL ∨
      (function.paramAt i).id = LogicalTypeId.INTEGER_LITERAL
  · rw [if_pos hlit] at h
    simp at h
  · rw [if_neg hlit] at h
    refine ⟨fun hc => hlit (Or.inl hc), fun hc => hlit (Or.inr hc), ?_⟩
    by_cases hlam : child.return_type.id = LogicalTypeId.LAMBDA
    · rw [if_pos hlam] at h
      obtain ⟨rest', hr, hcs⟩ := Except_map_eq_ok _ _ _ h
      refine ⟨rest', hr, ?_⟩
      rw [hcs]
      simp [castChild, hlam]
    · rw [if_neg hlam] at h
      obtain ⟨rest', hr, hcs⟩ := Except_map_eq_ok _ _ _ h
      refine ⟨rest', hr, ?_⟩
      rw [hcs]
      simp [castChild, hlam]

/-- When the loop of `CastToFunctionArguments` does not throw, it keeps the number of children
and stores `castChild` at every position. -/
theorem CastToFunctionArgumentsLoop_ok (function : SimpleFunction) (children : List Expression)
    (i : Nat) (cs : List Expression)
    (h : CastToFunctionArgumentsLoop function children i = .ok cs) :
    cs.length = children.length ∧
      ∀ (j : Nat) (child : Expression), children[j]? = some child →
        cs[j]? = some (castChild function (i + j) child) := by
  induction children generalizing i cs with
  | nil =>
    simp [CastToFunctionArgumentsLoop] at h
    subst h
    simp
  | cons child rest ih =>
    obtain ⟨_, _, rest', hr, hcs⟩ := CastToFunctionArgumentsLoop_cons function child rest i cs h
    obtain ⟨hlen, hget⟩ := ih (i + 1) rest' hr
    subst hcs
    refine ⟨by simp [hlen], ?_⟩
    intro j c hj
    cases j with
    | zero =>
      simp at hj
      subst hj
      simp
    | succ j =>
      simp at hj
      have := hget j c hj
      rw [show i + 1 + j = i + (j + 1) by omega] at this
      simpa using this

theorem PrepareFunctionForCast_paramAt (function : SimpleFunction) (i : Nat) :
    (PrepareFunctionForCast function).paramAt i = PrepareTypeForCast (function.paramAt i) := by
  unfold SimpleFunction.paramAt PrepareFunctionForCast
  simp only [List.length_map]
  by_cases h : i < function.arguments.length
  · rw [if_pos h, if_pos h]
    simp [List.getD, List.getElem?_eq_getElem h]
  · rw [if_neg h, if_neg h]

theorem CastToFunctionArguments_eq_ok (function : SimpleFunction) (children : List Expression)
    (function' : SimpleFunction) (children' : List Expression)
    (h : CastToFunctionArguments function children = .ok (function', children')) :
    function' = PrepareFunctionForCast function ∧
      CastToFunctionArgumentsLoop (PrepareFunctionForCast function) children 0 =
        .ok children' := by
  unfold CastToFunctionArguments at h
  simp only at h
  obtain ⟨cs, hcs, heq⟩ := Except_map_eq_ok _ _ _ h
  simp only [Prod.mk.injEq] at heq
  exact ⟨heq.1, by rw [hcs, heq.2]⟩

/-- C8: when `CastToFunctionArguments` completes without error, the number of arguments is
unchanged and the declared types have been prepared. At every position, with the effective
resolved target type being the prepared fixed parameter below the fixed-parameter count and the
prepared variadic type otherwise, the argument is wrapped in a cast to that target exactly when
its return type is not `LAMBDA` and `RequiresCast` of its return type against the target is
`DIFFERENT_TYPES`; every other argument is left untouched. Hence the resulting return type of an
argument that was not a lambda compares as identical or target-is-wildcard against its target. -/
theorem CastToFunctionArguments_wraps_exactly (function : SimpleFunction)
    (children : List Expression) (function' : SimpleFunction) (children' : List Expression)
    (h : CastToFunctionArguments function children = .ok (function', children')) :
    function' = PrepareFunctionForCast function ∧
    children'.length = children.length ∧
    ∀ (i : Nat) (child : Expression), children[i]? = some child →
      function'.paramAt i = PrepareTypeForCast (function.paramAt i) ∧
      ((child.return_type.id ≠ LogicalTypeId.LAMBDA ∧
          RequiresCast child.return_type (function'.paramAt i) =
            LogicalTypeComparisonResult.DIFFERENT_TYPES) →
        children'[i]? = some (Expression.BoundCastExpression child (function'.paramAt i))) ∧
      (¬ (child.return_type.id ≠ LogicalTypeId.LAMBDA ∧
          RequiresCast child.return_type (function'.paramAt i) =
            LogicalTypeComparisonResult.DIFFERENT_TYPES) →
        children'[i]? = some child) ∧
      (child.return_type.id ≠ LogicalTypeId.LAMBDA →
        ∃ child', children'[i]? = some child' ∧
          (RequiresCast child'.return_type (function'.paramAt i) =
              LogicalTypeComparisonResult.IDENTICAL_TYPE ∨
            RequiresCast child'.return_type (function'.paramAt i) =
              LogicalTypeComparisonResult.TARGET_IS_ANY)) := by
  obtain ⟨hf, hloop⟩ := CastToFunctionArguments_eq_ok function children function' children' h
  obtain ⟨hlen, hget⟩ := CastToFunctionArgumentsLoop_ok _ children 0 children' hloop
  subst hf
  refine ⟨rfl, hlen, ?_⟩
  intro i child hi
  have hc := hget i child hi
  rw [Nat.zero_add] at hc
  have hnd : ∀ r : LogicalTypeComparisonResult,
      r ≠ LogicalTypeComparisonResult.DIFFERENT_TYPES →
        r = LogicalTypeComparisonResult.IDENTICAL_TYPE ∨
          r = LogicalTypeComparisonResult.TARGET_IS_ANY := by
    intro r hr
    cases r
    · exact Or.inl rfl
    · exact Or.inr rfl
    · exact absurd rfl hr
  refine ⟨PrepareFunctionForCast_paramAt function i, ?_, ?_, ?_⟩
  · rintro ⟨hlam, hdiff⟩
    rw [hc]
    simp [castChild, hlam, hdiff, AddCastToType]
  · intro hnot
    rw [hc]
    by_cases hlam : child.return_type.id = LogicalTypeId.LAMBDA
    · simp [castChild, hlam]
    · have hdiff : ¬ RequiresCast child.return_type ((PrepareFunctionForCast function).paramAt i)
          = LogicalTypeComparisonResult.DIFFERENT_TYPES := fun hd => hnot ⟨hlam, hd⟩
      simp [castChild, hlam, hdiff]
  · intro hlam
    refine ⟨_, hc, ?_⟩
    apply hnd
    unfold castChild
    rw [if_neg hlam]
    by_cases hdiff : RequiresCast child.return_type ((PrepareFunctionForCast function).paramAt i)
        = LogicalTypeComparisonResult.DIFFERENT_TYPES
    · rw [if_pos hdiff]
      exact RequiresCast_self _
    · rw [if_neg hdiff]
      exact hdiff

/-- Witness for C8: for the overload `f(BIGINT, ANY)` and the children `x : INTEGER` and
`y : VARCHAR` the first child is wrapped in a cast to `BIGINT` and the second is kept. -/
theorem CastToFunctionArguments_wraps_exactly_witness :
    CastToFunctionArguments bigintAndAny
        [Expression.bound "x" LogicalType.INTEGER, Expression.bound "y" LogicalType.VARCHAR] =
      .ok (bigintAndAny,
        [Expression.BoundCastExpression (Expression.bound "x" LogicalType.INTEGER)
          LogicalType.BIGINT, Expression.bound "y" LogicalType.VARCHAR]) ∧
    [Expression.BoundCastExpression (Expression.bound "x" LogicalType.INTEGER)
        LogicalType.BIGINT, Expression.bound "y" LogicalType.VARCHAR].length =
      [Expression.bound "x" LogicalType.INTEGER,
        Expression.bound "y" LogicalType.VARCHAR].length :=
  ⟨rfl, (CastToFunctionArguments_wraps_exactly bigintAndAny
    [Expression.bound "x" LogicalType.INTEGER, Expression.bound "y" LogicalType.VARCHAR]
    bigintAndAny
    [Expression.BoundCastExpression (Expression.bound "x" LogicalType.INTEGER)
      LogicalType.BIGINT, Expression.bound "y" LogicalType.VARCHAR] rfl).2.1⟩

/-! ## Idempotence of cast insertion -/

theorem castChild_castChild (function : SimpleFunction) (i : Nat) (child : Expression) :
    castChild function i (castChild function i child) = castChild function i child := by
  by_cases hlam : child.return_type.id = LogicalTypeId.LAMBDA
  · have h1 : castChild function i child = child := by simp [castChild, hlam]
    rw [h1, h1]
  · by_cases hdiff : RequiresCast child.return_type (function.paramAt i) =
        LogicalTypeComparisonResult.DIFFERENT_TYPES
    · have h1 : castChild function i child =
          Expression.BoundCastExpression child (function.paramAt i) := by
        simp [castChild, hlam, hdiff, AddCastToType]
      rw [h1]
      unfold castChild
      simp only [Expression.return_type]
      by_cases hl2 : (function.paramAt i).id = LogicalTypeId.LAMBDA
      · rw [if_pos hl2]
      · rw [if_neg hl2, if_neg (RequiresCast_self _)]
    · have h1 : castChild function i child = child := by simp [castChild, hlam, hdiff]
      rw [h1, h1]

theorem CastToFunctionArgumentsLoop_step (function : SimpleFunction) (child : Expression)
    (rest : List Expression) (i : Nat)
    (h1 : (function.paramAt i).id ≠ LogicalTypeId.STRING_LITERAL)
    (h2 : (function.paramAt i).id ≠ LogicalTypeId.INTEGER_LITERAL) :
    CastToFunctionArgumentsLoop function (child :: rest) i =
      (CastToFunctionArgumentsLoop function rest (i + 1)).map
        (fun cs => castChild function i child :: cs) := by
  rw [CastToFunctionArgumentsLoop]
  simp only
  rw [if_neg (by
    intro hc
    rcases hc with hc | hc
    · exact h1 hc
    · exact h2 hc)]
  unfold castChild
  by_cases hlam : child.return_type.id = LogicalTypeId.LAMBDA
  · rw [if_pos hlam, if_pos hlam]
  · rw [if_neg hlam, if_neg hlam]

/-- Running the loop of `CastToFunctionArguments` again on its own result changes nothing. -/
theorem CastToFunctionArgumentsLoop_idempotent (function : SimpleFunction)
    (children : List Expression) (i : Nat) (cs : List Expression)
    (h : CastToFunctionArgumentsLoop function children i = .ok cs) :
    CastToFunctionArgumentsLoop function cs i = .ok cs := by
  induction children generalizing i cs with
  | nil =>
    simp [CastToFunctionArgumentsLoop] at h
    subst h
    simp [CastToFunctionArgumentsLoop]
  | cons child rest ih =>
    obtain ⟨h1, h2, rest', hr, hcs⟩ := CastToFunctionArgumentsLoop_cons function child rest i cs h
    have hrest := ih (i + 1) rest' hr
    subst hcs
    rw [CastToFunctionArgumentsLoop_step function _ rest' i h1 h2, castChild_castChild, hrest]
    rfl

/-- C9 (amended): `CastToFunctionArguments` is idempotent on every overload whose prepared
parameter types and prepared variadic type are left unchanged by a second preparation. If a
first application succeeds, applying it again to the prepared overload and the cast-adjusted
argument list succeeds, wraps no further argument and returns the same overload and the same
argument list. -/
theorem CastToFunctionArguments_idempotent (function : SimpleFunction)
    (children : List Expression) (function' : SimpleFunction) (children' : List Expression)
    (h : CastToFunctionArguments function children = .ok (function', children'))
    (hstable : ∀ t ∈ function.varargs :: function.arguments,
      PrepareTypeForCast (PrepareTypeForCast t) = PrepareTypeForCast t) :
    CastToFunctionArguments function' children' = .ok (function', children') := by
  obtain ⟨hf, hloop⟩ := CastToFunctionArguments_eq_ok function children function' children' h
  have hprep : PrepareFunctionForCast function' = function' := by
    subst hf
    unfold PrepareFunctionForCast
    simp only [List.map_map]
    have h1 : function.arguments.map (PrepareTypeForCast ∘ PrepareTypeForCast) =
        function.arguments.map PrepareTypeForCast := by
      apply List.map_congr_left
      intro t ht
      exact hstable t (List.mem_cons_of_mem _ ht)
    rw [h1, hstable function.varargs (List.mem_cons_self _ _)]
  unfold CastToFunctionArguments
  simp only
  rw [hprep, hf,
    CastToFunctionArgumentsLoop_idempotent (PrepareFunctionForCast function) children 0 children'
      hloop]
  rfl

/-- Witness for C9: for the overload `f(BIGINT, ANY)` a second application to the cast-adjusted
children `cast(x, BIGINT)` and `y` returns them unchanged. -/
theorem CastToFunctionArguments_idempotent_witness :
    CastToFunctionArguments bigintAndAny
        [Expression.BoundCastExpression (Expression.bound "x" LogicalType.INTEGER)
          LogicalType.BIGINT, Expression.bound "y" LogicalType.VARCHAR] =
      .ok (bigintAndAny,
        [Expression.BoundCastExpression (Expression.bound "x" LogicalType.INTEGER)
          LogicalType.BIGINT, Expression.bound "y" LogicalType.VARCHAR]) :=
  CastToFunctionArguments_idempotent bigintAndAny
    [Expression.bound "x" LogicalType.INTEGER, Expression.bound "y" LogicalType.VARCHAR]
    bigintAndAny
    [Expression.BoundCastExpression (Expression.bound "x" LogicalType.INTEGER)
      LogicalType.BIGINT, Expression.bound "y" LogicalType.VARCHAR] rfl (by decide)

/-- Counterexample to C9 as stated: the parameter of the overload is a wildcard whose target is
again a wildcard with target `INTEGER`. The first application prepares the parameter to the inner
wildcard and leaves the child `x : VARCHAR` untouched; the second application, on the prepared
overload and the unchanged child, prepares the parameter to `INTEGER` and wraps the child in a
cast. -/
theorem second_application_wraps :
    CastToFunctionArguments nestedWildcard [Expression.bound "x" LogicalType.VARCHAR] =
      .ok (fixedFunction "f" [LogicalType.ANY_PARAMS LogicalType.INTEGER],
        [Expression.bound "x" LogicalType.VARCHAR]) ∧
    CastToFunctionArguments (fixedFunction "f" [LogicalType.ANY_PARAMS LogicalType.INTEGER])
        [Expression.bound "x" LogicalType.VARCHAR] =
      .ok (fixedFunction "f" [LogicalType.INTEGER],
        [Expression.BoundCastExpression (Expression.bound "x" LogicalType.VARCHAR)
          LogicalType.INTEGER]) :=
  ⟨rfl, rfl⟩

/-! ## Lists and arrays -/

/-- C10: for list or array typed source and target types whose target contains no wildcard,
`RequiresCast` reports `IDENTICAL_TYPE` only when the two types are structurally equal (tags and
all nested child types match, collation attributes apart) and reports `DIFFERENT_TYPES` on any
mismatch, at whatever nesting depth it lies; in that case a
successful `CastToFunctionArguments` stores at the position of the argument exactly one cast
node, whose child is the whole original argument and whose target is the target type. -/
theorem list_array_mismatch_casts_once (source target : LogicalType)
    (hs : source.id = LogicalTypeId.LIST ∨ source.id = LogicalTypeId.ARRAY)
    (_ht : target.id = LogicalTypeId.LIST ∨ target.id = LogicalTypeId.ARRAY)
    (hany : containsAny target = false) :
    (RequiresCast source target = LogicalTypeComparisonResult.IDENTICAL_TYPE ↔
      source.stripCollation = target.stripCollation) ∧
    (source.stripCollation ≠ target.stripCollation →
      RequiresCast source target = LogicalTypeComparisonResult.DIFFERENT_TYPES ∧
      ∀ (function : SimpleFunction) (children : List Expression) (function' : SimpleFunction)
        (children' : List Expression) (i : Nat) (child : Expression),
        CastToFunctionArguments function children = .ok (function', children') →
        children[i]? = some child → child.return_type = source →
        function'.paramAt i = target →
        children'[i]? = some (Expression.BoundCastExpression child target)) := by
  have hrc := RequiresCast_of_not_containsAny source target hany
  constructor
  · rw [hrc]
    by_cases h : source.stripCollation = target.stripCollation
    · simp [h]
    · simp [h]
  · intro hne
    have hdiff : RequiresCast source target = LogicalTypeComparisonResult.DIFFERENT_TYPES := by
      rw [hrc, if_neg hne]
    refine ⟨hdiff, ?_⟩
    intro function children function' children' i child hcast hi hrt hp
    obtain ⟨hf, hloop⟩ := CastToFunctionArguments_eq_ok function children function' children' hcast
    obtain ⟨_, hget⟩ := CastToFunctionArgumentsLoop_ok _ children 0 children' hloop
    have hc := hget i child hi
    rw [Nat.zero_add, ← hf] at hc
    rw [hc]
    have hlam : child.return_type.id ≠ LogicalTypeId.LAMBDA := by
      rw [hrt]
      rcases hs with h | h <;> rw [h] <;> decide
    unfold castChild
    rw [hp, if_neg hlam, hrt, if_pos hdiff]
    rfl

/-- Witness for C10: a list of lists of `INTEGER` against a list of lists of `BIGINT` differs
two levels down; the comparison is `DIFFERENT_TYPES` and the child is wrapped once, at the top. -/
theorem list_array_mismatch_casts_once_witness :
    RequiresCast (LogicalType.LIST (LogicalType.LIST LogicalType.INTEGER))
        (LogicalType.LIST (LogicalType.LIST LogicalType.BIGINT)) =
      LogicalTypeComparisonResult.DIFFERENT_TYPES ∧
    [Expression.BoundCastExpression
        (Expression.bound "x" (LogicalType.LIST (LogicalType.LIST LogicalType.INTEGER)))
        (LogicalType.LIST (LogicalType.LIST LogicalType.BIGINT))][0]? =
      some (Expression.BoundCastExpression
        (Expression.bound "x" (LogicalType.LIST (LogicalType.LIST LogicalType.INTEGER)))
        (LogicalType.LIST (LogicalType.LIST LogicalType.BIGINT))) :=
  have h := (list_array_mismatch_casts_once
    (LogicalType.LIST (LogicalType.LIST LogicalType.INTEGER))
    (LogicalType.LIST (LogicalType.LIST LogicalType.BIGINT))
    (Or.inl rfl) (Or.inl rfl) rfl).2 (by decide)
  ⟨h.1, h.2 (fixedFunction "f" [LogicalType.LIST (LogicalType.LIST LogicalType.BIGINT)])
    [Expression.bound "x" (LogicalType.LIST (LogicalType.LIST LogicalType.INTEGER))]
    (fixedFunction "f" [LogicalType.LIST (LogicalType.LIST LogicalType.BIGINT)])
    [Expression.BoundCastExpression
      (Expression.bound "x" (LogicalType.LIST (LogicalType.LIST LogicalType.INTEGER)))
      (LogicalType.LIST (LogicalType.LIST LogicalType.BIGINT))]
    0 (Expression.bound "x" (LogicalType.LIST (LogicalType.LIST LogicalType.INTEGER)))
    rfl rfl rfl rfl⟩

/-! ## Wildcard parameters -/

theorem castChild_of_target_any (function : SimpleFunction) (i : Nat) (child : Expression)
    (h : (function.paramAt i).id = LogicalTypeId.ANY) : castChild function i child = child := by
  unfold castChild
  by_cases hlam : child.return_type.id = LogicalTypeId.LAMBDA
  · rw [if_pos hlam]
  · rw [if_neg hlam, RequiresCast_eq, if_pos h, if_neg (by decide)]

/-- C11 (amended): when `CastToFunctionArguments` succeeds, an argument whose declared parameter
type, fixed or variadic, is the polymorphic wildcard carrying no target, and more generally an
argument whose prepared parameter type is still a wildcard, is never wrapped in a cast, whatever
its type. A wildcard that carries a target is resolved to that target first: an argument that is
not a lambda is then wrapped in a cast to the target when `RequiresCast` against the target
reports `DIFFERENT_TYPES`. -/
theorem wildcard_without_target_never_cast (function : SimpleFunction)
    (children : List Expression) (function' : SimpleFunction) (children' : List Expression)
    (i : Nat) (child : Expression)
    (h : CastToFunctionArguments function children = .ok (function', children'))
    (hi : children[i]? = some child) :
    (function.paramAt i = LogicalType.ANY → children'[i]? = some child) ∧
    ((PrepareTypeForCast (function.paramAt i)).id = LogicalTypeId.ANY →
      children'[i]? = some child) ∧
    (∀ target : LogicalType, function.paramAt i = LogicalType.ANY_PARAMS target →
      function'.paramAt i = target ∧
      (child.return_type.id ≠ LogicalTypeId.LAMBDA →
        RequiresCast child.return_type target = LogicalTypeComparisonResult.DIFFERENT_TYPES →
        children'[i]? = some (Expression.BoundCastExpression child target))) := by
  obtain ⟨hf, hloop⟩ := CastToFunctionArguments_eq_ok function children function' children' h
  obtain ⟨_, hget⟩ := CastToFunctionArgumentsLoop_ok _ children 0 children' hloop
  have hc := hget i child hi
  rw [Nat.zero_add] at hc
  have hp := PrepareFunctionForCast_paramAt function i
  have hany : (PrepareTypeForCast (function.paramAt i)).id = LogicalTypeId.ANY →
      children'[i]? = some child := by
    intro hid
    rw [hc, castChild_of_target_any]
    rw [hp]
    exact hid
  refine ⟨?_, hany, ?_⟩
  · intro hdecl
    apply hany
    rw [hdecl]
    rfl
  · intro target hdecl
    have hprep : (PrepareFunctionForCast function).paramAt i = target := by
      rw [hp, hdecl]
      rfl
    refine ⟨by rw [hf, hprep], ?_⟩
    intro hlam hdiff
    rw [hc]
    unfold castChild
    rw [hprep, if_neg hlam, if_pos hdiff]
    rfl

/-- Witness for C11: for the overload `f(BIGINT, ANY)` the child `y : VARCHAR` at the wildcard
position is left untouched. -/
theorem wildcard_without_target_never_cast_witness :
    [Expression.BoundCastExpression (Expression.bound "x" LogicalType.INTEGER)
        LogicalType.BIGINT, Expression.bound "y" LogicalType.VARCHAR][1]? =
      some (Expression.bound "y" LogicalType.VARCHAR) :=
  (wildcard_without_target_never_cast bigintAndAny
    [Expression.bound "x" LogicalType.INTEGER, Expression.bound "y" LogicalType.VARCHAR]
    bigintAndAny
    [Expression.BoundCastExpression (Expression.bound "x" LogicalType.INTEGER)
      LogicalType.BIGINT, Expression.bound "y" LogicalType.VARCHAR]
    1 (Expression.bound "y" LogicalType.VARCHAR) rfl rfl).1 rfl

/-- Counterexample to C11 as stated: the declared parameter type of the overload is the
polymorphic wildcard, carrying the target `VARCHAR`; the child `x : INTEGER` at that position is
wrapped in a cast to `VARCHAR`. -/
theorem wildcard_with_target_is_cast :
    (wildcardWithTarget.paramAt 0).id = LogicalTypeId.ANY ∧
    CastToFunctionArguments wildcardWithTarget [Expression.bound "x" LogicalType.INTEGER] =
      .ok (fixedFunction "f" [LogicalType.VARCHAR],
        [Expression.BoundCastExpression (Expression.bound "x" LogicalType.INTEGER)
          LogicalType.VARCHAR]) :=
  ⟨rfl, rfl⟩

/-! ## Literal placeholders as target types -/

theorem CastToFunctionArgumentsLoop_error (function : SimpleFunction)
    (children : List Expression) (i : Nat) (e : BinderThrow)
    (h : CastToFunctionArgumentsLoop function children i = .error e) :
    e = BinderThrow.InternalException (literalTargetMessage function) ∧
      ∃ j, j < children.length ∧ IsLiteralPlaceholder (function.paramAt (i + j)) := by
  induction children generalizing i with
  | nil => simp [CastToFunctionArgumentsLoop] at h
  | cons child rest ih =>
    by_cases hlit : IsLiteralPlaceholder (function.paramAt i)
    · unfold CastToFunctionArgumentsLoop at h
      simp only at h
      unfold IsLiteralPlaceholder at hlit
      rw [if_pos hlit] at h
      simp only [Except.error.injEq] at h
      refine ⟨h.symm, 0, by simp, ?_⟩
      rw [Nat.add_zero]
      exact hlit
    · have h1 : (function.paramAt i).id ≠ LogicalTypeId.STRING_LITERAL :=
        fun hc => hlit (Or.inl hc)
      have h2 : (function.paramAt i).id ≠ LogicalTypeId.INTEGER_LITERAL :=
        fun hc => hlit (Or.inr hc)
      rw [CastToFunctionArgumentsLoop_step function child rest i h1 h2] at h
      cases hrest : CastToFunctionArgumentsLoop function rest (i + 1) with
      | ok cs =>
        rw [hrest] at h
        simp [Except.map] at h
      | error e' =>
        rw [hrest] at h
        simp only [Except.map, Except.error.injEq] at h
        subst h
        obtain ⟨he, j, hj, hl⟩ := ih (i + 1) hrest
        refine ⟨he, j + 1, by simpa using hj, ?_⟩
        rw [show i + (j + 1) = i + 1 + j by omega]
        exact hl

theorem CastToFunctionArgumentsLoop_ok_of_no_literal (function : SimpleFunction)
    (children : List Expression) (i : Nat)
    (h : ∀ j, j < children.length → ¬ IsLiteralPlaceholder (function.paramAt (i + j))) :
    ∃ cs, CastToFunctionArgumentsLoop function children i = .ok cs := by
  induction children generalizing i with
  | nil => exact ⟨[], by simp [CastToFunctionArgumentsLoop]⟩
  | cons child rest ih =>
    have h0 := h 0 (by simp)
    rw [Nat.add_zero] at h0
    have h1 : (function.paramAt i).id ≠ LogicalTypeId.STRING_LITERAL :=
      fun hc => h0 (Or.inl hc)
    have h2 : (function.paramAt i).id ≠ LogicalTypeId.INTEGER_LITERAL :=
      fun hc => h0 (Or.inr hc)
    obtain ⟨cs, hcs⟩ := ih (i + 1) (fun j hj => by
      have := h (j + 1) (by simpa using hj)
      rwa [show i + (j + 1) = i + 1 + j by omega] at this)
    rw [CastToFunctionArgumentsLoop_step function child rest i h1 h2, hcs]
    exact ⟨_, rfl⟩

theorem CastToFunctionArgumentsLoop_no_literal (function : SimpleFunction)
    (children : List Expression) (i : Nat) (cs : List Expression)
    (h : CastToFunctionArgumentsLoop function children i = .ok cs) :
    ∀ j, j < children.length → ¬ IsLiteralPlaceholder (function.paramAt (i + j)) := by
  induction children generalizing i cs with
  | nil =>
    intro j hj
    simp at hj
  | cons child rest ih =>
    obtain ⟨h1, h2, rest', hr, _⟩ := CastToFunctionArgumentsLoop_cons function child rest i cs h
    intro j hj
    cases j with
    | zero =>
      rw [Nat.add_zero]
      intro hl
      rcases hl with hl | hl
      · exact h1 hl
      · exact h2 hl
    | succ j =>
      have := ih (i + 1) rest' hr j (by simpa using hj)
      rwa [show i + 1 + j = i + (j + 1) by omega] at this

/-- C18: `CastToFunctionArguments` throws if and only if, for some argument position, the
effective resolved target type is a bare literal placeholder (`STRING_LITERAL` or
`INTEGER_LITERAL`), and what it throws is then the internal exception. When it succeeds, no
effective target type of an argument position is a literal placeholder, so every argument is
either left untouched or wrapped in a cast to a target that is not one: a cast to a literal
placeholder is never inserted. -/
theorem CastToFunctionArguments_throws_iff_literal_target (function : SimpleFunction)
    (children : List Expression) :
    ((∃ e, CastToFunctionArguments function children = .error e) ↔
      ∃ i, i < children.length ∧
        IsLiteralPlaceholder ((PrepareFunctionForCast function).paramAt i)) ∧
    (∀ e, CastToFunctionArguments function children = .error e →
      e = BinderThrow.InternalException (literalTargetMessage function)) ∧
    (∀ (function' : SimpleFunction) (children' : List Expression),
      CastToFunctionArguments function children = .ok (function', children') →
      ∀ (i : Nat) (child : Expression), children[i]? = some child →
        ¬ IsLiteralPlaceholder (function'.paramAt i) ∧
        (children'[i]? = some child ∨
          children'[i]? = some (Expression.BoundCastExpression child (function'.paramAt i)))) := by
  have herr : ∀ e, CastToFunctionArguments function children = .error e →
      CastToFunctionArgumentsLoop (PrepareFunctionForCast function) children 0 = .error e := by
    intro e he
    unfold CastToFunctionArguments at he
    simp only at he
    cases hl : CastToFunctionArgumentsLoop (PrepareFunctionForCast function) children 0 with
    | ok cs =>
      rw [hl] at he
      simp [Except.map] at he
    | error e' =>
      rw [hl] at he
      simp only [Except.map, Except.error.injEq] at he
      rw [he]
  refine ⟨⟨?_, ?_⟩, ?_, ?_⟩
  · rintro ⟨e, he⟩
    obtain ⟨_, j, hj, hl⟩ := CastToFunctionArgumentsLoop_error _ children 0 e (herr e he)
    rw [Nat.zero_add] at hl
    exact ⟨j, hj, hl⟩
  · rintro ⟨i, hi, hl⟩
    cases hres : CastToFunctionArguments function children with
    | error e => exact ⟨e, rfl⟩
    | ok r =>
      obtain ⟨function', children'⟩ := r
      obtain ⟨_, hloop⟩ := CastToFunctionArguments_eq_ok function children function' children'
        hres
      have := CastToFunctionArgumentsLoop_no_literal _ children 0 children' hloop i hi
      rw [Nat.zero_add] at this
      exact absurd hl this
  · intro e he
    have := (CastToFunctionArgumentsLoop_error _ children 0 e (herr e he)).1
    rw [this]
    rfl
  · intro function' children' hok i child hi
    obtain ⟨hf, hloop⟩ := CastToFunctionArguments_eq_ok function children function' children'
      hok
    have hlt : i < children.length := (List.getElem?_eq_some_iff.1 hi).1
    have hnl := CastToFunctionArgumentsLoop_no_literal _ children 0 children' hloop i hlt
    rw [Nat.zero_add] at hnl
    obtain ⟨_, hget⟩ := CastToFunctionArgumentsLoop_ok _ children 0 children' hloop
    have hc := hget i child hi
    rw [Nat.zero_add] at hc
    subst hf
    refine ⟨hnl, ?_⟩
    rw [hc]
    unfold castChild
    by_cases hlam : child.return_type.id = LogicalTypeId.LAMBDA
    · rw [if_pos hlam]
      exact Or.inl rfl
    · rw [if_neg hlam]
      by_cases hdiff : RequiresCast child.return_type
          ((PrepareFunctionForCast function).paramAt i) =
            LogicalTypeComparisonResult.DIFFERENT_TYPES
      · rw [if_pos hdiff]
        exact Or.inr rfl
      · rw [if_neg hdiff]
        exact Or.inl rfl

/-- Witness for C18: the overload `f(STRING_LITERAL)` called with one child throws the internal
exception, the target type of position 0 being a literal placeholder. -/
theorem CastToFunctionArguments_throws_iff_literal_target_witness :
    CastToFunctionArguments (fixedFunction "f" [LogicalType.STRING_LITERAL])
        [Expression.bound "x" LogicalType.VARCHAR] =
      .error (BinderThrow.InternalException
        (literalTargetMessage (fixedFunction "f" [LogicalType.STRING_LITERAL]))) ∧
    ∃ i, i < [Expression.bound "x" LogicalType.VARCHAR].length ∧
      IsLiteralPlaceholder
        ((PrepareFunctionForCast (fixedFunction "f" [LogicalType.STRING_LITERAL])).paramAt i) :=
  ⟨rfl, (CastToFunctionArguments_throws_iff_literal_target
    (fixedFunction "f" [LogicalType.STRING_LITERAL])
    [Expression.bound "x" LogicalType.VARCHAR]).1.1 ⟨_, rfl⟩⟩

/-! ## Preparation of declared parameter types -/

theorem iterate_LIST_succ (k : Nat) (t : LogicalType) :
    (LogicalType.LIST^[k + 1]) t = LogicalType.LIST ((LogicalType.LIST^[k]) t) := by
  rw [Function.iterate_succ_apply']

theorem TypeRequiresPrepare_iff (t : LogicalType) :
    TypeRequiresPrepare t = true ↔
      ∃ (k : Nat) (w : LogicalType), t = (LogicalType.LIST^[k]) w ∧
        w.id = LogicalTypeId.ANY := by
  induction t with
  | ANY => exact ⟨fun _ => ⟨0, LogicalType.ANY, rfl, rfl⟩, fun _ => rfl⟩
  | ANY_PARAMS target _ =>
    exact ⟨fun _ => ⟨0, LogicalType.ANY_PARAMS target, rfl, rfl⟩, fun _ => rfl⟩
  | LIST child ih =>
    simp only [TypeRequiresPrepare]
    rw [ih]
    constructor
    · rintro ⟨k, w, hk, hw⟩
      exact ⟨k + 1, w, by rw [iterate_LIST_succ, hk], hw⟩
    · rintro ⟨k, w, hk, hw⟩
      cases k with
      | zero =>
        simp only [Function.iterate_zero, id_eq] at hk
        subst hk
        simp [LogicalType.id] at hw
      | succ k =>
        rw [iterate_LIST_succ] at hk
        exact ⟨k, w, LogicalType.LIST.inj hk, hw⟩
  | _ =>
    simp only [TypeRequiresPrepare]
    constructor
    · intro h
      simp at h
    · rintro ⟨k, w, hk, hw⟩
      cases k with
      | zero =>
        simp only [Function.iterate_zero, id_eq] at hk
        subst hk
        simp [LogicalType.id] at hw
      | succ k =>
        rw [iterate_LIST_succ] at hk
        simp at hk

theorem TypeRequiresPrepare_iterate (k : Nat) (w : LogicalType) :
    TypeRequiresPrepare ((LogicalType.LIST^[k]) w) = TypeRequiresPrepare w := by
  induction k with
  | zero => rfl
  | succ k ih => rw [iterate_LIST_succ, TypeRequiresPrepare, ih]

theorem PrepareTypeForCastRecursive_iterate (k : Nat) (w : LogicalType) :
    PrepareTypeForCastRecursive ((LogicalType.LIST^[k]) w) =
      (LogicalType.LIST^[k]) (PrepareTypeForCastRecursive w) := by
  induction k with
  | zero => rfl
  | succ k ih => rw [iterate_LIST_succ, iterate_LIST_succ, PrepareTypeForCastRecursive, ih]

theorem containsAny_iterate (k : Nat) (w : LogicalType) :
    containsAny ((LogicalType.LIST^[k]) w) = containsAny w := by
  induction k with
  | zero => rfl
  | succ k ih => rw [iterate_LIST_succ, containsAny, ih]

theorem TypeRequiresPrepare_of_containsAny (t : LogicalType)
    (h : TypeRequiresPrepare t = true) : containsAny t = true := by
  induction t with
  | LIST child ih => exact ih h
  | ANY => rfl
  | ANY_PARAMS target _ => rfl
  | _ => simp [TypeRequiresPrepare] at h

/-- C19 (amended): `TypeRequiresPrepare` is true exactly when the type is a polymorphic wildcard
or a list, nested to any depth through list children only, of a polymorphic wildcard. For such a
type whose wildcard carries a target without wildcard, `PrepareTypeForCast` replaces the
wildcard by its target, and the resulting type contains no wildcard anywhere. A wildcard carrying
no target, at any list depth, every type that `TypeRequiresPrepare` rejects and in particular
every type without wildcard are left unchanged. -/
theorem PrepareTypeForCast_resolves_list_wildcards :
    (∀ t : LogicalType, TypeRequiresPrepare t = true ↔
      ∃ (k : Nat) (w : LogicalType), t = (LogicalType.LIST^[k]) w ∧
        w.id = LogicalTypeId.ANY) ∧
    (∀ (k : Nat) (target : LogicalType), containsAny target = false →
      PrepareTypeForCast ((LogicalType.LIST^[k]) (LogicalType.ANY_PARAMS target)) =
          (LogicalType.LIST^[k]) target ∧
        containsAny ((LogicalType.LIST^[k]) target) = false) ∧
    (∀ k : Nat, PrepareTypeForCast ((LogicalType.LIST^[k]) LogicalType.ANY) =
      (LogicalType.LIST^[k]) LogicalType.ANY) ∧
    (∀ t : LogicalType, TypeRequiresPrepare t = false → PrepareTypeForCast t = t) ∧
    (∀ t : LogicalType, containsAny t = false → PrepareTypeForCast t = t) := by
  refine ⟨TypeRequiresPrepare_iff, ?_, ?_, ?_, ?_⟩
  · intro k target htarget
    constructor
    · unfold PrepareTypeForCast
      rw [TypeRequiresPrepare_iterate, PrepareTypeForCastRecursive_iterate]
      rfl
    · rw [containsAny_iterate, htarget]
  · intro k
    unfold PrepareTypeForCast
    rw [TypeRequiresPrepare_iterate, PrepareTypeForCastRecursive_iterate]
    rfl
  · intro t ht
    unfold PrepareTypeForCast
    rw [ht]
    rfl
  · intro t ht
    have hreq : TypeRequiresPrepare t = false := by
      cases h : TypeRequiresPrepare t with
      | false => rfl
      | true =>
        rw [TypeRequiresPrepare_of_containsAny t h] at ht
        exact absurd ht (by decide)
    unfold PrepareTypeForCast
    rw [hreq]
    rfl

/-- Witness for C19: the list of lists of a wildcard with target `INTEGER` is prepared to the
list of lists of `INTEGER`, which contains no wildcard. -/
theorem PrepareTypeForCast_resolves_list_wildcards_witness :
    PrepareTypeForCast
        (LogicalType.LIST (LogicalType.LIST (LogicalType.ANY_PARAMS LogicalType.INTEGER))) =
      LogicalType.LIST (LogicalType.LIST LogicalType.INTEGER) ∧
    containsAny (LogicalType.LIST (LogicalType.LIST LogicalType.INTEGER)) = false :=
  PrepareTypeForCast_resolves_list_wildcards.2.1 2 LogicalType.INTEGER rfl

/-- Counterexample to C19 as stated: an array of a wildcard contains a polymorphic wildcard
inside an array child, yet `TypeRequiresPrepare` is false for it; and the wildcard inside the
array of a wildcard with target `INTEGER` carries a target without wildcard, yet
`PrepareTypeForCast` leaves the type unchanged, so the result still contains a wildcard. -/
theorem array_wildcard_not_prepared :
    containsAny (LogicalType.ARRAY LogicalType.ANY) = true ∧
    TypeRequiresPrepare (LogicalType.ARRAY LogicalType.ANY) = false ∧
    containsAny LogicalType.INTEGER = false ∧
    PrepareTypeForCast (LogicalType.ARRAY (LogicalType.ANY_PARAMS LogicalType.INTEGER)) =
      LogicalType.ARRAY (LogicalType.ANY_PARAMS LogicalType.INTEGER) ∧
    containsAny (PrepareTypeForCast
      (LogicalType.ARRAY (LogicalType.ANY_PARAMS LogicalType.INTEGER))) = true :=
  ⟨rfl, rfl, rfl, rfl, rfl⟩

/-! ## Collation extraction -/

theorem textCollations_cons_skip (arg : Expression) (rest : List Expression)
    (h : RequiresCollationPropagation arg.return_type = false ∨
      StringType.GetCollation arg.return_type = "") :
    textCollations (arg :: rest) = textCollations rest := by
  unfold textCollations
  cases hr : RequiresCollationPropagation arg.return_type with
  | false => simp [List.filter_cons, hr]
  | true =>
    rcases h with h | h
    · rw [hr] at h
      exact absurd h (by decide)
    · simp [List.filter_cons, hr, h]

theorem textCollations_cons_text (arg : Expression) (rest : List Expression)
    (hr : RequiresCollationPropagation arg.return_type = true)
    (hc : StringType.GetCollation arg.return_type ≠ "") :
    textCollations (arg :: rest) =
      StringType.GetCollation arg.return_type :: textCollations rest := by
  unfold textCollations
  simp [List.filter_cons, hr, hc]

theorem mem_textCollations (children : List Expression) (c : String) :
    c ∈ textCollations children ↔
      c ≠ "" ∧ ∃ arg ∈ children, RequiresCollationPropagation arg.return_type = true ∧
        StringType.GetCollation arg.return_type = c := by
  unfold textCollations
  simp only [List.mem_filter, List.mem_map, decide_eq_true_eq]
  constructor
  · rintro ⟨⟨arg, ⟨ha, hr⟩, hc⟩, hne⟩
    exact ⟨hne, arg, ha, hr, hc⟩
  · rintro ⟨hne, arg, ha, hr, hc⟩
    exact ⟨⟨arg, ⟨ha, hr⟩, hc⟩, hne⟩

/-- The loop of `ExtractCollation` once a non-empty collation has been found. -/
theorem ExtractCollationLoop_of_ne (children : List Expression) (collation : String)
    (hne : collation ≠ "") :
    ExtractCollationLoop children collation =
      if ∀ d ∈ textCollations children, d = collation then .ok collation
      else .error differentCollation := by
  induction children with
  | nil => simp [ExtractCollationLoop, textCollations]
  | cons arg rest ih =>
    unfold ExtractCollationLoop
    cases hr : RequiresCollationPropagation arg.return_type with
    | false =>
      simp only [Bool.not_false, if_true]
      rw [ih, textCollations_cons_skip arg rest (Or.inl hr)]
    | true =>
      simp only [Bool.not_true, Bool.false_eq_true, if_false]
      rw [if_neg hne]
      by_cases hc : StringType.GetCollation arg.return_type = ""
      · rw [if_neg (fun h => h.1 hc), ih, textCollations_cons_skip arg rest (Or.inr hc)]
      · rw [textCollations_cons_text arg rest hr hc]
        by_cases heq : collation = StringType.GetCollation arg.return_type
        · rw [if_neg (fun h => h.2 heq), ih]
          simp only [List.mem_cons, forall_eq_or_imp, heq, true_and]
        · rw [if_pos ⟨hc, heq⟩, if_neg]
          · rfl
          · intro hall
            exact heq (hall _ (List.mem_cons_self _ _)).symm

/-- The function `ExtractCollation` combines the non-empty collations of the text-typed
arguments. -/
theorem ExtractCollation_eq_combine (children : List Expression) :
    ExtractCollation children = combineCollations (textCollations children) := by
  unfold ExtractCollation
  induction children with
  | nil => rfl
  | cons arg rest ih =>
    unfold ExtractCollationLoop
    cases hr : RequiresCollationPropagation arg.return_type with
    | false =>
      simp only [Bool.not_false, if_true]
      rw [ih, textCollations_cons_skip arg rest (Or.inl hr)]
    | true =>
      simp only [Bool.not_true, Bool.false_eq_true, if_false, if_true]
      by_cases hc : StringType.GetCollation arg.return_type = ""
      · rw [hc, ih, textCollations_cons_skip arg rest (Or.inr hc)]
      · rw [ExtractCollationLoop_of_ne rest _ hc, textCollations_cons_text arg rest hr hc]
        rfl

theorem combineCollations_nil : combineCollations [] = .ok "" := rfl

theorem combineCollations_cons (c : String) (rest : List String) :
    combineCollations (c :: rest) =
      if ∀ d ∈ rest, d = c then .ok c else .error differentCollation := rfl

theorem combineCollations_error_iff (l : List String) :
    (∃ e, combineCollations l = .error e) ↔ ∃ a ∈ l, ∃ b ∈ l, a ≠ b := by
  cases l with
  | nil => simp [combineCollations]
  | cons c rest =>
    rw [combineCollations_cons]
    by_cases hall : ∀ d ∈ rest, d = c
    · rw [if_pos hall]
      constructor
      · rintro ⟨e, he⟩
        simp at he
      · rintro ⟨a, ha, b, hb, hab⟩
        exfalso
        apply hab
        have h1 : a = c := by
          rcases List.mem_cons.1 ha with h | h
          · exact h
          · exact hall a h
        have h2 : b = c := by
          rcases List.mem_cons.1 hb with h | h
          · exact h
          · exact hall b h
        rw [h1, h2]
    · rw [if_neg hall]
      constructor
      · intro _
        by_contra hcon
        apply hall
        intro d hd
        by_contra hdc
        exact hcon ⟨d, List.mem_cons_of_mem _ hd, c, List.mem_cons_self _ _, hdc⟩
      · intro _
        exact ⟨_, rfl⟩

theorem combineCollations_error (l : List String) (e : BinderThrow)
    (h : combineCollations l = .error e) : e = differentCollation := by
  cases l with
  | nil => simp [combineCollations] at h
  | cons c rest =>
    rw [combineCollations_cons] at h
    split at h
    · simp at h
    · simp only [Except.error.injEq] at h
      exact h.symm

theorem combineCollations_ok_iff (l : List String) (c : String) :
    combineCollations l = .ok c ↔ (l = [] ∧ c = "") ∨ (c ∈ l ∧ ∀ d ∈ l, d = c) := by
  cases l with
  | nil =>
    rw [combineCollations_nil]
    simp only [Except.ok.injEq]
    constructor
    · intro h
      exact Or.inl ⟨by simp, h.symm⟩
    · rintro (⟨_, h⟩ | ⟨h, _⟩)
      · exact h.symm
      · simp at h
  | cons x rest =>
    rw [combineCollations_cons]
    by_cases hall : ∀ d ∈ rest, d = x
    · rw [if_pos hall]
      simp only [Except.ok.injEq]
      constructor
      · intro h
        subst h
        refine Or.inr ⟨List.mem_cons_self _ _, ?_⟩
        intro d hd
        rcases List.mem_cons.1 hd with h | h
        · exact h
        · exact hall d h
      · rintro (⟨h, _⟩ | ⟨_, h⟩)
        · simp at h
        · exact h x (List.mem_cons_self _ _)
    · rw [if_neg hall]
      constructor
      · intro h
        simp at h
      · rintro (⟨h, _⟩ | ⟨_, h⟩)
        · simp at h
        · exfalso
          apply hall
          intro d hd
          rw [h d (List.mem_cons_of_mem _ hd), h x (List.mem_cons_self _ _)]

theorem combineCollations_perm (l l' : List String) (h : l.Perm l') :
    combineCollations l = combineCollations l' := by
  cases hl : combineCollations l with
  | error e =>
    have he := combineCollations_error l e hl
    obtain ⟨a, ha, b, hb, hab⟩ := (combineCollations_error_iff l).1 ⟨e, hl⟩
    obtain ⟨e', he'⟩ := (combineCollations_error_iff l').2
      ⟨a, h.subset ha, b, h.subset hb, hab⟩
    rw [he', combineCollations_error l' e' he', he]
  | ok c =>
    symm
    rw [combineCollations_ok_iff] at hl ⊢
    rcases hl with ⟨h1, h2⟩ | ⟨h1, h2⟩
    · left
      subst h1
      exact ⟨h.nil_eq.symm, h2⟩
    · right
      exact ⟨h.subset h1, fun d hd => h2 d (h.symm.subset hd)⟩

theorem textCollations_perm (children children' : List Expression)
    (h : children.Perm children') : (textCollations children).Perm (textCollations children') :=
  (((h.filter _).map _).filter _)

theorem textCollations_filter (children : List Expression) :
    textCollations (children.filter (fun arg => RequiresCollationPropagation arg.return_type)) =
      textCollations children := by
  unfold textCollations
  rw [List.filter_filter]
  simp

/-- C13: `ExtractCollation` throws, and then throws the binder exception about different
collations, if and only if two text-typed arguments (of tag `VARCHAR` and without alias) carry
different non-empty collations. Otherwise it returns the one non-empty collation carried by
text-typed arguments, or the empty string if none carries one. The result does not depend on the
order of the arguments nor on the arguments that are not text-typed. -/
theorem ExtractCollation_characterisation (children : List Expression) :
    ((∃ e, ExtractCollation children = .error e) ↔
      ∃ a ∈ children, ∃ b ∈ children,
        RequiresCollationPropagation a.return_type = true ∧
        RequiresCollationPropagation b.return_type = true ∧
        StringType.GetCollation a.return_type ≠ "" ∧
        StringType.GetCollation b.return_type ≠ "" ∧
        StringType.GetCollation a.return_type ≠ StringType.GetCollation b.return_type) ∧
    (∀ e, ExtractCollation children = .error e →
      e = BinderThrow.BinderException "Cannot combine types with different collation!") ∧
    (∀ c : String, c ≠ "" →
      (ExtractCollation children = .ok c ↔
        (∃ a ∈ children, RequiresCollationPropagation a.return_type = true ∧
          StringType.GetCollation a.return_type = c) ∧
        ∀ b ∈ children, RequiresCollationPropagation b.return_type = true →
          StringType.GetCollation b.return_type = "" ∨
            StringType.GetCollation b.return_type = c)) ∧
    (ExtractCollation children = .ok "" ↔
      ∀ b ∈ children, RequiresCollationPropagation b.return_type = true →
        StringType.GetCollation b.return_type = "") ∧
    (∀ children' : List Expression, children.Perm children' →
      ExtractCollation children' = ExtractCollation children) ∧
    ExtractCollation
        (children.filter (fun arg => RequiresCollationPropagation arg.return_type)) =
      ExtractCollation children := by
  refine ⟨?_, ?_, ?_, ?_, ?_, ?_⟩
  · rw [ExtractCollation_eq_combine, combineCollations_error_iff]
    constructor
    · rintro ⟨a, ha, b, hb, hab⟩
      obtain ⟨hane, x, hx, hxr, hxc⟩ := (mem_textCollations children a).1 ha
      obtain ⟨hbne, y, hy, hyr, hyc⟩ := (mem_textCollations children b).1 hb
      refine ⟨x, hx, y, hy, hxr, hyr, ?_, ?_, ?_⟩
      · rw [hxc]
        exact hane
      · rw [hyc]
        exact hbne
      · rw [hxc, hyc]
        exact hab
    · rintro ⟨x, hx, y, hy, hxr, hyr, hxne, hyne, hxy⟩
      exact ⟨_, (mem_textCollations children _).2 ⟨hxne, x, hx, hxr, rfl⟩, _,
        (mem_textCollations children _).2 ⟨hyne, y, hy, hyr, rfl⟩, hxy⟩
  · intro e he
    rw [ExtractCollation_eq_combine] at he
    exact combineCollations_error _ e he
  · intro c hc
    rw [ExtractCollation_eq_combine, combineCollations_ok_iff]
    constructor
    · rintro (⟨_, h⟩ | ⟨h1, h2⟩)
      · exact absurd h hc
      · obtain ⟨_, x, hx, hxr, hxc⟩ := (mem_textCollations children c).1 h1
        refine ⟨⟨x, hx, hxr, hxc⟩, ?_⟩
        intro b hb hbr
        by_cases hbc : StringType.GetCollation b.return_type = ""
        · exact Or.inl hbc
        · exact Or.inr (h2 _ ((mem_textCollations children _).2 ⟨hbc, b, hb, hbr, rfl⟩))
    · rintro ⟨⟨x, hx, hxr, hxc⟩, hall⟩
      right
      refine ⟨(mem_textCollations children c).2 ⟨hc, x, hx, hxr, hxc⟩, ?_⟩
      intro d hd
      obtain ⟨hdne, y, hy, hyr, hyc⟩ := (mem_textCollations children d).1 hd
      rcases hall y hy hyr with h | h
      · rw [hyc] at h
        exact absurd h hdne
      · rw [← hyc, h]
  · rw [ExtractCollation_eq_combine, combineCollations_ok_iff]
    constructor
    · rintro (⟨h, _⟩ | ⟨h, _⟩)
      · intro b hb hbr
        by_contra hbc
        have := (mem_textCollations children _).2 ⟨hbc, b, hb, hbr, rfl⟩
        rw [h] at this
        simp at this
      · exact absurd rfl ((mem_textCollations children "").1 h).1
    · intro hall
      left
      refine ⟨?_, rfl⟩
      apply List.eq_nil_iff_forall_not_mem.2
      intro d hd
      obtain ⟨hdne, y, hy, hyr, hyc⟩ := (mem_textCollations children d).1 hd
      rw [hall y hy hyr] at hyc
      exact hdne hyc.symm
  · intro children' hperm
    rw [ExtractCollation_eq_combine, ExtractCollation_eq_combine]
    exact (combineCollations_perm _ _ (textCollations_perm children children' hperm)).symm
  · rw [ExtractCollation_eq_combine, ExtractCollation_eq_combine, textCollations_filter]

/-! ## Collation handling -/

theorem setReturnType_return_type (expr : Expression) (type : LogicalType) :
    (expr.setReturnType type).return_type = type := by
  cases expr <;> rfl

theorem withCollation_of_text (collation_type : LogicalType) (arg : Expression)
    (h : RequiresCollationPropagation arg.return_type = true) :
    (withCollation collation_type arg).return_type = collation_type := by
  unfold withCollation
  rw [if_pos h, setReturnType_return_type]

theorem withCollation_of_not_text (collation_type : LogicalType) (arg : Expression)
    (h : RequiresCollationPropagation arg.return_type = false) :
    withCollation collation_type arg = arg := by
  unfold withCollation
  rw [h]
  rfl

theorem PushCollationsLoop_cons (layer : ExpressionLayer) (collation_type : LogicalType)
    (type : CollationType) (arg : Expression) (rest : List Expression) :
    PushCollationsLoop layer collation_type type (arg :: rest) =
      match layer.PushCollation (withCollation collation_type arg)
          (withCollation collation_type arg).return_type type with
      | .error e => .error e
      | .ok pushed =>
        (PushCollationsLoop layer collation_type type rest).map (fun cs => pushed :: cs) := by
  rw [PushCollationsLoop]
  rfl

/-- When the loop of `PushCollations` does not throw, it keeps the number of children, and the
child at each position is what `PushCollation` returned for the argument at that position. -/
theorem PushCollationsLoop_ok (layer : ExpressionLayer) (collation_type : LogicalType)
    (type : CollationType) (children cs : List Expression)
    (h : PushCollationsLoop layer collation_type type children = .ok cs) :
    cs.length = children.length ∧
      ∀ (i : Nat) (arg : Expression), children[i]? = some arg →
        ∃ pushed, cs[i]? = some pushed ∧
          layer.PushCollation (withCollation collation_type arg)
            (withCollation collation_type arg).return_type type = .ok pushed := by
  induction children generalizing cs with
  | nil =>
    simp [PushCollationsLoop] at h
    subst h
    simp
  | cons arg rest ih =>
    rw [PushCollationsLoop_cons] at h
    cases hp : layer.PushCollation (withCollation collation_type arg)
        (withCollation collation_type arg).return_type type with
    | error e =>
      rw [hp] at h
      simp at h
    | ok pushed =>
      rw [hp] at h
      simp only at h
      obtain ⟨rest', hr, hcs⟩ := Except_map_eq_ok _ _ _ h
      obtain ⟨hlen, hget⟩ := ih rest' hr
      subst hcs
      refine ⟨by simp [hlen], ?_⟩
      intro i a hi
      cases i with
      | zero =>
        simp at hi
        subst hi
        exact ⟨pushed, by simp, hp⟩
      | succ i =>
        simp at hi
        obtain ⟨p, hp1, hp2⟩ := hget i a hi
        exact ⟨p, by simpa using hp1, hp2⟩

theorem PushCollationsLoop_total (layer : ExpressionLayer) (collation_type : LogicalType)
    (type : CollationType) (children : List Expression)
    (h : ∀ e t k, ∃ e', layer.PushCollation e t k = .ok e') :
    ∃ cs, PushCollationsLoop layer collation_type type children = .ok cs := by
  induction children with
  | nil => exact ⟨[], by simp [PushCollationsLoop]⟩
  | cons arg rest ih =>
    obtain ⟨cs, hcs⟩ := ih
    obtain ⟨pushed, hp⟩ := h (withCollation collation_type arg)
      (withCollation collation_type arg).return_type type
    rw [PushCollationsLoop_cons, hp, hcs]
    exact ⟨_, rfl⟩

theorem HandleCollations_push (layer : ExpressionLayer) (bound_function : ScalarFunctionData)
    (children : List Expression)
    (h : bound_function.collation_handling =
      FunctionCollationHandling.PUSH_COMBINABLE_COLLATIONS) :
    HandleCollations layer bound_function children =
      PushCollations layer bound_function children CollationType.COMBINABLE_COLLATIONS := by
  unfold HandleCollations
  rw [h]

theorem PushCollations_of_collation (layer : ExpressionLayer)
    (bound_function : ScalarFunctionData) (children : List Expression) (type : CollationType)
    (collation : String) (h : ExtractCollation children = .ok collation) (hne : collation ≠ "") :
    PushCollations layer bound_function children type =
      (PushCollationsLoop layer (LogicalType.VARCHAR_COLLATION collation) type children).map
        (fun cs =>
          (if RequiresCollationPropagation bound_function.return_type = true then
            { bound_function with return_type := LogicalType.VARCHAR_COLLATION collation }
          else bound_function, cs)) := by
  unfold PushCollations
  rw [h]
  simp only
  rw [if_neg hne]

theorem PushCollations_of_empty (layer : ExpressionLayer)
    (bound_function : ScalarFunctionData) (children : List Expression) (type : CollationType)
    (h : ExtractCollation children = .ok "") :
    PushCollations layer bound_function children type = .ok (bound_function, children) := by
  unfold PushCollations
  rw [h]
  simp

theorem PushCollations_of_error (layer : ExpressionLayer)
    (bound_function : ScalarFunctionData) (children : List Expression) (type : CollationType)
    (e : BinderThrow) (h : ExtractCollation children = .error e) :
    PushCollations layer bound_function children type = .error e := by
  unfold PushCollations
  rw [h]

/-- C14: under the policy `PUSH_COMBINABLE_COLLATIONS`, when the collation extracted from the
arguments is empty `HandleCollations` changes nothing. When it is a non-empty collation `c` and
`HandleCollations` completes, the return type of a text-returning overload carries `c`, the
number of arguments is unchanged, and each argument is what `PushCollation` returned for the
expression handed to it, which is the argument with return type carrying `c` if the argument is
text-typed and the argument itself otherwise. Hence, for every wrapper layer that returns an
expression of the return type it was given, after `HandleCollations` the return type of every
text-typed argument carries `c` and every other argument keeps its return type.
`HandleCollations` completes whenever `PushCollation` does not throw. -/
theorem PushCombinable_attaches_collation (layer : ExpressionLayer)
    (bound_function : ScalarFunctionData) (children : List Expression) (collation : String)
    (hpolicy : bound_function.collation_handling =
      FunctionCollationHandling.PUSH_COMBINABLE_COLLATIONS)
    (hextract : ExtractCollation children = .ok collation) :
    (collation = "" →
      HandleCollations layer bound_function children = .ok (bound_function, children)) ∧
    (collation ≠ "" →
      ((∀ e t k, ∃ e', layer.PushCollation e t k = .ok e') →
        ∃ r, HandleCollations layer bound_function children = .ok r) ∧
      ∀ (function' : ScalarFunctionData) (children' : List Expression),
        HandleCollations layer bound_function children = .ok (function', children') →
        (RequiresCollationPropagation bound_function.return_type = true →
          function' =
              { bound_function with return_type := LogicalType.VARCHAR_COLLATION collation } ∧
            StringType.GetCollation function'.return_type = collation) ∧
        children'.length = children.length ∧
        (∀ (i : Nat) (arg : Expression), children[i]? = some arg →
          ∃ pushed, children'[i]? = some pushed ∧
            layer.PushCollation (withCollation (LogicalType.VARCHAR_COLLATION collation) arg)
              (withCollation (LogicalType.VARCHAR_COLLATION collation) arg).return_type
              CollationType.COMBINABLE_COLLATIONS = .ok pushed ∧
            (RequiresCollationPropagation arg.return_type = true →
              (withCollation (LogicalType.VARCHAR_COLLATION collation) arg).return_type =
                LogicalType.VARCHAR_COLLATION collation) ∧
            (RequiresCollationPropagation arg.return_type = false →
              withCollation (LogicalType.VARCHAR_COLLATION collation) arg = arg)) ∧
        ((∀ e t k e', layer.PushCollation e t k = .ok e' → e'.return_type = e.return_type) →
          ∀ (i : Nat) (arg arg' : Expression), children[i]? = some arg →
            children'[i]? = some arg' →
            (RequiresCollationPropagation arg.return_type = true →
              arg'.return_type = LogicalType.VARCHAR_COLLATION collation ∧
                StringType.GetCollation arg'.return_type = collation) ∧
            (RequiresCollationPropagation arg.return_type = false →
              arg'.return_type = arg.return_type))) := by
  rw [HandleCollations_push layer bound_function children hpolicy]
  constructor
  · intro hc
    rw [hc] at hextract
    exact PushCollations_of_empty layer bound_function children _ hextract
  · intro hne
    rw [PushCollations_of_collation layer bound_function children _ collation hextract hne]
    constructor
    · intro htotal
      obtain ⟨cs, hcs⟩ := PushCollationsLoop_total layer
        (LogicalType.VARCHAR_COLLATION collation) CollationType.COMBINABLE_COLLATIONS children
        htotal
      rw [hcs]
      exact ⟨_, rfl⟩
    · intro function' children' hok
      obtain ⟨cs, hcs, heq⟩ := Except_map_eq_ok _ _ _ hok
      simp only [Prod.mk.injEq] at heq
      obtain ⟨hf, hchildren⟩ := heq
      subst hchildren
      obtain ⟨hlen, hget⟩ := PushCollationsLoop_ok layer _ _ children children' hcs
      refine ⟨?_, hlen, ?_, ?_⟩
      · intro hret
        rw [if_pos hret] at hf
        rw [hf]
        exact ⟨rfl, rfl⟩
      · intro i arg hi
        obtain ⟨pushed, h1, h2⟩ := hget i arg hi
        exact ⟨pushed, h1, h2, withCollation_of_text _ arg, withCollation_of_not_text _ arg⟩
      · intro hpush i arg arg' hi hi'
        obtain ⟨pushed, h1, h2⟩ := hget i arg hi
        rw [hi'] at h1
        simp only [Option.some.injEq] at h1
        subst h1
        have hrt := hpush _ _ _ _ h2
        constructor
        · intro htext
          rw [hrt, withCollation_of_text _ arg htext]
          exact ⟨rfl, rfl⟩
        · intro hnot
          rw [hrt, withCollation_of_not_text _ arg hnot]

/-- Witness for C14: a text-returning overload with the policy `PUSH_COMBINABLE_COLLATIONS` and
two children that both carry the collation `A`: the return type carries `A` and both children
carry `A`. -/
theorem PushCombinable_attaches_collation_witness :
    HandleCollations plainLayer
        (scalarData "f" [LogicalType.VARCHAR, LogicalType.VARCHAR] LogicalType.VARCHAR
          FunctionCollationHandling.PUSH_COMBINABLE_COLLATIONS) bothCollated =
      .ok (scalarData "f" [LogicalType.VARCHAR, LogicalType.VARCHAR]
          (LogicalType.VARCHAR_COLLATION "A")
          FunctionCollationHandling.PUSH_COMBINABLE_COLLATIONS, bothCollated) ∧
    StringType.GetCollation
      (scalarData "f" [LogicalType.VARCHAR, LogicalType.VARCHAR]
        (LogicalType.VARCHAR_COLLATION "A")
        FunctionCollationHandling.PUSH_COMBINABLE_COLLATIONS).return_type = "A" :=
  ⟨rfl, ((((PushCombinable_attaches_collation plainLayer
    (scalarData "f" [LogicalType.VARCHAR, LogicalType.VARCHAR] LogicalType.VARCHAR
      FunctionCollationHandling.PUSH_COMBINABLE_COLLATIONS) bothCollated "A" rfl rfl).2
    (by decide)).2
    (scalarData "f" [LogicalType.VARCHAR, LogicalType.VARCHAR]
      (LogicalType.VARCHAR_COLLATION "A")
      FunctionCollationHandling.PUSH_COMBINABLE_COLLATIONS) bothCollated rfl).1 rfl).2⟩

theorem PropagateCollations_of_not_text (bound_function : ScalarFunctionData)
    (children : List Expression)
    (h : RequiresCollationPropagation bound_function.return_type = false) :
    PropagateCollations bound_function children = .ok bound_function := by
  unfold PropagateCollations
  rw [h]
  rfl

/-- C15 (amended): for an overload whose declared return type is not a text type without alias,
`HandleCollations` returns the overload and every argument unchanged under the policies
`IGNORE_COLLATIONS` and `PROPAGATE_COLLATIONS`. Under `PUSH_COMBINABLE_COLLATIONS` it leaves the
overload, its return type included, unchanged whenever it completes, but it handles the
arguments as for a text-returning overload: it throws when the extraction of the collation
throws, changes nothing when the extracted collation is empty, and otherwise hands every
argument to `PushCollation`, the text-typed ones with the extracted collation as return type. -/
theorem HandleCollations_other_return_type (layer : ExpressionLayer)
    (bound_function : ScalarFunctionData) (children : List Expression)
    (hret : RequiresCollationPropagation bound_function.return_type = false) :
    (bound_function.collation_handling = FunctionCollationHandling.IGNORE_COLLATIONS →
      HandleCollations layer bound_function children = .ok (bound_function, children)) ∧
    (bound_function.collation_handling = FunctionCollationHandling.PROPAGATE_COLLATIONS →
      HandleCollations layer bound_function children = .ok (bound_function, children)) ∧
    (bound_function.collation_handling = FunctionCollationHandling.PUSH_COMBINABLE_COLLATIONS →
      (∀ (function' : ScalarFunctionData) (children' : List Expression),
        HandleCollations layer bound_function children = .ok (function', children') →
        function' = bound_function) ∧
      (∀ e, ExtractCollation children = .error e →
        HandleCollations layer bound_function children = .error e) ∧
      (ExtractCollation children = .ok "" →
        HandleCollations layer bound_function children = .ok (bound_function, children)) ∧
      (∀ collation : String, collation ≠ "" → ExtractCollation children = .ok collation →
        HandleCollations layer bound_function children =
          (PushCollationsLoop layer (LogicalType.VARCHAR_COLLATION collation)
            CollationType.COMBINABLE_COLLATIONS children).map
              (fun cs => (bound_function, cs)))) := by
  refine ⟨?_, ?_, ?_⟩
  · intro h
    unfold HandleCollations
    rw [h]
  · intro h
    unfold HandleCollations
    rw [h]
    simp only
    rw [PropagateCollations_of_not_text bound_function children hret]
    rfl
  · intro h
    rw [HandleCollations_push layer bound_function children h]
    have hpush : ∀ collation : String, collation ≠ "" →
        ExtractCollation children = .ok collation →
        PushCollations layer bound_function children CollationType.COMBINABLE_COLLATIONS =
          (PushCollationsLoop layer (LogicalType.VARCHAR_COLLATION collation)
            CollationType.COMBINABLE_COLLATIONS children).map
              (fun cs => (bound_function, cs)) := by
      intro collation hne hext
      rw [PushCollations_of_collation layer bound_function children _ collation hext hne]
      simp [hret]
    refine ⟨?_, ?_, ?_, hpush⟩
    · intro function' children' hok
      cases hext : ExtractCollation children with
      | error e =>
        rw [PushCollations_of_error layer bound_function children _ e hext] at hok
        simp at hok
      | ok collation =>
        by_cases hne : collation = ""
        · rw [hne] at hext
          rw [PushCollations_of_empty layer bound_function children _ hext] at hok
          simp only [Except.ok.injEq, Prod.mk.injEq] at hok
          exact hok.1.symm
        · rw [hpush collation hne hext] at hok
          obtain ⟨cs, _, heq⟩ := Except_map_eq_ok _ _ _ hok
          simp only [Prod.mk.injEq] at heq
          exact heq.1
    · intro e hext
      exact PushCollations_of_error layer bound_function children _ e hext
    · intro hext
      exact PushCollations_of_empty layer bound_function children _ hext

/-- Witness for C15: an overload returning `BOOLEAN` with the policy `PROPAGATE_COLLATIONS` and a
child carrying the collation `A` next to a child carrying none: nothing is changed. -/
theorem HandleCollations_other_return_type_witness :
    HandleCollations plainLayer
        (scalarData "f" [LogicalType.VARCHAR, LogicalType.VARCHAR] LogicalType.BOOLEAN
          FunctionCollationHandling.PROPAGATE_COLLATIONS) collatedAndPlain =
      .ok (scalarData "f" [LogicalType.VARCHAR, LogicalType.VARCHAR] LogicalType.BOOLEAN
          FunctionCollationHandling.PROPAGATE_COLLATIONS, collatedAndPlain) :=
  (HandleCollations_other_return_type plainLayer
    (scalarData "f" [LogicalType.VARCHAR, LogicalType.VARCHAR] LogicalType.BOOLEAN
      FunctionCollationHandling.PROPAGATE_COLLATIONS) collatedAndPlain rfl).2.1 rfl

/-- Counterexample to C15 as stated: the overload returns `BOOLEAN`, which is not a text type,
and has the policy `PUSH_COMBINABLE_COLLATIONS`; of its two text-typed children the first carries
the collation `A` and the second none. `HandleCollations`, with a wrapper layer that inserts
nothing, returns the second child with the return type carrying `A`: an argument expression has
been changed. -/
theorem push_changes_arguments_of_other_return_type :
    RequiresCollationPropagation
        (scalarData "f" [LogicalType.VARCHAR, LogicalType.VARCHAR] LogicalType.BOOLEAN
          FunctionCollationHandling.PUSH_COMBINABLE_COLLATIONS).return_type = false ∧
    HandleCollations plainLayer
        (scalarData "f" [LogicalType.VARCHAR, LogicalType.VARCHAR] LogicalType.BOOLEAN
          FunctionCollationHandling.PUSH_COMBINABLE_COLLATIONS) collatedAndPlain =
      .ok (scalarData "f" [LogicalType.VARCHAR, LogicalType.VARCHAR] LogicalType.BOOLEAN
          FunctionCollationHandling.PUSH_COMBINABLE_COLLATIONS, bothCollated) ∧
    collatedAndPlain ≠ bothCollated :=
  ⟨rfl, rfl, by decide⟩

/-! ## Call binder (aggregate) -/

theorem BindAggregateFunction_of_bind (self : FunctionBinder) (bound_function : AggregateFunction)
    (children : List Expression) (filter : Option Expression) (aggr_type : AggregateType)
    (bind : ClientContext → SimpleFunction → List Expression →
      Except BinderThrow AggregateBindOutput)
    (hbind : bound_function.bind = some bind) :
    BindAggregateFunction self bound_function children filter aggr_type =
      match bind self.context bound_function.toSimpleFunction children with
      | .error e => .error e
      | .ok r =>
        match CastToFunctionArguments r.bound_function
            (r.arguments.take (min r.bound_function.arguments.length r.arguments.length)) with
        | .error e => .error e
        | .ok (function', children') =>
          .ok { function := function', children := children', filter := filter,
                bind_info := r.bind_info, aggr_type := aggr_type } := by
  unfold BindAggregateFunction
  simp only [hbind]
  cases bind self.context bound_function.toSimpleFunction children <;> rfl

theorem BindAggregateFunction_of_no_bind (self : FunctionBinder)
    (bound_function : AggregateFunction) (children : List Expression)
    (filter : Option Expression) (aggr_type : AggregateType)
    (hbind : bound_function.bind = none) :
    BindAggregateFunction self bound_function children filter aggr_type =
      match CastToFunctionArguments bound_function.toSimpleFunction children with
      | .error e => .error e
      | .ok (function', children') =>
        .ok { function := function', children := children', filter := filter,
              bind_info := none, aggr_type := aggr_type } := by
  unfold BindAggregateFunction
  simp only [hbind]

/-- C16 (amended): when `BindAggregateFunction` completes for an overload with a bind callback,
the bound aggregate has exactly `min(n, r)` children, where `n` is the fixed-parameter count of
the overload as the callback left it and `r` the number of argument expressions remaining after
the callback; they are the first `min(n, r)` remaining arguments in order, each as
`CastToFunctionArguments` stores it, that is kept or wrapped in a cast. For an overload without
bind callback the argument list is not truncated: the bound aggregate has as many children as
argument expressions were passed, each kept or wrapped in a cast. -/
theorem BindAggregateFunction_children (self : FunctionBinder)
    (bound_function : AggregateFunction) (children : List Expression)
    (filter : Option Expression) (aggr_type : AggregateType)
    (result : BoundAggregateExpression)
    (h : BindAggregateFunction self bound_function children filter aggr_type = .ok result) :
    (∀ bind, bound_function.bind = some bind →
      ∃ r, bind self.context bound_function.toSimpleFunction children = .ok r ∧
        result.children.length = min r.bound_function.arguments.length r.arguments.length ∧
        result.function = PrepareFunctionForCast r.bound_function ∧
        result.bind_info = r.bind_info ∧
        ∀ i, i < min r.bound_function.arguments.length r.arguments.length →
          ∃ arg, r.arguments[i]? = some arg ∧
            result.children[i]? = some (castChild result.function i arg)) ∧
    (bound_function.bind = none →
      result.children.length = children.length ∧
      result.function = PrepareFunctionForCast bound_function.toSimpleFunction ∧
      ∀ (i : Nat) (arg : Expression), children[i]? = some arg →
        result.children[i]? = some (castChild result.function i arg)) := by
  constructor
  · intro bind hbind
    rw [BindAggregateFunction_of_bind self bound_function children filter aggr_type bind hbind]
      at h
    cases hr : bind self.context bound_function.toSimpleFunction children with
    | error e =>
      rw [hr] at h
      simp at h
    | ok r =>
      rw [hr] at h
      simp only at h
      cases hc : CastToFunctionArguments r.bound_function
          (r.arguments.take (min r.bound_function.arguments.length r.arguments.length)) with
      | error e =>
        rw [hc] at h
        simp at h
      | ok p =>
        obtain ⟨function', children'⟩ := p
        rw [hc] at h
        simp only [Except.ok.injEq] at h
        subst h
        obtain ⟨hf, hloop⟩ := CastToFunctionArguments_eq_ok _ _ _ _ hc
        obtain ⟨hlen, hget⟩ := CastToFunctionArgumentsLoop_ok _ _ 0 children' hloop
        refine ⟨r, rfl, ?_, hf, rfl, ?_⟩
        · show children'.length = _
          rw [hlen, List.length_take]
          omega
        · intro i hi
          have hlt : i < r.arguments.length := by omega
          refine ⟨r.arguments[i], List.getElem?_eq_getElem hlt, ?_⟩
          have htake : (r.arguments.take
              (min r.bound_function.arguments.length r.arguments.length))[i]? =
              some r.arguments[i] := by
            rw [List.getElem?_take_of_lt hi, List.getElem?_eq_getElem hlt]
          have := hget i _ htake
          rw [Nat.zero_add, ← hf] at this
          exact this
  · intro hbind
    rw [BindAggregateFunction_of_no_bind self bound_function children filter aggr_type hbind]
      at h
    cases hc : CastToFunctionArguments bound_function.toSimpleFunction children with
    | error e =>
      rw [hc] at h
      simp at h
    | ok p =>
      obtain ⟨function', children'⟩ := p
      rw [hc] at h
      simp only [Except.ok.injEq] at h
      subst h
      obtain ⟨hf, hloop⟩ := CastToFunctionArguments_eq_ok _ _ _ _ hc
      obtain ⟨hlen, hget⟩ := CastToFunctionArgumentsLoop_ok _ _ 0 children' hloop
      refine ⟨hlen, hf, ?_⟩
      intro i arg hi
      have := hget i arg hi
      rw [Nat.zero_add, ← hf] at this
      exact this

/-- Witness for C16: the overload `agg(INTEGER)` with a bind callback that absorbs the last of
three argument expressions: two arguments remain, one parameter is declared, and the bound
aggregate has `min(1, 2)` children, namely the first argument. -/
theorem BindAggregateFunction_children_witness :
    BindAggregateFunction (FunctionBinder.ofContext (tableContext sampleCosts))
        { toSimpleFunction := fixedFunction "agg" [LogicalType.INTEGER],
          bind := some absorbLastArgument }
        threeIntegers none AggregateType.NON_DISTINCT =
      .ok { function := fixedFunction "agg" [LogicalType.INTEGER],
            children := [Expression.bound "x" LogicalType.INTEGER], filter := none,
            bind_info := none, aggr_type := AggregateType.NON_DISTINCT } ∧
    [Expression.bound "x" LogicalType.INTEGER].length = min 1 2 := by
  refine ⟨rfl, ?_⟩
  obtain ⟨r, hr, hlen, _⟩ := (BindAggregateFunction_children
    (FunctionBinder.ofContext (tableContext sampleCosts))
    { toSimpleFunction := fixedFunction "agg" [LogicalType.INTEGER],
      bind := some absorbLastArgument }
    threeIntegers none AggregateType.NON_DISTINCT
    { function := fixedFunction "agg" [LogicalType.INTEGER],
      children := [Expression.bound "x" LogicalType.INTEGER], filter := none,
      bind_info := none, aggr_type := AggregateType.NON_DISTINCT } rfl).1
    absorbLastArgument rfl
  simp only [absorbLastArgument, Except.ok.injEq] at hr
  subst hr
  exact hlen

/-- Counterexample to C16 as stated: the variadic overload `agg(INTEGER, INTEGER...)` has one
fixed parameter and no bind callback. Called with three argument expressions, the bound aggregate
keeps all three children, not `min(1, 3)`. -/
theorem no_bind_callback_no_truncation :
    (varargsFunction "agg" [LogicalType.INTEGER] LogicalType.INTEGER).arguments.length = 1 ∧
    BindAggregateFunction (FunctionBinder.ofContext (tableContext sampleCosts))
        { toSimpleFunction := varargsFunction "agg" [LogicalType.INTEGER] LogicalType.INTEGER,
          bind := none }
        threeIntegers none AggregateType.NON_DISTINCT =
      .ok { function := varargsFunction "agg" [LogicalType.INTEGER] LogicalType.INTEGER,
            children := threeIntegers, filter := none, bind_info := none,
            aggr_type := AggregateType.NON_DISTINCT } ∧
    threeIntegers.length = 3 ∧ min 1 threeIntegers.length = 1 :=
  ⟨rfl, rfl, rfl, rfl⟩

/-! ## Call binder (scalar): null inputs -/

/-- C17: the code at the failing inputs. A `FunctionBinder` constructed with an enclosing binder
throws the internal exception for a function that has only an extended bind callback when
`BindScalarFunction` is called without the parameter `binder`; and a `FunctionBinder` constructed
without enclosing binder invokes the extended bind callback, with the binder passed as
parameter, when `BindScalarFunction` is called with one. The test in `BindScalarFunction` reads
the parameter `binder`, which hides the member set at construction time. -/
theorem bind_extended_reads_the_parameter :
    (FunctionBinder.ofBinder sampleBinder).binder.isSome = true ∧
    BindScalarFunction (FunctionBinder.ofBinder sampleBinder) plainLayer extendedOnly [] false
        none =
      .error (BinderThrow.InternalException (missingBinderMessage "g")) ∧
    (FunctionBinder.ofContext (tableContext sampleCosts)).binder.isNone = true ∧
    (BindScalarFunction (FunctionBinder.ofContext (tableContext sampleCosts)) plainLayer
        extendedOnly [] false (some sampleBinder)).map (fun r => r.1) =
      .ok (BoundExpression.BoundFunctionExpression LogicalType.BOOLEAN
        (scalarData "g" [] LogicalType.BOOLEAN FunctionCollationHandling.IGNORE_COLLATIONS) []
        (some { label := "extended", types := [] }) false) :=
  ⟨rfl, rfl, rfl, rfl⟩

/-! ## Call binder (scalar): order of the steps -/

/-- Once the loop of `scanCandidates` has recorded a best overload, the lowest cost
is below the initial maximum. -/
theorem scanLoop_best_lt_max (context : ClientContext) (arguments : List LogicalType) :
    ∀ (fs : List SimpleFunction) (k : Nat) (s : BindLoopState),
      s.lowest_cost ≤ IDX_MAX →
      (∀ b, s.best_function = some b → s.lowest_cost < IDX_MAX) →
      ∀ b, (scanLoop context arguments fs k s).best_function = some b →
        (scanLoop context arguments fs k s).lowest_cost < IDX_MAX := by
  intro fs
  induction fs with
  | nil =>
    intro k s _ hs b hb
    exact hs b hb
  | cons func rest ih =>
    intro k s hle hs
    unfold scanLoop
    cases hc : costSum context func arguments with
    | none => exact ih (k + 1) s hle hs
    | some cost =>
      simp only
      by_cases h1 : cost = s.lowest_cost
      · rw [if_pos h1]
        exact ih (k + 1) _ hle hs
      · rw [if_neg h1]
        by_cases h2 : cost > s.lowest_cost
        · rw [if_pos h2]
          exact ih (k + 1) s hle hs
        · rw [if_neg h2]
          apply ih (k + 1)
          · show cost ≤ IDX_MAX
            omega
          · intro b _
            show cost < IDX_MAX
            omega

theorem finalState_best_lt_max (context : ClientContext) (functions : List SimpleFunction)
    (arguments : List LogicalType) (b : Nat)
    (hb : (finalState context functions arguments).best_function = some b) :
    (finalState context functions arguments).lowest_cost < IDX_MAX := by
  unfold finalState at hb ⊢
  exact scanLoop_best_lt_max context arguments functions 0 _ (Nat.le_refl _)
    (fun b h => by simp at h) b hb

/-- The lowest cost found by the loop is the minimal cost of the feasible overloads. -/
theorem lowest_cost_eq_of_minimal (context : ClientContext) (functions : List SimpleFunction)
    (arguments : List LogicalType) (m : Nat)
    (hfeas : ∃ func ∈ functions, costSum context func arguments = some m)
    (hmin : ∀ func ∈ functions, ∀ c, costSum context func arguments = some c → m ≤ c) :
    (finalState context functions arguments).lowest_cost = m := by
  obtain ⟨func, hf, hc⟩ := hfeas
  apply Nat.le_antisymm (lowest_cost_le_of_mem context functions arguments func hf m hc)
  rcases lowest_cost_attained context functions arguments with h | ⟨g, hg, hcg⟩
  · rw [h]
    exact costSum_le_max context func arguments m hc
  · exact hmin g hg _ hcg

theorem mem_tiedSumIndices (context : ClientContext) (functions : List SimpleFunction)
    (arguments : List LogicalType) (c j : Nat) :
    j ∈ tiedSumIndices context functions arguments c ↔
      costSumAt context functions arguments j = some c := by
  unfold tiedSumIndices
  rw [List.mem_filter, List.mem_range, decide_eq_true_eq]
  constructor
  · exact fun h => h.2
  · exact fun h => ⟨costSumAt_lt_length _ _ _ _ _ h, h⟩

theorem tiedSumIndices_sorted (context : ClientContext) (functions : List SimpleFunction)
    (arguments : List LogicalType) (c : Nat) :
    (tiedSumIndices context functions arguments c).Pairwise (fun a b => a < b) :=
  List.Pairwise.sublist (List.filter_sublist _) (List.pairwise_lt_range _)

/-- Two strictly ascending lists with the same entries are equal. -/
theorem ascending_eq_of_mem_iff (l l' : List Nat) (hl : l.Pairwise (fun a b => a < b))
    (hl' : l'.Pairwise (fun a b => a < b)) (h : ∀ j, j ∈ l ↔ j ∈ l') : l = l' := by
  have hperm : l.Perm l' :=
    (List.perm_ext_iff_of_nodup (hl.imp (fun h => Nat.ne_of_lt h))
      (hl'.imp (fun h => Nat.ne_of_lt h))).2 h
  exact List.eq_of_perm_of_sorted hperm hl hl'

/-- The candidate list when a best overload was recorded: the best overload, moved behind the
later overloads of the same cost, which are in ascending order. -/
theorem candidates_of_best (context : ClientContext) (name : String)
    (functions : List SimpleFunction) (arguments : List LogicalType) (error : ErrorData)
    (b : Nat) (hb : (finalState context functions arguments).best_function = some b) :
    (scanCandidates context name functions arguments error).1 =
      firstToEnd (tiedSumIndices context functions arguments
        (finalState context functions arguments).lowest_cost) := by
  have hinv := LoopInv_final context functions arguments
  have hties : b :: (finalState context functions arguments).candidate_functions =
      tiedSumIndices context functions arguments
        (finalState context functions arguments).lowest_cost := by
    apply ascending_eq_of_mem_iff
    · rw [List.pairwise_cons]
      exact ⟨hinv.best_lt b hb, hinv.sorted⟩
    · exact tiedSumIndices_sorted _ _ _ _
    · intro j
      rw [mem_tiedSumIndices, List.mem_cons]
      have := hinv.mem_iff j
      rw [hb] at this
      constructor
      · rintro (h | h)
        · exact (this.1 (Or.inr (by rw [h]))).2
        · exact (this.1 (Or.inl h)).2
      · intro h
        rcases this.2 ⟨costSumAt_lt_length _ _ _ _ _ h, h⟩ with h' | h'
        · exact Or.inr h'
        · exact Or.inl (Option.some.inj h').symm
  rw [scanCandidates_fst, hb, ← hties]
  rfl

/-- The candidate list when no best overload was recorded: the overloads whose cost is the
initial maximum, in ascending order. -/
theorem candidates_of_no_best (context : ClientContext) (name : String)
    (functions : List SimpleFunction) (arguments : List LogicalType) (error : ErrorData)
    (hb : (finalState context functions arguments).best_function = none) :
    (scanCandidates context name functions arguments error).1 =
      tiedSumIndices context functions arguments
        (finalState context functions arguments).lowest_cost := by
  have hinv := LoopInv_final context functions arguments
  rw [scanCandidates_fst, hb]
  simp only [Option.toList, List.append_nil]
  apply ascending_eq_of_mem_iff _ _ hinv.sorted (tiedSumIndices_sorted _ _ _ _)
  intro j
  rw [mem_tiedSumIndices]
  have := hinv.mem_iff j
  rw [hb] at this
  constructor
  · intro h
    exact (this.1 (Or.inl h)).2
  · intro h
    rcases this.2 ⟨costSumAt_lt_length _ _ _ _ _ h, h⟩ with h' | h'
    · exact h'
    · simp at h'

/-- The candidate string built by the loop of `MultipleCandidateException`. -/
theorem candidate_str_eq (context : ClientContext) (functions : List SimpleFunction)
    (indices : List Nat) :
    indices.foldl
        (fun acc conf =>
          acc ++ ("\t" ++ context.ToString (GetFunctionByOffset functions conf) ++ "\n")) "" =
      candidateLines context functions indices := by
  unfold candidateLines String.join
  rw [List.foldl_map]

theorem MultipleCandidateException_eq (context : ClientContext)
    (catalog_name schema_name name : String) (functions : List SimpleFunction)
    (candidate_functions : List Nat) (arguments : List LogicalType) :
    MultipleCandidateException context catalog_name schema_name name functions
        candidate_functions arguments =
      (none, ErrorData.BINDER
        (ambiguityHeader (context.CallToString catalog_name schema_name name arguments) ++
          candidateLines context functions candidate_functions)) := by
  unfold MultipleCandidateException ambiguityHeader
  simp only [candidate_str_eq]

/-- On the summed costs: when some overload is feasible and `m` is the minimal cost of the feasible
overloads, the candidate list returned by `scanCandidates` holds exactly the indices
of the overloads feasible at cost `m`, without duplicates, and its order is: for `m` below the
largest index value, the tied indices in ascending set order with the first (smallest) one moved
to the end; for `m` equal to the largest index value, the tied indices in ascending set order.
When at least two overloads tie and no argument is the unknown placeholder,
`resolveBySum` returns the invalid index with the diagnostic of
`MultipleCandidateException`, which enumerates the renderings of the candidates in the order of
that list. -/
theorem scanCandidates_order (context : ClientContext) (name : String)
    (functions : List SimpleFunction) (arguments : List LogicalType) (error : ErrorData)
    (m : Nat)
    (hfeas : ∃ func ∈ functions, costSum context func arguments = some m)
    (hmin : ∀ func ∈ functions, ∀ c, costSum context func arguments = some c → m ≤ c) :
    (∀ j, j ∈ tiedSumIndices context functions arguments m ↔
      ∃ func, functions[j]? = some func ∧ costSum context func arguments = some m) ∧
    (tiedSumIndices context functions arguments m).Pairwise (fun a b => a < b) ∧
    (scanCandidates context name functions arguments error).1.Nodup ∧
    (∀ j, j ∈ (scanCandidates context name functions arguments error).1 ↔
      j ∈ tiedSumIndices context functions arguments m) ∧
    (m < IDX_MAX →
      (scanCandidates context name functions arguments error).1 =
        firstToEnd (tiedSumIndices context functions arguments m)) ∧
    (m = IDX_MAX →
      (scanCandidates context name functions arguments error).1 =
        tiedSumIndices context functions arguments m) ∧
    (2 ≤ (tiedSumIndices context functions arguments m).length →
      (∀ a ∈ arguments, a.IsUnknown = false) →
      resolveBySum context name functions arguments error =
        .ok (none, ErrorData.BINDER
          (ambiguityHeader (context.CallToString (firstCatalogName functions)
              (firstSchemaName functions) name arguments) ++
            candidateLines context functions
              (scanCandidates context name functions arguments error).1))) := by
  have hlow := lowest_cost_eq_of_minimal context functions arguments m hfeas hmin
  have hmem : ∀ j, j ∈ (scanCandidates context name functions arguments error).1 ↔
      j ∈ tiedSumIndices context functions arguments m := by
    intro j
    rw [mem_candidates_iff, mem_tiedSumIndices, hlow]
  have hnodup := candidates_nodup context name functions arguments error
  refine ⟨?_, tiedSumIndices_sorted _ _ _ _, hnodup, hmem, ?_, ?_, ?_⟩
  · intro j
    rw [mem_tiedSumIndices, costSumAt_eq_some_iff]
  · intro hlt
    cases hb : (finalState context functions arguments).best_function with
    | none =>
      have := (LoopInv_final context functions arguments).none_max hb
      omega
    | some b =>
      have := candidates_of_best context name functions arguments error b hb
      rw [hlow] at this
      exact this
  · intro heq
    cases hb : (finalState context functions arguments).best_function with
    | none =>
      have := candidates_of_no_best context name functions arguments error hb
      rw [hlow] at this
      exact this
    | some b =>
      have := finalState_best_lt_max context functions arguments b hb
      omega
  · intro htwo hno
    have hperm : (scanCandidates context name functions arguments error).1.Perm
        (tiedSumIndices context functions arguments m) :=
      (List.perm_ext_iff_of_nodup hnodup
        ((tiedSumIndices_sorted context functions arguments m).imp
          (fun h => Nat.ne_of_lt h))).2 hmem
    have hlen := hperm.length_eq
    match hl : (scanCandidates context name functions arguments error).1 with
    | [] =>
      rw [hl] at hlen
      simp at hlen
      omega
    | [c] =>
      rw [hl] at hlen
      simp at hlen
      omega
    | a :: b :: t =>
      rw [resolveBySum_of_many context name functions arguments error a b t hl,
        if_neg (any_IsUnknown_eq_false arguments hno), MultipleCandidateException_eq, hl]

/-! ## The resolver and the summed costs -/

theorem zero_ne_IDX_MAX : (0 : Nat) ≠ IDX_MAX := by
  unfold IDX_MAX
  omega

theorem ofIndex_of_ne (index : Nat) (h : index ≠ IDX_MAX) :
    optional_idx.ofIndex index = .ok (some index) := by
  unfold optional_idx.ofIndex
  rw [if_neg h]

theorem ofIndex_IDX_MAX :
    optional_idx.ofIndex IDX_MAX =
      .error (BinderThrow.InternalException invalidIndexMessage) := by
  unfold optional_idx.ofIndex
  rw [if_pos rfl]
  rfl

/-- The function `BindFunctionCost` is the conversion of the summed cost to `optional_idx`. -/
theorem BindFunctionCost_eq (context : ClientContext) (func : SimpleFunction)
    (arguments : List LogicalType) :
    BindFunctionCost context func arguments =
      match costSum context func arguments with
      | none => .ok none
      | some c => optional_idx.ofIndex c := by
  unfold BindFunctionCost costSum BindVarArgsFunctionCost varArgsCostSum
  by_cases hv : func.HasVarArgs = true
  · rw [if_pos hv, if_pos hv]
    by_cases hl : arguments.length < func.arguments.length
    · rw [if_pos hl, if_pos hl]
    · rw [if_neg hl, if_neg hl]
  · rw [if_neg hv, if_neg hv]
    by_cases hl : func.arguments.length ≠ arguments.length
    · rw [if_pos hl, if_pos hl]
    · rw [if_neg hl, if_neg hl]
      cases BindFunctionCostLoop context func arguments 0 0 false with
      | none => rfl
      | some p =>
        obtain ⟨cost, has_parameter⟩ := p
        cases has_parameter
        · rfl
        · simp only [if_true]
          rw [ofIndex_of_ne 0 zero_ne_IDX_MAX]

theorem BindFunctionCost_of_sum_none (context : ClientContext) (func : SimpleFunction)
    (arguments : List LogicalType) (h : costSum context func arguments = none) :
    BindFunctionCost context func arguments = .ok none := by
  rw [BindFunctionCost_eq, h]

theorem BindFunctionCost_of_sum_some (context : ClientContext) (func : SimpleFunction)
    (arguments : List LogicalType) (c : Nat) (h : costSum context func arguments = some c)
    (hc : c ≠ IDX_MAX) :
    BindFunctionCost context func arguments = .ok (some c) := by
  rw [BindFunctionCost_eq, h]
  exact ofIndex_of_ne c hc

theorem BindFunctionCost_of_sum_max (context : ClientContext) (func : SimpleFunction)
    (arguments : List LogicalType) (h : costSum context func arguments = some IDX_MAX) :
    BindFunctionCost context func arguments =
      .error (BinderThrow.InternalException invalidIndexMessage) := by
  rw [BindFunctionCost_eq, h]
  exact ofIndex_IDX_MAX

/-- The function `BindFunctionCost` returns normally iff the summed cost is not the sentinel, and
it then returns the summed cost. -/
theorem BindFunctionCost_ok_iff (context : ClientContext) (func : SimpleFunction)
    (arguments : List LogicalType) (r : Option Nat) :
    BindFunctionCost context func arguments = .ok r ↔
      costSum context func arguments = r ∧ r ≠ some IDX_MAX := by
  cases hs : costSum context func arguments with
  | none =>
    rw [BindFunctionCost_of_sum_none context func arguments hs]
    constructor
    · intro h
      cases h
      simp
    · rintro ⟨h, _⟩
      rw [h]
  | some c =>
    by_cases hc : c = IDX_MAX
    · subst hc
      rw [BindFunctionCost_of_sum_max context func arguments hs]
      constructor
      · intro h
        cases h
      · rintro ⟨h, hne⟩
        exact absurd h.symm hne
    · rw [BindFunctionCost_of_sum_some context func arguments c hs hc]
      constructor
      · intro h
        cases h
        exact ⟨rfl, fun h => hc (Option.some.inj h)⟩
      · rintro ⟨h, _⟩
        rw [h]

/-- The function `BindFunctionCost` throws iff the summed cost is the sentinel, and it then
throws the `InternalException` of the conversion. -/
theorem BindFunctionCost_error_iff (context : ClientContext) (func : SimpleFunction)
    (arguments : List LogicalType) (e : BinderThrow) :
    BindFunctionCost context func arguments = .error e ↔
      costSum context func arguments = some IDX_MAX ∧
        e = BinderThrow.InternalException invalidIndexMessage := by
  cases hs : costSum context func arguments with
  | none =>
    rw [BindFunctionCost_of_sum_none context func arguments hs]
    constructor
    · intro h
      cases h
    · rintro ⟨h, _⟩
      cases h
  | some c =>
    by_cases hc : c = IDX_MAX
    · subst hc
      rw [BindFunctionCost_of_sum_max context func arguments hs]
      constructor
      · intro h
        cases h
        exact ⟨rfl, rfl⟩
      · rintro ⟨_, h⟩
        rw [h]
    · rw [BindFunctionCost_of_sum_some context func arguments c hs hc]
      constructor
      · intro h
        cases h
      · rintro ⟨h, _⟩
        exact absurd (Option.some.inj h) hc

theorem AllCosted_iff (context : ClientContext) (functions : List SimpleFunction)
    (arguments : List LogicalType) :
    AllCosted context functions arguments ↔
      ∀ func ∈ functions, costSum context func arguments ≠ some IDX_MAX := by
  unfold AllCosted
  constructor
  · intro h func hf hs
    obtain ⟨r, hr⟩ := h func hf
    have := (BindFunctionCost_ok_iff context func arguments r).1 hr
    exact this.2 (this.1 ▸ hs)
  · intro h func hf
    exact ⟨costSum context func arguments,
      (BindFunctionCost_ok_iff context func arguments _).2 ⟨rfl, h func hf⟩⟩

theorem BindFunctionCost_of_costed (context : ClientContext) (functions : List SimpleFunction)
    (arguments : List LogicalType) (h : AllCosted context functions arguments)
    (func : SimpleFunction) (hf : func ∈ functions) :
    BindFunctionCost context func arguments = .ok (costSum context func arguments) :=
  (BindFunctionCost_ok_iff context func arguments _).2
    ⟨rfl, (AllCosted_iff context functions arguments).1 h func hf⟩

theorem not_AllCosted_iff (context : ClientContext) (functions : List SimpleFunction)
    (arguments : List LogicalType) :
    ¬ AllCosted context functions arguments ↔
      ∃ func ∈ functions, BindFunctionCost context func arguments =
        .error (BinderThrow.InternalException invalidIndexMessage) := by
  rw [AllCosted_iff]
  constructor
  · intro h
    by_contra hcon
    apply h
    intro func hf hs
    exact hcon ⟨func, hf, BindFunctionCost_of_sum_max context func arguments hs⟩
  · rintro ⟨func, hf, he⟩ h
    exact h func hf ((BindFunctionCost_error_iff context func arguments _).1 he).1

theorem BindFunctionsLoop_of_costed (context : ClientContext) (arguments : List LogicalType) :
    ∀ (fs : List SimpleFunction) (k : Nat) (s : BindLoopState),
      (∀ func ∈ fs, costSum context func arguments ≠ some IDX_MAX) →
      BindFunctionsLoop context arguments fs k s = .ok (scanLoop context arguments fs k s) := by
  intro fs
  induction fs with
  | nil =>
    intro k s _
    rfl
  | cons func rest ih =>
    intro k s h
    have hrest : ∀ g ∈ rest, costSum context g arguments ≠ some IDX_MAX :=
      fun g hg => h g (List.mem_cons_of_mem _ hg)
    have hfunc := h func (List.mem_cons_self _ _)
    unfold BindFunctionsLoop scanLoop
    cases hs : costSum context func arguments with
    | none =>
      rw [BindFunctionCost_of_sum_none context func arguments hs]
      exact ih _ _ hrest
    | some c =>
      have hc : c ≠ IDX_MAX := fun hc => hfunc (by rw [hs, hc])
      rw [BindFunctionCost_of_sum_some context func arguments c hs hc]
      simp only
      by_cases h1 : c = s.lowest_cost
      · rw [if_pos h1, if_pos h1]
        exact ih _ _ hrest
      · rw [if_neg h1, if_neg h1]
        by_cases h2 : c > s.lowest_cost
        · rw [if_pos h2, if_pos h2]
          exact ih _ _ hrest
        · rw [if_neg h2, if_neg h2]
          exact ih _ _ hrest

theorem BindFunctionsLoop_of_not_costed (context : ClientContext)
    (arguments : List LogicalType) :
    ∀ (fs : List SimpleFunction) (k : Nat) (s : BindLoopState),
      (∃ func ∈ fs, costSum context func arguments = some IDX_MAX) →
      BindFunctionsLoop context arguments fs k s =
        .error (BinderThrow.InternalException invalidIndexMessage) := by
  intro fs
  induction fs with
  | nil =>
    rintro k s ⟨func, hf, _⟩
    simp at hf
  | cons func rest ih =>
    rintro k s ⟨g, hg, hsg⟩
    unfold BindFunctionsLoop
    cases hs : costSum context func arguments with
    | none =>
      rw [BindFunctionCost_of_sum_none context func arguments hs]
      have hgr : g ∈ rest := by
        rcases List.mem_cons.1 hg with h | h
        · subst h
          rw [hs] at hsg
          cases hsg
        · exact h
      exact ih _ _ ⟨g, hgr, hsg⟩
    | some c =>
      by_cases hc : c = IDX_MAX
      · subst hc
        rw [BindFunctionCost_of_sum_max context func arguments hs]
      · rw [BindFunctionCost_of_sum_some context func arguments c hs hc]
        have hgr : g ∈ rest := by
          rcases List.mem_cons.1 hg with h | h
          · subst h
            rw [hs] at hsg
            exact absurd (Option.some.inj hsg) hc
          · exact h
        simp only
        split
        · exact ih _ _ ⟨g, hgr, hsg⟩
        · split
          · exact ih _ _ ⟨g, hgr, hsg⟩
          · exact ih _ _ ⟨g, hgr, hsg⟩

/-- When the costing of every overload completes, `BindFunctionsFromArguments` returns the
candidate list and the error computed on the summed costs. -/
theorem BindFunctionsFromArguments_of_costed (context : ClientContext) (name : String)
    (functions : List SimpleFunction) (arguments : List LogicalType) (error : ErrorData)
    (h : AllCosted context functions arguments) :
    BindFunctionsFromArguments context name functions arguments error =
      .ok (scanCandidates context name functions arguments error) := by
  unfold BindFunctionsFromArguments scanCandidates
  rw [BindFunctionsLoop_of_costed context arguments functions 0 _
    ((AllCosted_iff context functions arguments).1 h)]
  simp only
  split <;> rfl

/-- When the costing of some overload throws, `BindFunctionsFromArguments` throws the
`InternalException` of the conversion. -/
theorem BindFunctionsFromArguments_of_not_costed (context : ClientContext) (name : String)
    (functions : List SimpleFunction) (arguments : List LogicalType) (error : ErrorData)
    (h : ¬ AllCosted context functions arguments) :
    BindFunctionsFromArguments context name functions arguments error =
      .error (BinderThrow.InternalException invalidIndexMessage) := by
  have hex : ∃ func ∈ functions, costSum context func arguments = some IDX_MAX := by
    obtain ⟨func, hf, he⟩ := (not_AllCosted_iff context functions arguments).1 h
    exact ⟨func, hf, ((BindFunctionCost_error_iff context func arguments _).1 he).1⟩
  unfold BindFunctionsFromArguments
  rw [BindFunctionsLoop_of_not_costed context arguments functions 0 _ hex]

/-- When the costing of every overload completes, `BindFunctionFromArguments` returns the result
computed on the summed costs. -/
theorem BindFunctionFromArguments_of_costed (context : ClientContext) (name : String)
    (functions : List SimpleFunction) (arguments : List LogicalType) (error : ErrorData)
    (h : AllCosted context functions arguments) :
    BindFunctionFromArguments context name functions arguments error =
      resolveBySum context name functions arguments error := by
  unfold BindFunctionFromArguments resolveBySum
  rw [BindFunctionsFromArguments_of_costed context name functions arguments error h]

/-- When the costing of some overload throws, `BindFunctionFromArguments` throws the
`InternalException` of the conversion. -/
theorem BindFunctionFromArguments_of_not_costed (context : ClientContext) (name : String)
    (functions : List SimpleFunction) (arguments : List LogicalType) (error : ErrorData)
    (h : ¬ AllCosted context functions arguments) :
    BindFunctionFromArguments context name functions arguments error =
      .error (BinderThrow.InternalException invalidIndexMessage) := by
  unfold BindFunctionFromArguments
  rw [BindFunctionsFromArguments_of_not_costed context name functions arguments error h]

/-- The costing of every overload completes as soon as `BindFunctionFromArguments` does not throw
the `InternalException` of the conversion. -/
theorem AllCosted_of_ne_error (context : ClientContext) (name : String)
    (functions : List SimpleFunction) (arguments : List LogicalType) (error : ErrorData)
    (h : BindFunctionFromArguments context name functions arguments error ≠
      .error (BinderThrow.InternalException invalidIndexMessage)) :
    AllCosted context functions arguments := by
  by_contra hcon
  exact h (BindFunctionFromArguments_of_not_costed context name functions arguments error hcon)

theorem costAt_of_costed (context : ClientContext) (functions : List SimpleFunction)
    (arguments : List LogicalType) (h : AllCosted context functions arguments) (j : Nat) :
    costAt context functions arguments j = costSumAt context functions arguments j := by
  unfold costAt costSumAt
  cases hj : functions[j]? with
  | none => rfl
  | some func =>
    simp only
    rw [BindFunctionCost_of_costed context functions arguments h func (List.getElem?_mem hj)]

theorem tiedIndices_of_costed (context : ClientContext) (functions : List SimpleFunction)
    (arguments : List LogicalType) (h : AllCosted context functions arguments) (c : Nat) :
    tiedIndices context functions arguments c =
      tiedSumIndices context functions arguments c := by
  unfold tiedIndices tiedSumIndices
  apply List.filter_congr
  intro j _
  rw [costAt_of_costed context functions arguments h j]

theorem costed_ok_some_iff (context : ClientContext) (functions : List SimpleFunction)
    (arguments : List LogicalType) (h : AllCosted context functions arguments)
    (func : SimpleFunction) (hf : func ∈ functions) (c : Nat) :
    BindFunctionCost context func arguments = .ok (some c) ↔
      costSum context func arguments = some c := by
  rw [BindFunctionCost_of_costed context functions arguments h func hf]
  constructor
  · intro h
    exact Except.ok.inj h
  · intro h
    rw [h]

theorem costed_ok_none_iff (context : ClientContext) (functions : List SimpleFunction)
    (arguments : List LogicalType) (h : AllCosted context functions arguments)
    (func : SimpleFunction) (hf : func ∈ functions) :
    BindFunctionCost context func arguments = .ok none ↔
      costSum context func arguments = none := by
  rw [BindFunctionCost_of_costed context functions arguments h func hf]
  constructor
  · intro h
    exact Except.ok.inj h
  · intro h
    rw [h]

theorem TiedAtMinimum_of_costed (context : ClientContext) (functions : List SimpleFunction)
    (arguments : List LogicalType) (h : AllCosted context functions arguments) :
    TiedAtMinimum context functions arguments ↔
      TiedAtMinimumSum context functions arguments := by
  unfold TiedAtMinimum TiedAtMinimumSum
  constructor
  · rintro ⟨i, j, fi, fj, c, hne, hfi, hfj, hci, hcj, hmin⟩
    refine ⟨i, j, fi, fj, c, hne, hfi, hfj,
      (costed_ok_some_iff context functions arguments h fi (List.getElem?_mem hfi) c).1 hci,
      (costed_ok_some_iff context functions arguments h fj (List.getElem?_mem hfj) c).1 hcj, ?_⟩
    intro func hf c' hc'
    exact hmin func hf c' ((costed_ok_some_iff context functions arguments h func hf c').2 hc')
  · rintro ⟨i, j, fi, fj, c, hne, hfi, hfj, hci, hcj, hmin⟩
    refine ⟨i, j, fi, fj, c, hne, hfi, hfj,
      (costed_ok_some_iff context functions arguments h fi (List.getElem?_mem hfi) c).2 hci,
      (costed_ok_some_iff context functions arguments h fj (List.getElem?_mem hfj) c).2 hcj, ?_⟩
    intro func hf c' hc'
    exact hmin func hf c' ((costed_ok_some_iff context functions arguments h func hf c').1 hc')

/-! ## Overload resolution: chosen and no match -/

theorem resolveBySum_ne_internal (context : ClientContext) (name : String)
    (functions : List SimpleFunction) (arguments : List LogicalType) (error : ErrorData)
    (message : String) :
    resolveBySum context name functions arguments error ≠
      .error (BinderThrow.InternalException message) := by
  unfold resolveBySum
  simp only
  split
  · simp
  · simp
  · split <;> simp [MultipleCandidateException]

/-- The function `BindFunctionFromArguments` throws the `InternalException` of the conversion
exactly when the costing of some overload throws. -/
theorem BindFunctionFromArguments_internal_iff (context : ClientContext) (name : String)
    (functions : List SimpleFunction) (arguments : List LogicalType) (error : ErrorData) :
    BindFunctionFromArguments context name functions arguments error =
        .error (BinderThrow.InternalException invalidIndexMessage) ↔
      ¬ AllCosted context functions arguments := by
  constructor
  · intro h hall
    rw [BindFunctionFromArguments_of_costed context name functions arguments error hall] at h
    exact resolveBySum_ne_internal context name functions arguments error _ h
  · exact BindFunctionFromArguments_of_not_costed context name functions arguments error

theorem AllCosted_of_ok (context : ClientContext) (name : String)
    (functions : List SimpleFunction) (arguments : List LogicalType) (error : ErrorData)
    (r : Option Nat × ErrorData)
    (h : BindFunctionFromArguments context name functions arguments error = .ok r) :
    AllCosted context functions arguments := by
  apply AllCosted_of_ne_error context name functions arguments error
  rw [h]
  simp

/-- C1 (amended): `BindFunctionFromArguments` returns the valid index `i` if and only if the
costing of every overload of the set completes, overload `i` is feasible (`BindFunctionCost`
yields a cost for it) and every other feasible overload of the set has a strictly greater cost;
in particular a returned index is in range and names a feasible overload of minimal cost. The
costing of an overload fails to complete exactly when `BindFunctionCost` throws the
`InternalException` of the conversion of the sentinel cost `2 ^ 64 - 1`, and
`BindFunctionFromArguments` then throws that exception, whatever the other overloads are. -/
theorem BindFunctionFromArguments_chosen_iff (context : ClientContext) (name : String)
    (functions : List SimpleFunction) (arguments : List LogicalType) (error : ErrorData)
    (i : Nat) :
    ((∃ e, BindFunctionFromArguments context name functions arguments error =
        .ok (some i, e)) ↔
      (AllCosted context functions arguments ∧ i < functions.length ∧
        ∃ func c, functions[i]? = some func ∧
          BindFunctionCost context func arguments = .ok (some c) ∧
          ∀ j other c', j ≠ i → functions[j]? = some other →
            BindFunctionCost context other arguments = .ok (some c') → c < c')) ∧
    (BindFunctionFromArguments context name functions arguments error =
        .error (BinderThrow.InternalException invalidIndexMessage) ↔
      ∃ func ∈ functions, BindFunctionCost context func arguments =
        .error (BinderThrow.InternalException invalidIndexMessage)) ∧
    (∀ func ∈ functions, ∀ t, BindFunctionCost context func arguments = .error t →
      t = BinderThrow.InternalException invalidIndexMessage) := by
  refine ⟨?_, ?_, ?_⟩
  · constructor
    · rintro ⟨e, he⟩
      have hall := AllCosted_of_ok context name functions arguments error _ he
      rw [BindFunctionFromArguments_of_costed context name functions arguments error hall]
        at he
      obtain ⟨hlt, func, c, hf, hc, hmin⟩ :=
        (resolveBySum_chosen_iff context name functions arguments error i).1 ⟨e, he⟩
      refine ⟨hall, hlt, func, c, hf, ?_, ?_⟩
      · exact (costed_ok_some_iff context functions arguments hall func
          (List.getElem?_mem hf) c).2 hc
      · intro j other c' hne ho hc'
        exact hmin j other c' hne ho
          ((costed_ok_some_iff context functions arguments hall other
            (List.getElem?_mem ho) c').1 hc')
    · rintro ⟨hall, hlt, func, c, hf, hc, hmin⟩
      rw [BindFunctionFromArguments_of_costed context name functions arguments error hall]
      apply (resolveBySum_chosen_iff context name functions arguments error i).2
      refine ⟨hlt, func, c, hf, ?_, ?_⟩
      · exact (costed_ok_some_iff context functions arguments hall func
          (List.getElem?_mem hf) c).1 hc
      · intro j other c' hne ho hc'
        exact hmin j other c' hne ho
          ((costed_ok_some_iff context functions arguments hall other
            (List.getElem?_mem ho) c').2 hc')
  · rw [BindFunctionFromArguments_internal_iff, not_AllCosted_iff]
  · intro func _ t ht
    exact ((BindFunctionCost_error_iff context func arguments t).1 ht).2

/-- Witness for C1: in the set `f(INTEGER)`, `f(BIGINT)` called with `[INTEGER]` both costings
complete, with the costs 0 and 5, and the index 0 is returned. -/
theorem BindFunctionFromArguments_chosen_iff_witness :
    BindFunctionCost (tableContext sampleCosts) (fixedFunction "f(INTEGER)" [LogicalType.INTEGER])
      [LogicalType.INTEGER] = .ok (some 0) ∧
    BindFunctionCost (tableContext sampleCosts) (fixedFunction "f(BIGINT)" [LogicalType.BIGINT])
      [LogicalType.INTEGER] = .ok (some 5) ∧
    (∃ e, BindFunctionFromArguments (tableContext sampleCosts) "f" intOrBigint
      [LogicalType.INTEGER] ErrorData.NONE = .ok (some 0, e)) :=
  have hall : AllCosted (tableContext sampleCosts) intOrBigint [LogicalType.INTEGER] := by
    intro func hf
    simp only [intOrBigint, List.mem_cons, List.mem_singleton, List.not_mem_nil,
      or_false] at hf
    rcases hf with rfl | rfl
    · exact ⟨some 0, rfl⟩
    · exact ⟨some 5, rfl⟩
  ⟨rfl, rfl,
    ((BindFunctionFromArguments_chosen_iff (tableContext sampleCosts) "f" intOrBigint
      [LogicalType.INTEGER] ErrorData.NONE 0).1).2
      ⟨hall, by decide, fixedFunction "f(INTEGER)" [LogicalType.INTEGER], 0, rfl, rfl,
        fun j other c' hne ho hc' => by
          match j with
          | 0 => exact absurd rfl hne
          | 1 =>
            simp [intOrBigint] at ho
            subst ho
            have h : (Except.ok (some 5) : Except BinderThrow (Option Nat)) =
                .ok (some c') := hc'
            cases h
            decide
          | n + 2 => simp [intOrBigint] at ho⟩⟩

/-- Counterexample to C1 as stated: for the set `f(INTEGER, INTEGER, BOOLEAN)`,
`f(BIGINT, BIGINT, BIGINT)` and the arguments `INTEGER, INTEGER, BOOLEAN`, under an oracle in
which the casts to `BIGINT` cost `2 ^ 63 - 1`, `2 ^ 63 - 1` and `1`, overload 0 is feasible with
cost 0 and `BindFunctionCost` yields no cost for overload 1: the cast costs sum to `2 ^ 64 - 1`
and the conversion of that cost throws. So overload 0 is feasible and no other feasible overload
has a cost that is not strictly greater, yet `BindFunctionFromArguments` does not return the
index 0: it throws the `InternalException`. -/
theorem feasible_minimum_yet_throws :
    BindFunctionCost (tableContext largeCosts) exactOverload largeArguments = .ok (some 0) ∧
    knownPositionsCost (tableContext largeCosts) wideOverload largeArguments = 2 ^ 64 - 1 ∧
    BindFunctionCost (tableContext largeCosts) wideOverload largeArguments =
      .error (BinderThrow.InternalException
        "optional_idx cannot be initialized with an invalid index") ∧
    (∀ j other c', j ≠ 0 → [exactOverload, wideOverload][j]? = some other →
      BindFunctionCost (tableContext largeCosts) other largeArguments = .ok (some c') →
      0 < c') ∧
    BindFunctionFromArguments (tableContext largeCosts) "f" [exactOverload, wideOverload]
        largeArguments ErrorData.NONE =
      .error (BinderThrow.InternalException
        "optional_idx cannot be initialized with an invalid index") ∧
    ¬ ∃ e, BindFunctionFromArguments (tableContext largeCosts) "f"
        [exactOverload, wideOverload] largeArguments ErrorData.NONE = .ok (some 0, e) := by
  refine ⟨rfl, by decide, rfl, ?_, rfl, ?_⟩
  · intro j other c' hne ho hc'
    match j with
    | 0 => exact absurd rfl hne
    | 1 =>
      simp at ho
      subst ho
      have h : (Except.error (BinderThrow.InternalException
          "optional_idx cannot be initialized with an invalid index") :
          Except BinderThrow (Option Nat)) = .ok (some c') := hc'
      cases h
    | n + 2 => simp at ho
  · rintro ⟨e, he⟩
    have h : (Except.error (BinderThrow.InternalException
        "optional_idx cannot be initialized with an invalid index") :
        Except BinderThrow (Option Nat × ErrorData)) = .ok (some 0, e) := he
    cases h

/-- C2 (amended): resolution yields no match, that is `BindFunctionsFromArguments` returns an
empty candidate list and records the `NoMatchingFunction` error listing the rendering of every
overload in set order, and `BindFunctionFromArguments` returns the invalid index with that
error, if and only if `BindFunctionCost` returns the invalid index for every overload of the
set. It does so for an overload exactly when the overload fails the conditions of feasibility:
for a variadic overload, at least as many arguments as fixed parameters and a non-negative cast
cost for every argument that differs structurally from its effective parameter type; for a
non-variadic one, as many arguments as parameters and a non-negative cast cost for every argument
that is not the unknown placeholder. An overload that meets the conditions yields a cost below
`2 ^ 64 - 1`, or else its costing throws the `InternalException` of the conversion; in that case
resolution throws it. -/
theorem NoMatch_iff_no_feasible (context : ClientContext) (name : String)
    (functions : List SimpleFunction) (arguments : List LogicalType) (error : ErrorData) :
    (((BindFunctionsFromArguments context name functions arguments error =
          .ok ([], ErrorData.NoMatchingFunction
            (firstNonEmptyName (functions.map (fun f => f.catalog_name)))
            (firstNonEmptyName (functions.map (fun f => f.schema_name)))
            name arguments (functions.map context.ToString))) ∧
        BindFunctionFromArguments context name functions arguments error =
          .ok (none, ErrorData.NoMatchingFunction
            (firstNonEmptyName (functions.map (fun f => f.catalog_name)))
            (firstNonEmptyName (functions.map (fun f => f.schema_name)))
            name arguments (functions.map context.ToString))) ↔
      ∀ func ∈ functions, BindFunctionCost context func arguments = .ok none) ∧
    (∀ func : SimpleFunction, BindFunctionCost context func arguments ≠ .ok none ↔
      if func.HasVarArgs = true then
        func.arguments.length ≤ arguments.length ∧
          ∀ (j : Nat) (a : LogicalType), arguments[j]? = some a →
            a.stripCollation ≠ (func.paramAt j).stripCollation →
            0 ≤ context.ImplicitCastCost a (func.paramAt j)
      else
        arguments.length = func.arguments.length ∧
          ∀ (j : Nat) (a p : LogicalType), arguments[j]? = some a → func.arguments[j]? = some p →
            a.id ≠ LogicalTypeId.UNKNOWN → 0 ≤ context.ImplicitCastCost a p) ∧
    (∀ func : SimpleFunction, BindFunctionCost context func arguments ≠ .ok none →
      (∃ c, c < IDX_MAX ∧ BindFunctionCost context func arguments = .ok (some c)) ∨
        BindFunctionCost context func arguments =
          .error (BinderThrow.InternalException invalidIndexMessage)) ∧
    ((∃ func ∈ functions, BindFunctionCost context func arguments =
        .error (BinderThrow.InternalException invalidIndexMessage)) →
      BindFunctionsFromArguments context name functions arguments error =
          .error (BinderThrow.InternalException invalidIndexMessage) ∧
        BindFunctionFromArguments context name functions arguments error =
          .error (BinderThrow.InternalException invalidIndexMessage)) := by
  refine ⟨?_, ?_, ?_, ?_⟩
  · constructor
    · rintro ⟨_, h⟩
      have hall := AllCosted_of_ok context name functions arguments error _ h
      rw [BindFunctionFromArguments_of_costed context name functions arguments error hall] at h
      have hnone := (empty_candidates_iff_none_feasible context name functions arguments
        error).1 ⟨by
          have hnil : (scanCandidates context name functions arguments error).1 = [] := by
            unfold resolveBySum at h
            simp only at h
            split at h
            · assumption
            · simp at h
            · split at h <;> simp [MultipleCandidateException] at h
          exact scanCandidates_nil context name functions arguments error hnil, h⟩
      intro func hf
      exact BindFunctionCost_of_sum_none context func arguments (hnone func hf)
    · intro h
      have hall : AllCosted context functions arguments := fun func hf => ⟨none, h func hf⟩
      have hnone : ∀ func ∈ functions, costSum context func arguments = none :=
        fun func hf => (costed_ok_none_iff context functions arguments hall func hf).1 (h func hf)
      obtain ⟨h1, h2⟩ := (empty_candidates_iff_none_feasible context name functions arguments
        error).2 hnone
      rw [BindFunctionsFromArguments_of_costed context name functions arguments error hall,
        BindFunctionFromArguments_of_costed context name functions arguments error hall, h1, h2]
      exact ⟨rfl, rfl⟩
  · intro func
    rw [← costSum_isSome_iff context func arguments]
    constructor
    · intro h hs
      exact h (BindFunctionCost_of_sum_none context func arguments hs)
    · intro h hb
      exact h ((BindFunctionCost_ok_iff context func arguments none).1 hb).1
  · intro func h
    cases hs : costSum context func arguments with
    | none => exact absurd (BindFunctionCost_of_sum_none context func arguments hs) h
    | some c =>
      by_cases hc : c = IDX_MAX
      · subst hc
        exact Or.inr (BindFunctionCost_of_sum_max context func arguments hs)
      · have hle := costSum_le_max context func arguments c hs
        exact Or.inl ⟨c, by omega,
          BindFunctionCost_of_sum_some context func arguments c hs hc⟩
  · intro h
    have hnot := (not_AllCosted_iff context functions arguments).2 h
    exact ⟨BindFunctionsFromArguments_of_not_costed context name functions arguments error hnot,
      BindFunctionFromArguments_of_not_costed context name functions arguments error hnot⟩

/-- Witness for C2: neither `f(INTEGER)` nor `f(BIGINT)` accepts `[VARCHAR]`, and resolution
returns the invalid index with the `NoMatchingFunction` error listing both overloads. -/
theorem NoMatch_iff_no_feasible_witness :
    BindFunctionsFromArguments (tableContext sampleCosts) "f" intOrBigint [LogicalType.VARCHAR]
        ErrorData.NONE =
      .ok ([], ErrorData.NoMatchingFunction "" "" "f" [LogicalType.VARCHAR]
        ["f(INTEGER)", "f(BIGINT)"]) ∧
    BindFunctionFromArguments (tableContext sampleCosts) "f" intOrBigint [LogicalType.VARCHAR]
        ErrorData.NONE =
      .ok (none, ErrorData.NoMatchingFunction "" "" "f" [LogicalType.VARCHAR]
        ["f(INTEGER)", "f(BIGINT)"]) :=
  ((NoMatch_iff_no_feasible (tableContext sampleCosts) "f" intOrBigint [LogicalType.VARCHAR]
    ErrorData.NONE).1).2 (fun func hf => by
      simp only [intOrBigint, List.mem_cons, List.mem_singleton, List.not_mem_nil,
        or_false] at hf
      rcases hf with rfl | rfl <;> rfl)

/-- Counterexample to C2 as stated: the set with the single overload `f(BIGINT, BIGINT, BIGINT)`
and the arguments `INTEGER, INTEGER, BOOLEAN`, under an oracle in which the casts to `BIGINT`
cost `2 ^ 63 - 1`, `2 ^ 63 - 1` and `1`. The overload meets the conditions of feasibility, but
`BindFunctionCost` yields no cost for it, so no overload of the set is feasible; yet resolution
does not yield no match: both functions throw the `InternalException`. -/
theorem no_cost_yet_not_NoMatch :
    (wideOverload.HasVarArgs = false ∧
      largeArguments.length = wideOverload.arguments.length ∧
      ∀ (j : Nat) (a p : LogicalType), largeArguments[j]? = some a →
        wideOverload.arguments[j]? = some p → a.id ≠ LogicalTypeId.UNKNOWN →
        0 ≤ (tableContext largeCosts).ImplicitCastCost a p) ∧
    (∀ func ∈ [wideOverload], ∀ c,
      BindFunctionCost (tableContext largeCosts) func largeArguments ≠ .ok (some c)) ∧
    BindFunctionsFromArguments (tableContext largeCosts) "f" [wideOverload] largeArguments
        ErrorData.NONE =
      .error (BinderThrow.InternalException
        "optional_idx cannot be initialized with an invalid index") ∧
    BindFunctionFromArguments (tableContext largeCosts) "f" [wideOverload] largeArguments
        ErrorData.NONE =
      .error (BinderThrow.InternalException
        "optional_idx cannot be initialized with an invalid index") := by
  refine ⟨⟨rfl, rfl, ?_⟩, ?_, rfl, rfl⟩
  · intro j a p ha hp _
    match j with
    | 0 =>
      simp [largeArguments] at ha
      simp [wideOverload] at hp
      subst ha hp
      decide
    | 1 =>
      simp [largeArguments] at ha
      simp [wideOverload] at hp
      subst ha hp
      decide
    | 2 =>
      simp [largeArguments] at ha
      simp [wideOverload] at hp
      subst ha hp
      decide
    | n + 3 => simp [largeArguments] at ha
  · intro func hf c hc
    simp only [List.mem_singleton] at hf
    subst hf
    have h : (Except.error (BinderThrow.InternalException
        "optional_idx cannot be initialized with an invalid index") :
        Except BinderThrow (Option Nat)) = .ok (some c) := hc
    cases h

/-! ## Overload resolution: ties -/

theorem scanCandidates_length_of_many (context : ClientContext) (name : String)
    (functions : List SimpleFunction) (arguments : List LogicalType) (error : ErrorData)
    (a b : Nat) (t : List Nat)
    (h : (scanCandidates context name functions arguments error).1 = a :: b :: t) :
    2 ≤ (scanCandidates context name functions arguments error).1.length := by
  rw [h]
  simp

theorem outcomeKind_ne_deferred_of_no_unknown (context : ClientContext) (name : String)
    (functions : List SimpleFunction) (arguments : List LogicalType) (error : ErrorData)
    (hno : ∀ a ∈ arguments, a.IsUnknown = false) :
    BindFunctionFromArguments context name functions arguments error ≠
        .error BinderThrow.ParameterNotResolvedException ∧
      outcomeKind (BindFunctionFromArguments context name functions arguments error) ≠
        some OutcomeKind.Deferred := by
  by_cases hall : AllCosted context functions arguments
  · rw [BindFunctionFromArguments_of_costed context name functions arguments error hall]
    have h := ((resolveBySum_tie context name functions arguments error).2 hno)
    exact ⟨h.1 _, h.2.1⟩
  · rw [BindFunctionFromArguments_of_not_costed context name functions arguments error hall]
    exact ⟨by simp, by simp [outcomeKind]⟩

/-- C3 (amended): when the costing of every overload completes and more than one overload ties
at the minimal cost, `BindFunctionFromArguments` throws `ParameterNotResolvedException`
(deferred) if and only if some argument type is the unknown placeholder, and otherwise returns
the invalid index together with the error of `MultipleCandidateException` over the candidate
list, which has at least two entries (ambiguous). For every argument list without an unknown
placeholder the outcome is never deferred; when moreover the costing of every overload
completes, nothing is thrown, the outcome is chosen or ambiguous if some overload is feasible,
and no match if none is. When the costing of some overload throws, so does
`BindFunctionFromArguments`, with the `InternalException` of the conversion, and the outcome is
none of the four. -/
theorem tie_deferred_iff_unknown (context : ClientContext) (name : String)
    (functions : List SimpleFunction) (arguments : List LogicalType) (error : ErrorData) :
    (AllCosted context functions arguments → TiedAtMinimum context functions arguments →
      ((BindFunctionFromArguments context name functions arguments error =
            .error BinderThrow.ParameterNotResolvedException ↔
          ∃ a ∈ arguments, a.IsUnknown = true) ∧
        ((∀ a ∈ arguments, a.IsUnknown = false) →
          ∃ candidates e,
            BindFunctionsFromArguments context name functions arguments error =
              .ok (candidates, e) ∧
            2 ≤ candidates.length ∧
            BindFunctionFromArguments context name functions arguments error =
              .ok (MultipleCandidateException context (firstCatalogName functions)
                (firstSchemaName functions) name functions candidates arguments) ∧
            outcomeKind (BindFunctionFromArguments context name functions arguments error) =
              some OutcomeKind.Ambiguous))) ∧
    ((∀ a ∈ arguments, a.IsUnknown = false) →
      BindFunctionFromArguments context name functions arguments error ≠
        .error BinderThrow.ParameterNotResolvedException ∧
      outcomeKind (BindFunctionFromArguments context name functions arguments error) ≠
        some OutcomeKind.Deferred ∧
      (AllCosted context functions arguments →
        (∀ t, BindFunctionFromArguments context name functions arguments error ≠ .error t) ∧
        ((∃ func ∈ functions, ∃ c,
            BindFunctionCost context func arguments = .ok (some c)) →
          (outcomeKind (BindFunctionFromArguments context name functions arguments error) =
              some OutcomeKind.Chosen ∨
            outcomeKind (BindFunctionFromArguments context name functions arguments error) =
              some OutcomeKind.Ambiguous)) ∧
        ((∀ func ∈ functions, BindFunctionCost context func arguments = .ok none) →
          outcomeKind (BindFunctionFromArguments context name functions arguments error) =
            some OutcomeKind.NoMatch))) ∧
    (¬ AllCosted context functions arguments →
      BindFunctionFromArguments context name functions arguments error =
        .error (BinderThrow.InternalException invalidIndexMessage) ∧
      outcomeKind (BindFunctionFromArguments context name functions arguments error) =
        none) := by
  refine ⟨?_, ?_, ?_⟩
  · intro hall htie
    have htie' := (TiedAtMinimum_of_costed context functions arguments hall).1 htie
    have hold := (resolveBySum_tie context name functions arguments error).1 htie'
    rw [BindFunctionFromArguments_of_costed context name functions arguments error hall]
    refine ⟨hold.1, ?_⟩
    intro hno
    obtain ⟨a, b, t, hl⟩ :=
      TiedAtMinimumSum_candidates context name functions arguments error htie'
    refine ⟨(scanCandidates context name functions arguments error).1,
      (scanCandidates context name functions arguments error).2,
      BindFunctionsFromArguments_of_costed context name functions arguments error hall,
      scanCandidates_length_of_many context name functions arguments error a b t hl,
      hold.2 hno, ?_⟩
    rw [hold.2 hno]
    rfl
  · intro hno
    obtain ⟨h1, h2⟩ :=
      outcomeKind_ne_deferred_of_no_unknown context name functions arguments error hno
    refine ⟨h1, h2, ?_⟩
    intro hall
    have hold := (resolveBySum_tie context name functions arguments error).2 hno
    rw [BindFunctionFromArguments_of_costed context name functions arguments error hall]
    refine ⟨hold.1, ?_, ?_⟩
    · rintro ⟨func, hf, c, hc⟩
      apply hold.2.2.1
      refine ⟨func, hf, ?_⟩
      rw [(costed_ok_some_iff context functions arguments hall func hf c).1 hc]
      simp
    · intro hnone
      apply hold.2.2.2
      intro func hf
      exact (costed_ok_none_iff context functions arguments hall func hf).1 (hnone func hf)
  · intro hall
    rw [BindFunctionFromArguments_of_not_costed context name functions arguments error hall]
    exact ⟨rfl, rfl⟩

/-- Witness for C3: the set with `f(INTEGER)` registered twice and the argument list
`[INTEGER]` tie at cost 0 without an unknown argument, and the result is the ambiguity error;
the outcome is not deferred. -/
theorem tie_deferred_iff_unknown_witness :
    AllCosted (tableContext sampleCosts) twiceInt [LogicalType.INTEGER] ∧
    TiedAtMinimum (tableContext sampleCosts) twiceInt [LogicalType.INTEGER] ∧
    (∀ a ∈ [LogicalType.INTEGER], a.IsUnknown = false) ∧
    (∃ candidates e,
      BindFunctionsFromArguments (tableContext sampleCosts) "f" twiceInt
        [LogicalType.INTEGER] ErrorData.NONE = .ok (candidates, e) ∧
      2 ≤ candidates.length ∧
      BindFunctionFromArguments (tableContext sampleCosts) "f" twiceInt [LogicalType.INTEGER]
          ErrorData.NONE =
        .ok (MultipleCandidateException (tableContext sampleCosts) (firstCatalogName twiceInt)
          (firstSchemaName twiceInt) "f" twiceInt candidates [LogicalType.INTEGER]) ∧
      outcomeKind (BindFunctionFromArguments (tableContext sampleCosts) "f" twiceInt
        [LogicalType.INTEGER] ErrorData.NONE) = some OutcomeKind.Ambiguous) ∧
    outcomeKind (BindFunctionFromArguments (tableContext sampleCosts) "f" twiceInt
        [LogicalType.INTEGER] ErrorData.NONE) ≠ some OutcomeKind.Deferred :=
  have hall : AllCosted (tableContext sampleCosts) twiceInt [LogicalType.INTEGER] := by
    intro func hf
    simp only [twiceInt, List.mem_cons, List.mem_singleton, List.not_mem_nil,
      or_false, or_self] at hf
    subst hf
    exact ⟨some 0, rfl⟩
  have htie : TiedAtMinimum (tableContext sampleCosts) twiceInt [LogicalType.INTEGER] :=
    ⟨0, 1, fixedFunction "f(INTEGER)" [LogicalType.INTEGER],
      fixedFunction "f(INTEGER)" [LogicalType.INTEGER], 0, by decide, rfl, rfl, rfl, rfl,
      fun _ _ c' _ => Nat.zero_le c'⟩
  have hno : ∀ a ∈ [LogicalType.INTEGER], a.IsUnknown = false := by decide
  ⟨hall, htie, hno,
    ((tie_deferred_iff_unknown (tableContext sampleCosts) "f" twiceInt [LogicalType.INTEGER]
      ErrorData.NONE).1 hall htie).2 hno,
    ((tie_deferred_iff_unknown (tableContext sampleCosts) "f" twiceInt [LogicalType.INTEGER]
      ErrorData.NONE).2.1 hno).2.1⟩

/-- Counterexample to C3 as stated: for the set `f(INTEGER)`, `f(BIGINT)` the argument list
`[UNKNOWN]` is deferred, and with the placeholder replaced by `VARCHAR` no argument is unknown,
yet the outcome is neither chosen nor ambiguous: no overload is feasible and the result is the
invalid index with the `NoMatchingFunction` error. Moreover, for the set in which
`f(INTEGER, INTEGER, BOOLEAN)` is registered twice and followed by `f(BIGINT, BIGINT, BIGINT)`,
the arguments `INTEGER, INTEGER, BOOLEAN` contain no unknown placeholder and the first two
overloads tie at the minimal cost 0, yet the result is neither deferred nor ambiguous: the
costing of the third overload sums to `2 ^ 64 - 1` and throws the `InternalException`. -/
theorem no_unknown_yet_NoMatch :
    BindFunctionFromArguments (tableContext sampleCosts) "f" intOrBigint [LogicalType.UNKNOWN]
        ErrorData.NONE = .error BinderThrow.ParameterNotResolvedException ∧
    (∀ a ∈ [LogicalType.VARCHAR], a.IsUnknown = false) ∧
    BindFunctionFromArguments (tableContext sampleCosts) "f" intOrBigint [LogicalType.VARCHAR]
        ErrorData.NONE =
      .ok (none, ErrorData.NoMatchingFunction "" "" "f" [LogicalType.VARCHAR]
        ["f(INTEGER)", "f(BIGINT)"]) ∧
    outcomeKind (BindFunctionFromArguments (tableContext sampleCosts) "f" intOrBigint
        [LogicalType.VARCHAR] ErrorData.NONE) = some OutcomeKind.NoMatch ∧
    (∀ a ∈ largeArguments, a.IsUnknown = false) ∧
    TiedAtMinimum (tableContext largeCosts) twiceExactAndWide largeArguments ∧
    BindFunctionFromArguments (tableContext largeCosts) "f" twiceExactAndWide largeArguments
        ErrorData.NONE =
      .error (BinderThrow.InternalException
        "optional_idx cannot be initialized with an invalid index") ∧
    outcomeKind (BindFunctionFromArguments (tableContext largeCosts) "f" twiceExactAndWide
        largeArguments ErrorData.NONE) = none :=
  ⟨rfl, by decide, rfl, rfl, by decide,
    ⟨0, 1, exactOverload, exactOverload, 0, by decide, rfl, rfl, rfl, rfl,
      fun _ _ c' _ => Nat.zero_le c'⟩,
    rfl, rfl⟩

/-! ## Overload resolution: unknown-typed arguments -/

/-- C4 (amended): for every non-variadic overload and every argument list, an argument whose type
is the unknown placeholder is skipped by the cost loop, leaving the running cost unchanged, and
the cast cost oracle is not consulted for it: two oracles that agree on every pair whose source
is not unknown give the same result of `BindFunctionCost`, hence the same cost and the same
feasibility. If at least one argument is unknown, the argument count equals the parameter count
and every other argument has a non-negative cast cost to its parameter, `BindFunctionCost`
returns exactly zero. -/
theorem unknown_argument_cost_nonvariadic (func : SimpleFunction)
    (arguments : List LogicalType) (hv : func.HasVarArgs = false) :
    (∀ (context : ClientContext) (a : LogicalType) (rest : List LogicalType) (i cost : Nat)
        (has_parameter : Bool), a.id = LogicalTypeId.UNKNOWN →
      BindFunctionCostLoop context func (a :: rest) i cost has_parameter =
        BindFunctionCostLoop context func rest (i + 1) cost true) ∧
    (∀ context context' : ClientContext,
      (∀ s t : LogicalType, s.id ≠ LogicalTypeId.UNKNOWN →
        context.ImplicitCastCost s t = context'.ImplicitCastCost s t) →
      BindFunctionCost context func arguments = BindFunctionCost context' func arguments) ∧
    (∀ context : ClientContext, (∃ a ∈ arguments, a.id = LogicalTypeId.UNKNOWN) →
      arguments.length = func.arguments.length →
      (∀ (j : Nat) (a p : LogicalType), arguments[j]? = some a → func.arguments[j]? = some p →
        a.id ≠ LogicalTypeId.UNKNOWN → 0 ≤ context.ImplicitCastCost a p) →
      BindFunctionCost context func arguments = .ok (some 0)) := by
  have hold := costSum_unknown_nonvariadic func arguments hv
  refine ⟨hold.1, ?_, ?_⟩
  · intro context context' h
    rw [BindFunctionCost_eq, BindFunctionCost_eq, hold.2.1 context context' h]
  · intro context hu hlen hcast
    exact BindFunctionCost_of_sum_some context func arguments 0
      (hold.2.2 context hu hlen hcast) zero_ne_IDX_MAX

/-- Witness for C4: the non-variadic overload `f(VARCHAR, BIGINT)` called with
`[UNKNOWN, INTEGER]` has cost 0, although the cast of `INTEGER` to `BIGINT` costs 5. -/
theorem unknown_argument_cost_nonvariadic_witness :
    (fixedFunction "f" [LogicalType.VARCHAR, LogicalType.BIGINT]).HasVarArgs = false ∧
    (tableContext sampleCosts).ImplicitCastCost LogicalType.INTEGER LogicalType.BIGINT = 5 ∧
    BindFunctionCost (tableContext sampleCosts)
      (fixedFunction "f" [LogicalType.VARCHAR, LogicalType.BIGINT])
      [LogicalType.UNKNOWN, LogicalType.INTEGER] = .ok (some 0) :=
  ⟨rfl, rfl,
    (unknown_argument_cost_nonvariadic
      (fixedFunction "f" [LogicalType.VARCHAR, LogicalType.BIGINT])
      [LogicalType.UNKNOWN, LogicalType.INTEGER] rfl).2.2 (tableContext sampleCosts)
      ⟨LogicalType.UNKNOWN, by simp, rfl⟩ rfl
      (fun j a p hj hp hne => by
        match j with
        | 0 =>
          simp at hj
          subst hj
          exact absurd rfl hne
        | 1 =>
          simp [fixedFunction] at hj hp
          subst hj hp
          decide
        | n + 2 => simp at hj)⟩

/-- Counterexample to C4 as stated: for the variadic overload `v(INTEGER...)` called with
`[UNKNOWN]` the oracle is consulted for the unknown argument. With an oracle answering 3 the cost
is 3, with an oracle answering that no cast exists the overload is infeasible, although the two
oracles agree on every pair whose source is not unknown. With an oracle that casts the
placeholder at cost 0, the variadic overload `v(BIGINT...)` called with `[UNKNOWN, INTEGER]` is
feasible with cost 5, not 0. -/
theorem varargs_unknown_consults_oracle :
    (varargsFunction "v" [] LogicalType.INTEGER).HasVarArgs = true ∧
    BindFunctionCost (tableContext [((LogicalType.UNKNOWN, LogicalType.INTEGER), 3)])
      (varargsFunction "v" [] LogicalType.INTEGER) [LogicalType.UNKNOWN] = .ok (some 3) ∧
    BindFunctionCost (tableContext [])
      (varargsFunction "v" [] LogicalType.INTEGER) [LogicalType.UNKNOWN] = .ok none ∧
    (∀ s t : LogicalType, s.id ≠ LogicalTypeId.UNKNOWN →
      (tableContext [((LogicalType.UNKNOWN, LogicalType.INTEGER), 3)]).ImplicitCastCost s t =
        (tableContext []).ImplicitCastCost s t) ∧
    BindFunctionCost (tableContext unknownFreeCosts)
      (varargsFunction "v" [] LogicalType.BIGINT) [LogicalType.UNKNOWN, LogicalType.INTEGER] =
        .ok (some 5) := by
  refine ⟨rfl, rfl, rfl, ?_, rfl⟩
  intro s t hs
  have hne : ((s, t) == (LogicalType.UNKNOWN, LogicalType.INTEGER)) = false := by
    apply beq_false_of_ne
    intro h
    have h1 : s = LogicalType.UNKNOWN := congrArg Prod.fst h
    subst h1
    exact hs rfl
  simp [tableContext, List.lookup, hne]

/-- C5 (amended): for every overload set and every argument list that contains an
unknown-placeholder argument, if two distinct non-variadic overloads of the set are feasible,
then both have cost 0 whatever the cast costs of the known positions. When the costing of every
overload of the set completes, both are in the candidate list (cost eliminates neither) and
`BindFunctionFromArguments` throws `ParameterNotResolvedException`: the outcome is deferred, not
ambiguous and not a chosen overload. When the costing of some overload of the set throws,
`BindFunctionFromArguments` throws the `InternalException` of the conversion instead. -/
theorem two_fixed_feasible_deferred (context : ClientContext) (name : String)
    (functions : List SimpleFunction) (arguments : List LogicalType) (error : ErrorData)
    (i j : Nat) (fi fj : SimpleFunction)
    (hu : ∃ a ∈ arguments, a.id = LogicalTypeId.UNKNOWN) (hne : i ≠ j)
    (hfi : functions[i]? = some fi) (hfj : functions[j]? = some fj)
    (hvi : fi.HasVarArgs = false) (hvj : fj.HasVarArgs = false)
    (hci : BindFunctionCost context fi arguments ≠ .ok none)
    (hcj : BindFunctionCost context fj arguments ≠ .ok none) :
    BindFunctionCost context fi arguments = .ok (some 0) ∧
    BindFunctionCost context fj arguments = .ok (some 0) ∧
    (AllCosted context functions arguments →
      (∃ candidates e,
        BindFunctionsFromArguments context name functions arguments error =
          .ok (candidates, e) ∧ i ∈ candidates ∧ j ∈ candidates) ∧
      BindFunctionFromArguments context name functions arguments error =
        .error BinderThrow.ParameterNotResolvedException ∧
      outcomeKind (BindFunctionFromArguments context name functions arguments error) =
        some OutcomeKind.Deferred) ∧
    (¬ AllCosted context functions arguments →
      BindFunctionFromArguments context name functions arguments error =
        .error (BinderThrow.InternalException invalidIndexMessage)) := by
  have hsi : costSum context fi arguments ≠ none :=
    fun h => hci (BindFunctionCost_of_sum_none context fi arguments h)
  have hsj : costSum context fj arguments ≠ none :=
    fun h => hcj (BindFunctionCost_of_sum_none context fj arguments h)
  have hold := resolveBySum_two_fixed context name functions arguments error i j fi fj hu hne
    hfi hfj hvi hvj hsi hsj
  refine ⟨BindFunctionCost_of_sum_some context fi arguments 0 hold.1 zero_ne_IDX_MAX,
    BindFunctionCost_of_sum_some context fj arguments 0 hold.2.1 zero_ne_IDX_MAX, ?_, ?_⟩
  · intro hall
    rw [BindFunctionFromArguments_of_costed context name functions arguments error hall]
    exact ⟨⟨(scanCandidates context name functions arguments error).1,
        (scanCandidates context name functions arguments error).2,
        BindFunctionsFromArguments_of_costed context name functions arguments error hall,
        hold.2.2.1, hold.2.2.2.1⟩,
      hold.2.2.2.2.1, hold.2.2.2.2.2⟩
  · exact BindFunctionFromArguments_of_not_costed context name functions arguments error

/-- Witness for C5: the set `f(INTEGER)`, `f(BIGINT)` called with `[UNKNOWN]`. -/
theorem two_fixed_feasible_deferred_witness :
    AllCosted (tableContext sampleCosts) intOrBigint [LogicalType.UNKNOWN] ∧
    BindFunctionFromArguments (tableContext sampleCosts) "f" intOrBigint [LogicalType.UNKNOWN]
      ErrorData.NONE = .error BinderThrow.ParameterNotResolvedException :=
  have hall : AllCosted (tableContext sampleCosts) intOrBigint [LogicalType.UNKNOWN] := by
    intro func hf
    simp only [intOrBigint, List.mem_cons, List.mem_singleton, List.not_mem_nil,
      or_false] at hf
    rcases hf with rfl | rfl
    · exact ⟨some 0, rfl⟩
    · exact ⟨some 0, rfl⟩
  ⟨hall,
    ((two_fixed_feasible_deferred (tableContext sampleCosts) "f" intOrBigint
      [LogicalType.UNKNOWN] ErrorData.NONE 0 1
      (fixedFunction "f(INTEGER)" [LogicalType.INTEGER])
      (fixedFunction "f(BIGINT)" [LogicalType.BIGINT])
      ⟨LogicalType.UNKNOWN, by simp, rfl⟩ (by decide) rfl rfl rfl rfl
      (fun h => by
        have h' : (Except.ok (some 0) : Except BinderThrow (Option Nat)) = .ok none := h
        cases h')
      (fun h => by
        have h' : (Except.ok (some 0) : Except BinderThrow (Option Nat)) = .ok none := h
        cases h')).2.2.1 hall).2.1⟩

/-- Counterexample to C5 as stated: the argument list `[UNKNOWN, INTEGER]` contains an unknown
argument and the two overloads `v(VARCHAR, BIGINT...)` and `n(VARCHAR, BIGINT)` are both feasible
and tied on the cast cost of the known position (5 each, the placeholder itself casting at cost
0), yet the variadic overload keeps cost 5 while the non-variadic one gets cost 0, so cost
eliminates the variadic overload and resolution returns the chosen index 1 instead of deferring.
Moreover, for the set `f(VARCHAR, INTEGER, BOOLEAN)`, `f(BIGINT, INTEGER, BOOLEAN)`,
`f(BIGINT...)` and the arguments `UNKNOWN, INTEGER, BOOLEAN` the two non-variadic overloads are
feasible with cost 0, yet resolution does not defer: the cast costs of the variadic overload sum
to `2 ^ 64 - 1` and its costing throws the `InternalException`. -/
theorem tied_on_known_positions_yet_chosen :
    LogicalType.UNKNOWN ∈ [LogicalType.UNKNOWN, LogicalType.INTEGER] ∧
    knownPositionsCost (tableContext unknownFreeCosts)
        (varargsFunction "v(VARCHAR, BIGINT...)" [LogicalType.VARCHAR] LogicalType.BIGINT)
        [LogicalType.UNKNOWN, LogicalType.INTEGER] = 5 ∧
    knownPositionsCost (tableContext unknownFreeCosts)
        (fixedFunction "n(VARCHAR, BIGINT)" [LogicalType.VARCHAR, LogicalType.BIGINT])
        [LogicalType.UNKNOWN, LogicalType.INTEGER] = 5 ∧
    BindFunctionCost (tableContext unknownFreeCosts)
        (varargsFunction "v(VARCHAR, BIGINT...)" [LogicalType.VARCHAR] LogicalType.BIGINT)
        [LogicalType.UNKNOWN, LogicalType.INTEGER] = .ok (some 5) ∧
    BindFunctionCost (tableContext unknownFreeCosts)
        (fixedFunction "n(VARCHAR, BIGINT)" [LogicalType.VARCHAR, LogicalType.BIGINT])
        [LogicalType.UNKNOWN, LogicalType.INTEGER] = .ok (some 0) ∧
    BindFunctionsFromArguments (tableContext unknownFreeCosts) "f" variadicAndFixed
        [LogicalType.UNKNOWN, LogicalType.INTEGER] ErrorData.NONE =
      .ok ([1], ErrorData.NONE) ∧
    BindFunctionFromArguments (tableContext unknownFreeCosts) "f" variadicAndFixed
        [LogicalType.UNKNOWN, LogicalType.INTEGER] ErrorData.NONE =
      .ok (some 1, ErrorData.NONE) ∧
    (twoFixedAndVarargs.map (fun func =>
        BindFunctionCost (tableContext largeUnknownCosts) func
          [LogicalType.UNKNOWN, LogicalType.INTEGER, LogicalType.BOOLEAN])) =
      [.ok (some 0), .ok (some 0),
        .error (BinderThrow.InternalException
          "optional_idx cannot be initialized with an invalid index")] ∧
    BindFunctionFromArguments (tableContext largeUnknownCosts) "f" twoFixedAndVarargs
        [LogicalType.UNKNOWN, LogicalType.INTEGER, LogicalType.BOOLEAN] ErrorData.NONE =
      .error (BinderThrow.InternalException
        "optional_idx cannot be initialized with an invalid index") :=
  ⟨by decide, by decide, by decide, rfl, rfl, rfl, rfl, rfl, rfl⟩

/-! ## Overload resolution: exact matches -/

/-- C6 (amended): if every argument type structurally equals the corresponding effective
parameter type of overload `i` and the argument count is admissible for it, then
`BindFunctionCost` gives overload `i` cost 0, provided that, when overload `i` is not variadic,
the oracle reports cost 0 for casting each argument type other than the unknown placeholder to
every type structurally equal to it. If moreover the costing of every overload of the set
completes and no other overload of the set has cost 0, `BindFunctionFromArguments` returns the
valid index `i` and leaves the error untouched: the outcome is chosen, not deferred, ambiguous
or no match. If the costing of some overload of the set throws, `BindFunctionFromArguments`
throws the `InternalException` of the conversion instead. -/
theorem exact_match_zero_and_chosen (context : ClientContext) (name : String)
    (functions : List SimpleFunction) (arguments : List LogicalType) (error : ErrorData)
    (i : Nat) (func : SimpleFunction) (hf : functions[i]? = some func)
    (hexact : exactMatch func arguments = true)
    (hcount : admissibleCount func arguments = true)
    (hid : func.HasVarArgs = false → ∀ a ∈ arguments, ∀ p : LogicalType,
      a.stripCollation = p.stripCollation → a.id ≠ LogicalTypeId.UNKNOWN →
      context.ImplicitCastCost a p = 0) :
    BindFunctionCost context func arguments = .ok (some 0) ∧
    (AllCosted context functions arguments →
      (∀ (j : Nat) (other : SimpleFunction), j ≠ i → functions[j]? = some other →
        BindFunctionCost context other arguments ≠ .ok (some 0)) →
      BindFunctionFromArguments context name functions arguments error =
          .ok (some i, error) ∧
        outcomeKind (BindFunctionFromArguments context name functions arguments error) =
          some OutcomeKind.Chosen) ∧
    (¬ AllCosted context functions arguments →
      BindFunctionFromArguments context name functions arguments error =
        .error (BinderThrow.InternalException invalidIndexMessage)) := by
  have hold := resolveBySum_exact context name functions arguments error i func hf hexact
    hcount hid
  refine ⟨BindFunctionCost_of_sum_some context func arguments 0 hold.1 zero_ne_IDX_MAX, ?_, ?_⟩
  · intro hall hothers
    have hres : BindFunctionFromArguments context name functions arguments error =
        .ok (some i, error) := by
      rw [BindFunctionFromArguments_of_costed context name functions arguments error hall]
      apply hold.2
      intro j other hne ho hs
      exact hothers j other hne ho
        ((costed_ok_some_iff context functions arguments hall other
          (List.getElem?_mem ho) 0).2 hs)
    refine ⟨hres, ?_⟩
    rw [hres]
    rfl
  · exact BindFunctionFromArguments_of_not_costed context name functions arguments error

/-- Witness for C6: the set `f(INTEGER)`, `f(BIGINT)` called with `[INTEGER]` under an oracle in
which the identical cast costs 0 and the cast to `BIGINT` costs 5. -/
theorem exact_match_zero_and_chosen_witness :
    BindFunctionCost (tableContext sampleCosts)
      (fixedFunction "f(INTEGER)" [LogicalType.INTEGER]) [LogicalType.INTEGER] =
        .ok (some 0) ∧
    AllCosted (tableContext sampleCosts) intOrBigint [LogicalType.INTEGER] ∧
    BindFunctionFromArguments (tableContext sampleCosts) "f" intOrBigint [LogicalType.INTEGER]
      ErrorData.NONE = .ok (some 0, ErrorData.NONE) :=
  have h := exact_match_zero_and_chosen (tableContext sampleCosts) "f" intOrBigint
    [LogicalType.INTEGER] ErrorData.NONE 0 (fixedFunction "f(INTEGER)" [LogicalType.INTEGER])
    rfl rfl rfl
    (fun _ a ha p hp _ => by
      simp at ha
      subst ha
      cases p <;> first | rfl | simp [LogicalType.stripCollation] at hp)
  have hall : AllCosted (tableContext sampleCosts) intOrBigint [LogicalType.INTEGER] := by
    intro func hf
    simp only [intOrBigint, List.mem_cons, List.mem_singleton, List.not_mem_nil,
      or_false] at hf
    rcases hf with rfl | rfl
    · exact ⟨some 0, rfl⟩
    · exact ⟨some 5, rfl⟩
  ⟨h.1, hall, (h.2.1 hall (fun j other hne ho => by
    match j with
    | 0 => exact absurd rfl hne
    | 1 =>
      simp [intOrBigint] at ho
      subst ho
      intro hc
      have hc' : (Except.ok (some 5) : Except BinderThrow (Option Nat)) = .ok (some 0) := hc
      cases hc'
    | n + 2 => simp [intOrBigint] at ho)).1⟩

/-- Counterexample to C6 as stated. First, the non-variadic overload `f(INTEGER)` called with
`[INTEGER]` is an exact match, but its cost is what the oracle reports for the identical pair:
7 under an oracle that reports 7. Second, under an oracle in which both the identical cast and the
cast of `INTEGER` to `BIGINT` cost 0, overload 0 of the set `f(INTEGER)`, `f(BIGINT)` is the only
exact match for `[INTEGER]`, yet both overloads tie at cost 0 and the result is the invalid index
with the ambiguity error, not the chosen index 0. Third, in the set
`f(INTEGER, INTEGER, BOOLEAN)`, `f(BIGINT, BIGINT, BIGINT)` overload 0 is the only exact match
for `INTEGER, INTEGER, BOOLEAN` and has cost 0, yet the index 0 is not returned: the cast costs of
the other overload sum to `2 ^ 64 - 1` and its costing throws the `InternalException`. -/
theorem exact_match_not_zero_nor_chosen :
    (exactMatch (fixedFunction "f(INTEGER)" [LogicalType.INTEGER]) [LogicalType.INTEGER] = true ∧
      admissibleCount (fixedFunction "f(INTEGER)" [LogicalType.INTEGER]) [LogicalType.INTEGER] =
        true ∧
      BindFunctionCost (tableContext [((LogicalType.INTEGER, LogicalType.INTEGER), 7)])
        (fixedFunction "f(INTEGER)" [LogicalType.INTEGER]) [LogicalType.INTEGER] =
          .ok (some 7)) ∧
    (exactMatch (fixedFunction "f(INTEGER)" [LogicalType.INTEGER]) [LogicalType.INTEGER] = true ∧
      exactMatch (fixedFunction "f(BIGINT)" [LogicalType.BIGINT]) [LogicalType.INTEGER] = false ∧
      BindFunctionsFromArguments
        (tableContext [((LogicalType.INTEGER, LogicalType.INTEGER), 0),
          ((LogicalType.INTEGER, LogicalType.BIGINT), 0)]) "f" intOrBigint
        [LogicalType.INTEGER] ErrorData.NONE = .ok ([1, 0], ErrorData.NONE) ∧
      outcomeKind (BindFunctionFromArguments
        (tableContext [((LogicalType.INTEGER, LogicalType.INTEGER), 0),
          ((LogicalType.INTEGER, LogicalType.BIGINT), 0)]) "f" intOrBigint
        [LogicalType.INTEGER] ErrorData.NONE) = some OutcomeKind.Ambiguous) ∧
    (exactMatch exactOverload largeArguments = true ∧
      exactMatch wideOverload largeArguments = false ∧
      BindFunctionCost (tableContext largeCosts) exactOverload largeArguments = .ok (some 0) ∧
      BindFunctionFromArguments (tableContext largeCosts) "f" [exactOverload, wideOverload]
          largeArguments ErrorData.NONE =
        .error (BinderThrow.InternalException
          "optional_idx cannot be initialized with an invalid index")) :=
  ⟨⟨rfl, rfl, rfl⟩, ⟨rfl, rfl, rfl, rfl⟩, ⟨rfl, rfl, rfl, rfl⟩⟩

/-! ## Overload resolution: the order of the set -/

theorem resolveBySum_error (context : ClientContext) (name : String)
    (functions : List SimpleFunction) (arguments : List LogicalType) (error : ErrorData)
    (t : BinderThrow) (h : resolveBySum context name functions arguments error = .error t) :
    t = BinderThrow.ParameterNotResolvedException := by
  unfold resolveBySum at h
  simp only at h
  split at h
  · simp at h
  · simp at h
  · split at h
    · exact (Except.error.inj h).symm
    · simp [MultipleCandidateException] at h

theorem outcomeKind_deferred_iff (r : Except BinderThrow (Option Nat × ErrorData)) :
    outcomeKind r = some OutcomeKind.Deferred ↔
      r = .error BinderThrow.ParameterNotResolvedException := by
  constructor
  · intro h
    match r, h with
    | .error BinderThrow.ParameterNotResolvedException, _ => rfl
    | .error (BinderThrow.InternalException _), h => simp [outcomeKind] at h
    | .error (BinderThrow.BinderException _), h => simp [outcomeKind] at h
    | .ok (some _, _), h => simp [outcomeKind] at h
    | .ok (none, ErrorData.BINDER _), h => simp [outcomeKind] at h
    | .ok (none, ErrorData.NONE), h => simp [outcomeKind] at h
    | .ok (none, ErrorData.NoMatchingFunction _ _ _ _ _), h => simp [outcomeKind] at h
  · intro h
    rw [h]
    rfl

theorem AllCosted_perm (context : ClientContext) (functions functions' : List SimpleFunction)
    (arguments : List LogicalType) (hperm : functions.Perm functions') :
    AllCosted context functions arguments ↔ AllCosted context functions' arguments := by
  unfold AllCosted
  constructor
  · intro h func hf
    exact h func (hperm.symm.subset hf)
  · intro h func hf
    exact h func (hperm.subset hf)

/-- C7: resolution is independent of the order of the overload set. For every permutation
`functions'` of `functions` and every argument list, each overload keeps the result of
`BindFunctionCost`, the outcome (chosen, deferred, ambiguous, no match, or none of them when an
exception other than `ParameterNotResolvedException` is thrown) is the same, the same exceptions
are thrown, `BindFunctionsFromArguments` returns a candidate list for both sets or for neither,
and when it does, an index of `functions` and an index of `functions'` that name the same
overload are both in their candidate list or both outside, and the overloads named by the two
candidate lists are the same up to order. -/
theorem resolution_order_independent (context : ClientContext) (name : String)
    (functions functions' : List SimpleFunction) (arguments : List LogicalType)
    (error : ErrorData) (hperm : functions.Perm functions') :
    (functions.map (fun func => (func, BindFunctionCost context func arguments))).Perm
      (functions'.map (fun func => (func, BindFunctionCost context func arguments))) ∧
    outcomeKind (BindFunctionFromArguments context name functions arguments error) =
      outcomeKind (BindFunctionFromArguments context name functions' arguments error) ∧
    (∀ t, BindFunctionFromArguments context name functions arguments error = .error t ↔
      BindFunctionFromArguments context name functions' arguments error = .error t) ∧
    ((∃ r, BindFunctionsFromArguments context name functions arguments error = .ok r) ↔
      (∃ r', BindFunctionsFromArguments context name functions' arguments error = .ok r')) ∧
    (∀ candidates e candidates' e',
      BindFunctionsFromArguments context name functions arguments error =
        .ok (candidates, e) →
      BindFunctionsFromArguments context name functions' arguments error =
        .ok (candidates', e') →
      (∀ (i j : Nat) (func : SimpleFunction), functions[i]? = some func →
        functions'[j]? = some func → (i ∈ candidates ↔ j ∈ candidates')) ∧
      (candidates.map (GetFunctionByOffset functions)).Perm
        (candidates'.map (GetFunctionByOffset functions'))) := by
  refine ⟨hperm.map _, ?_⟩
  by_cases hall : AllCosted context functions arguments
  · have hall' := (AllCosted_perm context functions functions' arguments hperm).1 hall
    have hold := resolveBySum_perm context name functions functions' arguments error hperm
    rw [BindFunctionFromArguments_of_costed context name functions arguments error hall,
      BindFunctionFromArguments_of_costed context name functions' arguments error hall',
      BindFunctionsFromArguments_of_costed context name functions arguments error hall,
      BindFunctionsFromArguments_of_costed context name functions' arguments error hall']
    refine ⟨hold.2.1, ?_, ?_, ?_⟩
    · intro t
      constructor
      · intro h
        have ht := resolveBySum_error context name functions arguments error t h
        subst ht
        apply (outcomeKind_deferred_iff _).1
        rw [← hold.2.1]
        exact (outcomeKind_deferred_iff _).2 h
      · intro h
        have ht := resolveBySum_error context name functions' arguments error t h
        subst ht
        apply (outcomeKind_deferred_iff _).1
        rw [hold.2.1]
        exact (outcomeKind_deferred_iff _).2 h
    · exact ⟨fun _ => ⟨_, rfl⟩, fun _ => ⟨_, rfl⟩⟩
    · intro candidates e candidates' e' h h'
      have h1 : (scanCandidates context name functions arguments error).1 = candidates := by
        rw [Except.ok.inj h]
      have h2 : (scanCandidates context name functions' arguments error).1 = candidates' := by
        rw [Except.ok.inj h']
      rw [← h1, ← h2]
      exact ⟨hold.2.2.1, hold.2.2.2⟩
  · have hall' : ¬ AllCosted context functions' arguments :=
      fun h => hall ((AllCosted_perm context functions functions' arguments hperm).2 h)
    rw [BindFunctionFromArguments_of_not_costed context name functions arguments error hall,
      BindFunctionFromArguments_of_not_costed context name functions' arguments error hall',
      BindFunctionsFromArguments_of_not_costed context name functions arguments error hall,
      BindFunctionsFromArguments_of_not_costed context name functions' arguments error hall']
    refine ⟨rfl, fun t => Iff.rfl, ?_, ?_⟩
    · constructor
      · rintro ⟨r, hr⟩
        cases hr
      · rintro ⟨r, hr⟩
        cases hr
    · intro candidates e candidates' e' h
      cases h

/-- Witness for C7: the set `f(INTEGER)`, `f(BIGINT)` and the same set with the two overloads
swapped resolve the call with `[INTEGER]` to the same overload, index 0 in the first and index 1
in the second. -/
theorem resolution_order_independent_witness :
    BindFunctionsFromArguments (tableContext sampleCosts) "f" intOrBigint
        [LogicalType.INTEGER] ErrorData.NONE = .ok ([0], ErrorData.NONE) ∧
    BindFunctionsFromArguments (tableContext sampleCosts) "f" intOrBigint.reverse
        [LogicalType.INTEGER] ErrorData.NONE = .ok ([1], ErrorData.NONE) ∧
    ([0].map (GetFunctionByOffset intOrBigint)).Perm
      ([1].map (GetFunctionByOffset intOrBigint.reverse)) ∧
    outcomeKind (BindFunctionFromArguments (tableContext sampleCosts) "f" intOrBigint
        [LogicalType.INTEGER] ErrorData.NONE) =
      outcomeKind (BindFunctionFromArguments (tableContext sampleCosts) "f"
        intOrBigint.reverse [LogicalType.INTEGER] ErrorData.NONE) :=
  have h := resolution_order_independent (tableContext sampleCosts) "f" intOrBigint
    intOrBigint.reverse [LogicalType.INTEGER] ErrorData.NONE
    (List.reverse_perm intOrBigint).symm
  ⟨rfl, rfl, (h.2.2.2.2 [0] ErrorData.NONE [1] ErrorData.NONE rfl rfl).2, h.2.1⟩

/-! ## Overload resolution: the order of the candidate list -/

theorem mem_tiedIndices_iff (context : ClientContext) (functions : List SimpleFunction)
    (arguments : List LogicalType) (m j : Nat) :
    j ∈ tiedIndices context functions arguments m ↔
      ∃ func, functions[j]? = some func ∧
        BindFunctionCost context func arguments = .ok (some m) := by
  unfold tiedIndices
  rw [List.mem_filter, List.mem_range, decide_eq_true_eq]
  unfold costAt
  constructor
  · rintro ⟨hj, h⟩
    rw [List.getElem?_eq_getElem hj] at h
    refine ⟨functions[j], List.getElem?_eq_getElem hj, ?_⟩
    simp only at h
    cases hc : BindFunctionCost context functions[j] arguments with
    | error e =>
      rw [hc] at h
      simp at h
    | ok r =>
      rw [hc] at h
      simp only at h
      rw [h]
  · rintro ⟨func, hf, hc⟩
    refine ⟨(List.getElem?_eq_some_iff.1 hf).1, ?_⟩
    rw [hf]
    simp only [hc]

theorem firstToEnd_perm (l : List Nat) : (firstToEnd l).Perm l := by
  cases l with
  | nil => exact List.Perm.refl _
  | cons a t =>
    unfold firstToEnd
    exact List.perm_append_singleton a t

/-- C21 (amended): let `m` be the minimal cost that `BindFunctionCost` yields for an overload of
the set. When the costing of every overload completes, the candidate list returned by
`BindFunctionsFromArguments` is the list of the indices of the overloads of cost `m`, in
ascending set order, with its first (smallest) entry moved to the end, and the incoming error is
returned untouched; the list holds exactly the tied overloads, without duplicates. When at least
two overloads tie and no argument is the unknown placeholder, `BindFunctionFromArguments` returns
the invalid index with the diagnostic of `MultipleCandidateException`, which enumerates the
renderings of the candidates in the order of that list. When the costing of some overload
throws, both functions throw the `InternalException` of the conversion and no list is
returned. -/
theorem candidates_first_tied_last (context : ClientContext) (name : String)
    (functions : List SimpleFunction) (arguments : List LogicalType) (error : ErrorData)
    (m : Nat)
    (hfeas : ∃ func ∈ functions, BindFunctionCost context func arguments = .ok (some m))
    (hmin : ∀ func ∈ functions, ∀ c,
      BindFunctionCost context func arguments = .ok (some c) → m ≤ c) :
    (∀ j, j ∈ tiedIndices context functions arguments m ↔
      ∃ func, functions[j]? = some func ∧
        BindFunctionCost context func arguments = .ok (some m)) ∧
    (tiedIndices context functions arguments m).Pairwise (fun a b => a < b) ∧
    (AllCosted context functions arguments →
      BindFunctionsFromArguments context name functions arguments error =
        .ok (firstToEnd (tiedIndices context functions arguments m), error) ∧
      (firstToEnd (tiedIndices context functions arguments m)).Nodup ∧
      (∀ j, j ∈ firstToEnd (tiedIndices context functions arguments m) ↔
        j ∈ tiedIndices context functions arguments m) ∧
      (2 ≤ (tiedIndices context functions arguments m).length →
        (∀ a ∈ arguments, a.IsUnknown = false) →
        BindFunctionFromArguments context name functions arguments error =
          .ok (none, ErrorData.BINDER
            (ambiguityHeader (context.CallToString (firstCatalogName functions)
                (firstSchemaName functions) name arguments) ++
              candidateLines context functions
                (firstToEnd (tiedIndices context functions arguments m)))))) ∧
    (¬ AllCosted context functions arguments →
      BindFunctionsFromArguments context name functions arguments error =
          .error (BinderThrow.InternalException invalidIndexMessage) ∧
        BindFunctionFromArguments context name functions arguments error =
          .error (BinderThrow.InternalException invalidIndexMessage)) := by
  have hsorted : (tiedIndices context functions arguments m).Pairwise (fun a b => a < b) :=
    List.Pairwise.sublist (List.filter_sublist _) (List.pairwise_lt_range _)
  refine ⟨mem_tiedIndices_iff context functions arguments m, hsorted, ?_, ?_⟩
  · intro hall
    obtain ⟨fm, hfm, hcm⟩ := hfeas
    have hsm := (costed_ok_some_iff context functions arguments hall fm hfm m).1 hcm
    have hfeas' : ∃ func ∈ functions, costSum context func arguments = some m :=
      ⟨fm, hfm, hsm⟩
    have hmin' : ∀ func ∈ functions, ∀ c, costSum context func arguments = some c → m ≤ c :=
      fun func hf c hc =>
        hmin func hf c ((costed_ok_some_iff context functions arguments hall func hf c).2 hc)
    have hlt : m < IDX_MAX := by
      have hle := costSum_le_max context fm arguments m hsm
      have hne : m ≠ IDX_MAX := fun h =>
        (AllCosted_iff context functions arguments).1 hall fm hfm (by rw [hsm, h])
      omega
    have hold := scanCandidates_order context name functions arguments error m hfeas' hmin'
    have hties := tiedIndices_of_costed context functions arguments hall m
    have hlist : (scanCandidates context name functions arguments error).1 =
        firstToEnd (tiedIndices context functions arguments m) := by
      rw [hties]
      exact hold.2.2.2.2.1 hlt
    have hlow := lowest_cost_eq_of_minimal context functions arguments m hfeas' hmin'
    have hsnd : (scanCandidates context name functions arguments error).2 = error :=
      scanCandidates_snd_of_lt context name functions arguments error (by rw [hlow]; exact hlt)
    have hperm := firstToEnd_perm (tiedIndices context functions arguments m)
    refine ⟨?_, ?_, ?_, ?_⟩
    · rw [BindFunctionsFromArguments_of_costed context name functions arguments error hall]
      exact congrArg Except.ok (Prod.ext hlist hsnd)
    · exact hperm.symm.nodup (hsorted.imp (fun h => Nat.ne_of_lt h))
    · exact fun j => hperm.mem_iff
    · intro htwo hno
      rw [BindFunctionFromArguments_of_costed context name functions arguments error hall,
        ← hlist]
      apply hold.2.2.2.2.2.2 _ hno
      rw [← hties]
      exact htwo
  · intro hall
    exact ⟨BindFunctionsFromArguments_of_not_costed context name functions arguments error hall,
      BindFunctionFromArguments_of_not_costed context name functions arguments error hall⟩

/-- Witness for C21: for the set `f(BIGINT, BIGINT)`, `f(INTEGER, BIGINT)`, `f(BIGINT, INTEGER)`,
`f(INTEGER, BIGINT...)` and the arguments `[INTEGER, INTEGER]` the minimal cost 5 is attained by
the overloads 1, 2 and 3; the candidate list is `[2, 3, 1]` and the diagnostic enumerates the
three overloads in that order. -/
theorem candidates_first_tied_last_witness :
    (fourOverloads.map (fun func =>
        BindFunctionCost (tableContext sampleCosts) func
          [LogicalType.INTEGER, LogicalType.INTEGER])) =
      [.ok (some 10), .ok (some 5), .ok (some 5), .ok (some 5)] ∧
    tiedIndices (tableContext sampleCosts) fourOverloads
        [LogicalType.INTEGER, LogicalType.INTEGER] 5 = [1, 2, 3] ∧
    firstToEnd [1, 2, 3] = [2, 3, 1] ∧
    BindFunctionsFromArguments (tableContext sampleCosts) "f" fourOverloads
        [LogicalType.INTEGER, LogicalType.INTEGER] ErrorData.NONE =
      .ok (firstToEnd [1, 2, 3], ErrorData.NONE) ∧
    BindFunctionFromArguments (tableContext sampleCosts) "f" fourOverloads
        [LogicalType.INTEGER, LogicalType.INTEGER] ErrorData.NONE =
      .ok (none, ErrorData.BINDER
        (ambiguityHeader "f" ++
          candidateLines (tableContext sampleCosts) fourOverloads [2, 3, 1])) ∧
    candidateLines (tableContext sampleCosts) fourOverloads [2, 3, 1] =
      "\tf(BIGINT, INTEGER)\n\tf(INTEGER, BIGINT...)\n\tf(INTEGER, BIGINT)\n" :=
  have hcosts : ∀ func ∈ fourOverloads,
      BindFunctionCost (tableContext sampleCosts) func
          [LogicalType.INTEGER, LogicalType.INTEGER] = .ok (some 10) ∨
        BindFunctionCost (tableContext sampleCosts) func
          [LogicalType.INTEGER, LogicalType.INTEGER] = .ok (some 5) := by
    intro func hf
    simp only [fourOverloads, List.mem_cons, List.mem_singleton, List.not_mem_nil,
      or_false] at hf
    rcases hf with rfl | rfl | rfl | rfl
    · exact Or.inl rfl
    · exact Or.inr rfl
    · exact Or.inr rfl
    · exact Or.inr rfl
  have hall : AllCosted (tableContext sampleCosts) fourOverloads
      [LogicalType.INTEGER, LogicalType.INTEGER] := by
    intro func hf
    rcases hcosts func hf with h | h
    · exact ⟨_, h⟩
    · exact ⟨_, h⟩
  have hfeas : ∃ func ∈ fourOverloads,
      BindFunctionCost (tableContext sampleCosts) func
        [LogicalType.INTEGER, LogicalType.INTEGER] = .ok (some 5) :=
    ⟨fixedFunction "f(INTEGER, BIGINT)" [LogicalType.INTEGER, LogicalType.BIGINT],
      by simp [fourOverloads], rfl⟩
  have hmin : ∀ func ∈ fourOverloads, ∀ c,
      BindFunctionCost (tableContext sampleCosts) func
        [LogicalType.INTEGER, LogicalType.INTEGER] = .ok (some c) → 5 ≤ c := by
    intro func hf c hc
    rcases hcosts func hf with h | h
    · rw [h] at hc
      cases hc
      decide
    · rw [h] at hc
      cases hc
      decide
  have hres := (candidates_first_tied_last (tableContext sampleCosts) "f" fourOverloads
    [LogicalType.INTEGER, LogicalType.INTEGER] ErrorData.NONE 5 hfeas hmin).2.2.1 hall
  ⟨rfl, rfl, rfl, hres.1, hres.2.2.2 (by decide) (by decide), rfl⟩

/-- Counterexample to C21 as stated: the overloads `f(INTEGER, BIGINT)` (index 0) and
`f(BIGINT, INTEGER)` (index 1) tie at the minimal cost 5 for the arguments `[INTEGER, INTEGER]`;
the candidate list returned is `[1, 0]`, which is not in ascending order, and the diagnostic
enumerates `f(BIGINT, INTEGER)` before `f(INTEGER, BIGINT)`. Moreover, in the set in which
`f(INTEGER, INTEGER, BOOLEAN)` is registered twice and followed by `f(BIGINT, BIGINT, BIGINT)`,
the first two overloads tie at the minimal cost 0 for `INTEGER, INTEGER, BOOLEAN`, yet no
candidate list is returned: the cast costs of the third overload sum to `2 ^ 64 - 1` and its
costing throws the `InternalException`. -/
theorem tied_candidates_not_ascending :
    TiedAtMinimum (tableContext sampleCosts) mixedPair
      [LogicalType.INTEGER, LogicalType.INTEGER] ∧
    tiedIndices (tableContext sampleCosts) mixedPair
      [LogicalType.INTEGER, LogicalType.INTEGER] 5 = [0, 1] ∧
    BindFunctionsFromArguments (tableContext sampleCosts) "f" mixedPair
        [LogicalType.INTEGER, LogicalType.INTEGER] ErrorData.NONE =
      .ok ([1, 0], ErrorData.NONE) ∧
    ¬ [1, 0].Pairwise (fun a b : Nat => a < b) ∧
    BindFunctionFromArguments (tableContext sampleCosts) "f" mixedPair
        [LogicalType.INTEGER, LogicalType.INTEGER] ErrorData.NONE =
      .ok (none, ErrorData.BINDER
        ("Could not choose a best candidate function for the function call \"f\". In order " ++
          "to select one, please add explicit type casts.\n\tCandidate functions:\n" ++
          "\tf(BIGINT, INTEGER)\n" ++ "\tf(INTEGER, BIGINT)\n")) ∧
    TiedAtMinimum (tableContext largeCosts) twiceExactAndWide largeArguments ∧
    BindFunctionsFromArguments (tableContext largeCosts) "f" twiceExactAndWide largeArguments
        ErrorData.NONE =
      .error (BinderThrow.InternalException
        "optional_idx cannot be initialized with an invalid index") :=
  have hmin : ∀ func ∈ mixedPair, ∀ c,
      BindFunctionCost (tableContext sampleCosts) func
        [LogicalType.INTEGER, LogicalType.INTEGER] = .ok (some c) → 5 ≤ c := by
    intro func hf c hc
    simp only [mixedPair, List.mem_cons, List.mem_singleton, List.not_mem_nil,
      or_false] at hf
    rcases hf with rfl | rfl
    · have h : (Except.ok (some 5) : Except BinderThrow (Option Nat)) = .ok (some c) := hc
      cases h
      decide
    · have h : (Except.ok (some 5) : Except BinderThrow (Option Nat)) = .ok (some c) := hc
      cases h
      decide
  ⟨⟨0, 1, fixedFunction "f(INTEGER, BIGINT)" [LogicalType.INTEGER, LogicalType.BIGINT],
      fixedFunction "f(BIGINT, INTEGER)" [LogicalType.BIGINT, LogicalType.INTEGER], 5,
      by decide, rfl, rfl, rfl, rfl, hmin⟩,
    rfl, rfl, by decide, rfl,
    ⟨0, 1, exactOverload, exactOverload, 0, by decide, rfl, rfl, rfl, rfl,
      fun _ _ c' _ => Nat.zero_le c'⟩,
    rfl⟩

end duckdb
